import Mathlib

/-!
CDCL SAT solver (solver.h / solver.cpp): shallow embedding

Modelling conventions.

* C++ `int` is the 32-bit two's-complement type and is modelled by `Int`.  Two
  operations of the program can leave the range of `int` on a representable argument,
  both at `INT_MIN = -2147483648`: `std::abs(litVal)` in `CNFSolver` and the unary minus
  of `Literal::getValue`.  Their result wraps around to `INT_MIN`, which `wrapInt32`
  models.  No other arithmetic of the solver (decision levels, counters) can overflow
  before memory is exhausted.  Integers outside the range of `int` do not occur in the
  program.
* The `double` activities only ever hold small non-negative whole numbers (`= 0.0`,
  `+= 1.0`) and are `Nat`.
* `std::shared_ptr<Clause>` is a clause value, `nullptr` is `none`.  The only
  mutation through a pointer (`clauses.back()->learned = true`) touches a clause
  object created one statement earlier by `addClause`, which is referenced from the
  store and from the watch lists only; the flag is set in both.
* `std::unordered_map<int, V>` is an association list with distinct keys kept in
  insertion order; `std::unordered_set<T>` is a duplicate-free list in insertion
  order.  Wherever the source *iterates* over a hash container and the order can
  influence the result, the order is taken from an `IterOrder` parameter.
* A `while(true)` loop is `whileTrue body fuel`: `body` is one pass through the loop
  and either returns (`Step.done`) or goes round again (`Step.next`); the result is
  `none` when the fuel runs out before a `return`.
* The states `solve` passes through are given by the step relation `SolveReach`, which
  has one constructor per statement of `solve` and per pass of the loop of
  `unitPropagation`, each built from the same functions as the functional model
  `CDCLSolver.solve`; `solve_returns` shows that every result of the functional model is
  an outcome of the step relation.
-/

/-! ## Hash containers -/

/-- Lookup `m.find(k)` in an association list. -/
def mapFind {β : Type} : List (Int × β) → Int → Option β
  | [], _ => none
  | (k', v) :: m, k => if k' = k then some v else mapFind m k

/-- Assignment `m[k] = v`: overwrite in place, or append a new key. -/
def mapSet {β : Type} : List (Int × β) → Int → β → List (Int × β)
  | [], k, v => [(k, v)]
  | (k', v') :: m, k, v => if k' = k then (k', v) :: m else (k', v') :: mapSet m k v

/-- Removal `m.erase(k)`. -/
def mapErase {β : Type} (m : List (Int × β)) (k : Int) : List (Int × β) :=
  m.filter (fun p => p.1 ≠ k)

/-- Insertion `s.insert(x)` into an unordered set kept in insertion order. -/
def setInsert {α : Type} [DecidableEq α] (s : List α) (x : α) : List α :=
  if x ∈ s then s else s ++ [x]

/-! ## Loops -/

/-- Outcome of one pass through a loop body: `return r`, or the state at the next pass. -/
inductive Step (ρ σ : Type) where
  | done (r : ρ)
  | next (s : σ)

/-- Running `while(true) body` for at most `fuel` passes; a body that itself runs out
of fuel yields `none`. -/
def whileTrue {ρ σ : Type} (body : σ → Option (Step ρ σ)) : Nat → σ → Option ρ
  | 0, _ => none
  | fuel + 1, s =>
    match body s with
    | none => none
    | some (Step.done r) => some r
    | some (Step.next s1) => whileTrue body fuel s1

/-! ## Literals and clauses -/

/-- Class `Literal`; `var` is the field `variable`. -/
structure Literal where
  var : Int
  negated : Bool
  deriving DecidableEq, Repr

/-- Iteration orders of the hash containers whose order the solver observes.
`mapKeys ks` is the order in which an `unordered_map<int, _>` whose keys were
inserted in the order `ks` is traversed; `litSet ls` is the same for an
`unordered_set<Literal>`. -/
structure IterOrder where
  mapKeys : List Int → List Int
  litSet : List Literal → List Literal

/-- An iteration order visits every element exactly once. -/
def IterOrder.Valid (o : IterOrder) : Prop :=
  (∀ ks : List Int, (o.mapKeys ks).Perm ks) ∧ (∀ ls : List Literal, (o.litSet ls).Perm ls)

/-- Iteration in insertion order. -/
def IterOrder.insertion : IterOrder := ⟨id, id⟩

/-- Iteration in reverse insertion order (newest element first). -/
def IterOrder.newestFirst : IterOrder := ⟨List.reverse, List.reverse⟩

/-- The value an `int` holds when the mathematical result of an operation is `x`, for
the results `-2147483648 ≤ x ≤ 2147483648` that negation and `std::abs` can produce from
an `int`: the one result out of range, `2147483648`, wraps around to `-2147483648`. -/
def wrapInt32 (x : Int) : Int :=
  if x = 2147483648 then -2147483648 else x

/-- Method `Literal::getValue`; the negation of `INT_MIN` wraps around. -/
def Literal.getValue (l : Literal) : Int :=
  if l.negated then wrapInt32 (-l.var) else l.var

/-- Class `Clause`; `activity` is the `double` field, always `0.0`. -/
structure Clause where
  literals : List Literal
  learned : Bool
  activity : Nat
  deriving DecidableEq, Repr

/-- Constructor `Clause(lits, learn = false)`. -/
def Clause.new (lits : List Literal) (learn : Bool) : Clause := ⟨lits, learn, 0⟩

/-- The test `(it->second && !lit.negated) || (!it->second && lit.negated)`. -/
def litTrueUnder (value : Bool) (lit : Literal) : Bool :=
  (value && !lit.negated) || (!value && lit.negated)

/-- Method `Clause::isTrue`. -/
def Clause.isTrue (c : Clause) (assignment : List (Int × Bool)) : Bool :=
  c.literals.any (fun lit =>
    match mapFind assignment lit.var with
    | some b => litTrueUnder b lit
    | none => false)

/-- The counting loop of `Clause::isUnit`; `none` is the early `return false`. -/
def isUnitLoop (assignment : List (Int × Bool)) : List Literal → Nat → Option Nat
  | [], cnt => some cnt
  | lit :: rest, cnt =>
    match mapFind assignment lit.var with
    | none => if cnt + 1 > 1 then none else isUnitLoop assignment rest (cnt + 1)
    | some _ => isUnitLoop assignment rest cnt

/-- Method `Clause::isUnit`. -/
def Clause.isUnit (c : Clause) (assignment : List (Int × Bool)) : Bool :=
  if c.isTrue assignment then false
  else
    match isUnitLoop assignment c.literals 0 with
    | none => false
    | some cnt => cnt == 1

/-- The loop of `Clause::isFalse`. -/
def isFalseLoop (assignment : List (Int × Bool)) : List Literal → Bool
  | [] => true
  | lit :: rest =>
    match mapFind assignment lit.var with
    | none => false
    | some b => if litTrueUnder b lit then false else isFalseLoop assignment rest

/-- Method `Clause::isFalse`. -/
def Clause.isFalse (c : Clause) (assignment : List (Int × Bool)) : Bool :=
  isFalseLoop assignment c.literals

/-- Method `Clause::getUnitLiteral`. -/
def Clause.getUnitLiteral (c : Clause) (assignment : List (Int × Bool)) : Literal :=
  match c.literals.find? (fun lit => (mapFind assignment lit.var).isNone) with
  | some lit => lit
  | none => ⟨0, false⟩

/-! ## Solver state -/

/-- Struct `CDCLSolver::TrailEntry`. -/
structure TrailEntry where
  literal : Literal
  level : Int
  reason : Option Clause
  deriving DecidableEq, Repr

/-- The fields of class `CDCLSolver`. -/
structure CDCLSolver where
  clauses : List Clause
  assignment : List (Int × Bool)
  decisionLevel : Int
  trail : List TrailEntry
  varActivity : List (Int × Nat)
  reason : List (Int × Option Clause)
  levelVars : List (Int × List Int)
  watchList : List (Int × List Clause)
  deriving DecidableEq, Repr

/-- Constructor `CDCLSolver::CDCLSolver()`. -/
def CDCLSolver.new : CDCLSolver := ⟨[], [], 0, [], [], [], [], []⟩

/-- Method `getAssignment`. -/
def CDCLSolver.getAssignment (s : CDCLSolver) : List (Int × Bool) := s.assignment

/-- The statement `watchList[k].push_back(clause)`. -/
def watchPush (w : List (Int × List Clause)) (k : Int) (c : Clause) : List (Int × List Clause) :=
  mapSet w k ((mapFind w k).getD [] ++ [c])

/-- Method `CDCLSolver::addClause`. -/
def CDCLSolver.addClause (s : CDCLSolver) (literals : List Literal) : CDCLSolver :=
  let clause := Clause.new literals false
  let w :=
    match literals with
    | [] => s.watchList
    | l0 :: rest =>
      let w1 := watchPush s.watchList l0.getValue clause
      match rest with
      | [] => w1
      | l1 :: _ => watchPush w1 l1.getValue clause
  { s with
    clauses := s.clauses ++ [clause]
    watchList := w
    varActivity := literals.foldl (fun m lit => mapSet m lit.var 0) s.varActivity }

/-- Method `CDCLSolver::bumpVariableActivity`. -/
def CDCLSolver.bumpVariableActivity (s : CDCLSolver) (v : Int) : CDCLSolver :=
  { s with varActivity := mapSet s.varActivity v ((mapFind s.varActivity v).getD 0 + 1) }

/-- Read access `varActivity[v]` for a key of the map. -/
def CDCLSolver.activityOf (s : CDCLSolver) (v : Int) : Nat :=
  (mapFind s.varActivity v).getD 0

/-- Method `CDCLSolver::decide`. -/
def CDCLSolver.decide (o : IterOrder) (s : CDCLSolver) : Literal :=
  let unassigned := (o.mapKeys (s.varActivity.map Prod.fst)).filter
    (fun v => (mapFind s.assignment v).isNone)
  match unassigned with
  | [] => ⟨0, false⟩
  | v0 :: rest =>
    ⟨rest.foldl (fun bestVar v => if s.activityOf bestVar < s.activityOf v then v else bestVar) v0,
      false⟩

/-- Method `CDCLSolver::assign`. -/
def CDCLSolver.assign (s : CDCLSolver) (literal : Literal) (level : Int)
    (reasonClause : Option Clause) : CDCLSolver :=
  let v := literal.var
  let value := !literal.negated
  let s1 : CDCLSolver :=
    { s with
      assignment := mapSet s.assignment v value
      reason := mapSet s.reason v reasonClause
      levelVars := mapSet s.levelVars level (setInsert ((mapFind s.levelVars level).getD []) v)
      trail := s.trail ++ [⟨literal, level, reasonClause⟩] }
  s1.bumpVariableActivity v

/-- Method `CDCLSolver::checkConflict`. -/
def CDCLSolver.checkConflict (s : CDCLSolver) : Option Clause :=
  s.clauses.find? (fun c => c.isFalse s.assignment)

/-- One pass through the loop of `unitPropagation`. -/
def CDCLSolver.unitPropagationBody (s : CDCLSolver) :
    Step (CDCLSolver × Option Clause) CDCLSolver :=
  match s.clauses.find? (fun c => c.isUnit s.assignment) with
  | none => Step.done (s, none)
  | some unitClause =>
    let unitLit := unitClause.getUnitLiteral s.assignment
    let s1 := s.assign unitLit s.decisionLevel (some unitClause)
    match s1.checkConflict with
    | some conflict => Step.done (s1, some conflict)
    | none => Step.next s1

/-- Method `CDCLSolver::unitPropagation`; `some (s, none)` is `return nullptr`. -/
def CDCLSolver.unitPropagation (fuel : Nat) (s : CDCLSolver) :
    Option (CDCLSolver × Option Clause) :=
  whileTrue (fun s1 => some s1.unitPropagationBody) fuel s

/-- Method `CDCLSolver::getDecisionLevel`. -/
def CDCLSolver.getDecisionLevel (s : CDCLSolver) (v : Int) : Int :=
  match s.trail.reverse.find? (fun e => e.literal.var = v) with
  | some e => e.level
  | none => -1

/-- Building an `unordered_set<Literal>` by successive `insert` calls. -/
def litSetOf (lits : List Literal) : List Literal :=
  lits.foldl setInsert []

/-- The loop `//Find the last set variable` at the head of each pass of the resolution
loop: the variable of the first literal of the current clause that is in
`currentLevelVars`, or 0. -/
def lastLevelVar (currentLevelVars : List Int) (currentClause : Clause) : Int :=
  ((currentClause.literals.find? (fun lit => lit.var ∈ currentLevelVars)).map Literal.var).getD 0

/-- The state after the access `reason[lastVar]`, which adds a null entry for a
missing key. -/
def CDCLSolver.touchReason (s : CDCLSolver) (lastVar : Int) : CDCLSolver :=
  match mapFind s.reason lastVar with
  | some _ => s
  | none => { s with reason := mapSet s.reason lastVar none }

/-- The clause built from `newLiterals`: the literals of the current clause and of the
reason clause whose variable is not `lastVar`, collected in an `unordered_set`. -/
def resolveOn (o : IterOrder) (currentClause reasonClause : Clause) (lastVar : Int) : Clause :=
  Clause.new (o.litSet (litSetOf
    (currentClause.literals.filter (fun lit => lit.var ≠ lastVar) ++
      reasonClause.literals.filter (fun lit => lit.var ≠ lastVar)))) true

/-- The count `currentLvlCount` of the literals of a clause at the current level. -/
def CDCLSolver.currentLvlCount (s : CDCLSolver) (c : Clause) : Nat :=
  (c.literals.filter (fun lit => s.getDecisionLevel lit.var = s.decisionLevel)).length

/-- One pass through the `while(true)` loop of `analyzeConflict` on the current
clause. -/
def analyzeBody (o : IterOrder) (currentLevelVars : List Int) (st : CDCLSolver × Clause) :
    Step (CDCLSolver × Clause) (CDCLSolver × Clause) :=
  let lastVar := lastLevelVar currentLevelVars st.2
  if lastVar = 0 then Step.done st
  else
    match (mapFind st.1.reason lastVar).getD none with
    | none => Step.done (st.1.touchReason lastVar, st.2)
    | some reasonClause =>
      if (st.1.touchReason lastVar).currentLvlCount (resolveOn o st.2 reasonClause lastVar) ≤ 1 then
        Step.done (st.1.touchReason lastVar, resolveOn o st.2 reasonClause lastVar)
      else Step.next (st.1.touchReason lastVar, resolveOn o st.2 reasonClause lastVar)

/-- The `while(true)` loop of `analyzeConflict`. -/
def analyzeLoop (o : IterOrder) (currentLevelVars : List Int) (fuel : Nat) (s : CDCLSolver)
    (currentClause : Clause) : Option (CDCLSolver × Clause) :=
  whileTrue (fun st => some (analyzeBody o currentLevelVars st)) fuel (s, currentClause)

/-- The statement `auto &currentLevelVars = levelVars[decisionLevel]`: the set read.
(The local set `conflictLiterals` filled next in the source is never read.) -/
def CDCLSolver.currentLevelVars (s : CDCLSolver) : List Int :=
  (mapFind s.levelVars s.decisionLevel).getD []

/-- The state after `levelVars[decisionLevel]` has been accessed. -/
def CDCLSolver.touchLevelVars (s : CDCLSolver) : CDCLSolver :=
  match mapFind s.levelVars s.decisionLevel with
  | some _ => s
  | none => { s with levelVars := mapSet s.levelVars s.decisionLevel [] }

/-- The loop `//Calculate backtrack level` of `analyzeConflict`. -/
def CDCLSolver.backtrackLevelOf (s : CDCLSolver) (currentClause : Clause) : Int :=
  currentClause.literals.foldl
    (fun backtrackLevel lit =>
      if s.getDecisionLevel lit.var > 0 then max backtrackLevel (s.getDecisionLevel lit.var)
      else backtrackLevel) 0

/-- Method `CDCLSolver::analyzeConflict`. -/
def CDCLSolver.analyzeConflict (o : IterOrder) (fuel : Nat) (s : CDCLSolver)
    (conflictClause : Clause) : Option (CDCLSolver × Clause × Int) :=
  if s.decisionLevel = 0 then some (s, conflictClause, -1)
  else
    (analyzeLoop o s.currentLevelVars fuel s.touchLevelVars conflictClause).map
      (fun r => (r.1, r.2, r.1.backtrackLevelOf r.2))

/-- The levels `level, level+1, ..., decisionLevel` visited by `backtrack`. -/
def levelRange (level decisionLevel : Int) : List Int :=
  (List.range (decisionLevel + 1 - level).toNat).map (fun i => level + (i : Int))

/-- Method `CDCLSolver::backtrack`. -/
def CDCLSolver.backtrack (s : CDCLSolver) (level : Int) : CDCLSolver :=
  if level < 0 then s
  else
    let varsToRemove := (levelRange level s.decisionLevel).flatMap
      (fun dl => (mapFind s.levelVars dl).getD [])
    { s with
      assignment := varsToRemove.foldl mapErase s.assignment
      reason := varsToRemove.foldl mapErase s.reason
      trail := s.trail.filter (fun entry => ¬ (entry.level > level))
      decisionLevel := level }

/-- Setting `learned = true` in the last `n` entries of a list of clauses. -/
def flagLast (n : Nat) (cs : List Clause) : List Clause :=
  cs.take (cs.length - n) ++ (cs.drop (cs.length - n)).map (fun c => { c with learned := true })

/-- The watch lists after the flag of the clause `c` that `addClause` has just pushed
to them is set: the clause object is shared, so the entries pushed for its first two
literals change with it. -/
def watchMarkLearned (w : List (Int × List Clause)) (c : Clause) : List (Int × List Clause) :=
  match c.literals with
  | [] => w
  | [l0] => mapSet w l0.getValue (flagLast 1 ((mapFind w l0.getValue).getD []))
  | l0 :: l1 :: _ =>
    if l0.getValue = l1.getValue then
      mapSet w l0.getValue (flagLast 2 ((mapFind w l0.getValue).getD []))
    else
      let w1 := mapSet w l0.getValue (flagLast 1 ((mapFind w l0.getValue).getD []))
      mapSet w1 l1.getValue (flagLast 1 ((mapFind w1 l1.getValue).getD []))

/-- The statement `clauses.back()->learned = true`, executed right after `addClause`:
the last clause of the store is flagged, in the store and in the watch lists that share
the clause object. -/
def CDCLSolver.markLastLearned (s : CDCLSolver) : CDCLSolver :=
  { s with
    clauses := s.clauses.dropLast ++
      (s.clauses.getLast?.map (fun c => { c with learned := true })).toList
    watchList :=
      match s.clauses.getLast? with
      | none => s.watchList
      | some c => watchMarkLearned s.watchList c }

/-- The guarded assertion that follows `backtrack(backtrackLevel)` in `solve`. -/
def CDCLSolver.assertLearned (s : CDCLSolver) (learnedClause : Clause) (backtrackLevel : Int) :
    CDCLSolver :=
  if backtrackLevel < s.decisionLevel then
    let assertLit : Literal :=
      (learnedClause.literals.find? (fun lit => (mapFind s.assignment lit.var).isNone)).getD ⟨0, false⟩
    if assertLit.var ≠ 0 then s.assign assertLit (backtrackLevel + 1) (some learnedClause)
    else s
  else s

/-- The statements of the conflict branch of `solve` that follow `analyzeConflict`:
add the learned clause, flag it, backtrack and the guarded assertion. -/
def CDCLSolver.learnAndBacktrack (s : CDCLSolver) (learnedClause : Clause)
    (backtrackLevel : Int) : CDCLSolver :=
  (((s.addClause learnedClause.literals).markLastLearned).backtrack backtrackLevel).assertLearned
    learnedClause backtrackLevel

/-- The conflict branch of the inner loop of `solve` after the level-0 test. -/
def CDCLSolver.handleConflict (o : IterOrder) (fuel : Nat) (s : CDCLSolver)
    (conflict : Clause) : Option CDCLSolver :=
  (s.analyzeConflict o fuel conflict).map (fun r => r.1.learnAndBacktrack r.2.1 r.2.2)

/-- What the inner loop of `solve` does with the result of `unitPropagation`. -/
def CDCLSolver.afterPropagation (o : IterOrder) (fuel : Nat)
    (r : CDCLSolver × Option Clause) : Option (Step (CDCLSolver × Option Bool) CDCLSolver) :=
  match r.2 with
  | none => some (Step.done (r.1, none))
  | some conflict =>
    if r.1.decisionLevel = 0 then some (Step.done (r.1, some false))
    else (r.1.handleConflict o fuel conflict).map Step.next

/-- One pass through the inner `while (true)` of `solve`: `Step.done (s, none)` is
`break`, `Step.done (s, some false)` is `return false`. -/
def CDCLSolver.propagateBody (o : IterOrder) (fuel : Nat) (s : CDCLSolver) :
    Option (Step (CDCLSolver × Option Bool) CDCLSolver) :=
  (s.unitPropagation fuel).bind (CDCLSolver.afterPropagation o fuel)

/-- The inner `while (true)` of `solve`. -/
def CDCLSolver.propagateLoop (o : IterOrder) (fuel : Nat) (s : CDCLSolver) :
    Option (CDCLSolver × Option Bool) :=
  whileTrue (CDCLSolver.propagateBody o fuel) fuel s

/-- The statements `decisionLevel++; assign(decision, decisionLevel, nullptr)`. -/
def CDCLSolver.assignDecision (s : CDCLSolver) (decision : Literal) : CDCLSolver :=
  ({ s with decisionLevel := s.decisionLevel + 1 } : CDCLSolver).assign decision
    (s.decisionLevel + 1) none

/-- How the outer loop of `solve` continues after its inner loop. -/
def afterPropagateLoop (r : CDCLSolver × Option Bool) : Step (CDCLSolver × Bool) CDCLSolver :=
  match r.2 with
  | some b => Step.done (r.1, b)
  | none => Step.next r.1

/-- One pass through the outer `while(true)` of `solve`. -/
def CDCLSolver.solveBody (o : IterOrder) (fuel : Nat) (s : CDCLSolver) :
    Option (Step (CDCLSolver × Bool) CDCLSolver) :=
  if (s.decide o).var = 0 then some (Step.done (s, true))
  else (CDCLSolver.propagateLoop o fuel (s.assignDecision (s.decide o))).map afterPropagateLoop

/-- The outer `while(true)` of `solve`. -/
def CDCLSolver.solveLoop (o : IterOrder) (fuel : Nat) (s : CDCLSolver) :
    Option (CDCLSolver × Bool) :=
  whileTrue (CDCLSolver.solveBody o fuel) fuel s

/-- Method `CDCLSolver::solve`: the final state and the returned verdict. -/
def CDCLSolver.solve (o : IterOrder) (fuel : Nat) (s : CDCLSolver) :
    Option (CDCLSolver × Bool) :=
  (({ s with decisionLevel := 0 } : CDCLSolver).unitPropagation fuel).bind
    (fun r =>
      match r.2 with
      | some _ => some (r.1, false)
      | none => CDCLSolver.solveLoop o fuel r.1)

/-- Method `CDCLSolver::reset`. -/
def CDCLSolver.reset (s : CDCLSolver) : CDCLSolver :=
  { s with
    clauses := []
    assignment := []
    decisionLevel := 0
    trail := []
    varActivity := []
    reason := []
    watchList := [] }

/-- The literal built from one nonzero entry of a raw clause:
`literals.emplace_back(std::abs(litVal), litVal < 0)`; `std::abs(INT_MIN)` wraps around
to `INT_MIN`. -/
def rawLiteral (litVal : Int) : Literal :=
  ⟨wrapInt32 |litVal|, Decidable.decide (litVal < 0)⟩

/-- The inner loop of `CNFSolver` over one raw clause. -/
def rawLiterals (clause : List Int) : List Literal :=
  (clause.filter (fun litVal => litVal ≠ 0)).map rawLiteral

/-- Function `CNFSolver`. -/
def CNFSolver (cnfClauses : List (List Int)) : CDCLSolver :=
  cnfClauses.foldl
    (fun solver clause =>
      let literals := rawLiterals clause
      if literals ≠ [] then solver.addClause literals else solver)
    CDCLSolver.new

/-! ## Definitions used to state the claims -/

/-- An iteration order whose traversal of the map with keys `ks` is fixed to `p`. -/
def IterOrder.pin (o : IterOrder) (ks p : List Int) : IterOrder :=
  ⟨fun l => if l = ks then p else o.mapKeys l, o.litSet⟩

/-- Check of a `solve` result: verdict `true`, every variable of `vs` assigned and
every clause of `cs` true under the returned assignment. -/
def isModelResult (vs : List Int) (cs : List Clause) (r : Option (CDCLSolver × Bool)) : Bool :=
  match r with
  | some (s, true) =>
    vs.all (fun v => (mapFind s.getAssignment v).isSome) &&
      cs.all (fun c => c.isTrue s.getAssignment)
  | _ => false

/-- Check of a `solve` result: verdict `true` although some clause of `cs` has every
literal false under the returned assignment. -/
def isFalsifyingResult (cs : List Clause) (r : Option (CDCLSolver × Bool)) : Bool :=
  match r with
  | some (s, true) =>
    cs.any (fun c => c.isFalse s.getAssignment && !c.isTrue s.getAssignment)
  | _ => false

/-- Check of a `solve` result: verdict `true`, and `reset` applied to the final state
leaves exactly `lv` in `levelVars`, so the state differs from a new solver. -/
def isResetResidue (lv : List (Int × List Int)) (r : Option (CDCLSolver × Bool)) : Bool :=
  match r with
  | some (s, true) =>
    Decidable.decide (s.reset.levelVars = lv) && Decidable.decide (s.reset ≠ CDCLSolver.new)
  | _ => false

/-- The formula of scenario S2. -/
def scenarioS2 : List (List Int) := [[1, 2], [-1, 3], [-2, -3]]

/-- The variables erased by `backtrack(level)`. -/
def CDCLSolver.varsToRemove (s : CDCLSolver) (level : Int) : List Int :=
  (levelRange level s.decisionLevel).flatMap (fun dl => (mapFind s.levelVars dl).getD [])

/-- A satisfiable formula (take both variables false) on which `solve` never returns. -/
def loopFormula : List (List Int) := [[-1, 2], [-1, -2], [-2, 1]]

/-- The clause store of `CNFSolver loopFormula`. -/
def loopBase : List Clause :=
  [⟨[⟨1, true⟩, ⟨2, false⟩], false, 0⟩, ⟨[⟨1, true⟩, ⟨2, true⟩], false, 0⟩,
    ⟨[⟨2, true⟩, ⟨1, false⟩], false, 0⟩]

/-- State of the solver on `loopFormula` at the head of the outer loop of `solve`:
only copies of the clause `cL` have been learned and nothing is assigned. -/
structure LoopInv (cL : Clause) (s : CDCLSolver) : Prop where
  clauses : ∃ L, s.clauses = loopBase ++ L ∧ ∀ c ∈ L, c = cL
  assignment : s.assignment = []
  reason : s.reason = []
  activity : s.varActivity = [(1, 0), (2, 0)]
  level_nonneg : 0 ≤ s.decisionLevel
  fresh : ∀ l, s.decisionLevel < l → mapFind s.levelVars l = none

/-- The clause learned over and over when variable 1 is decided first on `loopFormula`. -/
def loopLearnedA : Clause := ⟨[⟨1, true⟩, ⟨2, true⟩], true, 0⟩

/-- The clause learned over and over when variable 2 is decided first on `loopFormula`. -/
def loopLearnedB : Clause := ⟨[⟨2, true⟩, ⟨1, false⟩], true, 0⟩

/-- Invariant behind the total-model property: variable 0 is never a key of the
activity map, the keys present at the start (`keys0`) stay, and no clause of the store
and no reason clause mentions variable 0. -/
structure KeysInv (keys0 : List Int) (s : CDCLSolver) : Prop where
  keys_nonzero : ∀ k ∈ s.varActivity.map Prod.fst, k ≠ 0
  keys_mono : ∀ k ∈ keys0, k ∈ s.varActivity.map Prod.fst
  clause_vars : ∀ c ∈ s.clauses, ∀ l ∈ c.literals, l.var ≠ 0
  reason_vars : ∀ v R, mapFind s.reason v = some (some R) → ∀ l ∈ R.literals, l.var ≠ 0

/-- Invariant of the resolution loop: the solver invariant, and the current clause does
not mention variable 0. -/
def AnalyzeInv (keys0 : List Int) (st : CDCLSolver × Clause) : Prop :=
  KeysInv keys0 st.1 ∧ ∀ l ∈ st.2.literals, l.var ≠ 0

/-- What the inner loop of `solve` hands back: the invariant, and never the verdict `true`. -/
def Propagatepost (keys0 : List Int) (r : CDCLSolver × Option Bool) : Prop :=
  KeysInv keys0 r.1 ∧ r.2 ≠ some true

/-- What `solve` returns under the invariant: with verdict `true`, every key the
activity map had at the start is assigned. -/
def Solvepost (keys0 : List Int) (r : CDCLSolver × Bool) : Prop :=
  r.2 = true → ∀ k ∈ keys0, (mapFind r.1.assignment k).isSome = true

/-- Invariant of the construction loop of `CNFSolver`. -/
structure BuildInv (s : CDCLSolver) : Prop where
  keys_nonzero : ∀ k ∈ s.varActivity.map Prod.fst, k ≠ 0
  clause_vars : ∀ c ∈ s.clauses, ∀ l ∈ c.literals, l.var ≠ 0 ∧ l.var ∈ s.varActivity.map Prod.fst
  reason_nil : s.reason = []

/-- The formula of scenario S6 (an odd cycle of exclusive-or constraints). -/
def scenarioS6 : List (List Int) := [[1, 2], [-1, -2], [2, 3], [-2, -3], [3, 1], [-3, -1]]

/-- The clause store of `CNFSolver scenarioS6`. -/
def xorBase : List Clause :=
  [⟨[⟨1, false⟩, ⟨2, false⟩], false, 0⟩, ⟨[⟨1, true⟩, ⟨2, true⟩], false, 0⟩,
    ⟨[⟨2, false⟩, ⟨3, false⟩], false, 0⟩, ⟨[⟨2, true⟩, ⟨3, true⟩], false, 0⟩,
    ⟨[⟨3, false⟩, ⟨1, false⟩], false, 0⟩, ⟨[⟨3, true⟩, ⟨1, true⟩], false, 0⟩]

/-- The learned copy of `[-3, -1]`. -/
def xorLearnedX : Clause := ⟨[⟨3, true⟩, ⟨1, true⟩], true, 0⟩

/-- The learned clause `[-2, 1]`. -/
def xorLearnedY : Clause := ⟨[⟨2, true⟩, ⟨1, false⟩], true, 0⟩

/-- State of the solver on `scenarioS6` at the head of the outer loop of `solve`, common
part of the two phases of the cycle: the store is the formula followed by learned copies
of `[-3, -1]` and `[-2, 1]`, at least one of the latter, and nothing is assigned. -/
structure XorInv (s : CDCLSolver) : Prop where
  clauses : ∃ L, s.clauses = xorBase ++ L ∧ (∀ c ∈ L, c = xorLearnedX ∨ c = xorLearnedY) ∧
    xorLearnedY ∈ L
  assignment : s.assignment = []
  reason : s.reason = []
  level_nonneg : 0 ≤ s.decisionLevel
  fresh : ∀ p ∈ s.levelVars, p.1 ≤ s.decisionLevel

/-- Phase X of the cycle: variable 3 is decided next. -/
def XorInvX (s : CDCLSolver) : Prop :=
  XorInv s ∧ ∃ a, s.varActivity = [(1, 0), (2, 0), (3, a)]

/-- Phase Y of the cycle: variable 2 is decided next. -/
def XorInvY (s : CDCLSolver) : Prop :=
  XorInv s ∧ s.varActivity = [(1, 0), (2, 1), (3, 0)]

/-- The state at the head of the next pass of the outer loop of `solve`, computed with
the given fuel (the state itself if the inner loop does not break within that fuel). -/
def CDCLSolver.nextHead (o : IterOrder) (fuel : Nat) (s : CDCLSolver) : CDCLSolver :=
  match CDCLSolver.propagateLoop o fuel (s.assignDecision (s.decide o)) with
  | some (s1, _) => s1
  | none => s

/-- The state of `solve` on `scenarioS6` when the outer loop is entered. -/
def xorStart : CDCLSolver := { (CNFSolver scenarioS6) with decisionLevel := 0 }

/-- A satisfiable formula that `solve` answers `false` under insertion-order iteration. -/
def unsatAnswerFormula : List (List Int) :=
  [[8, 1, 3], [-1, 8, 5], [-2, -5], [2, -7, 9], [1, 2], [6, 2, 3], [-6, -2], [1, -3],
    [7, -8, 3], [-9, -8], [-2, -7], [7, -5, -1], [-4, -7], [5, -3, -1], [4, -3]]

/-- A satisfiable formula that `solve` answers `false` under newest-first iteration; the
seven tautologies at the front only fix the order in which the variables enter the
activity map. -/
def unsatAnswerFormulaNewest : List (List Int) :=
  [[4, -4], [6, -6], [9, -9], [7, -7], [2, -2], [5, -5], [3, -3], [-1, 8], [-5, -2],
    [3, 5, 8], [2, -7, 9], [-6, -2], [-1, 2], [1, -3], [7, -8, 3], [-9, -8], [-8, 5, 4],
    [-2, -7], [5, -3, -1], [6, 2, 3], [-1, -4]]

/-- A satisfiable formula on which `solve`, under insertion-order iteration, learns the
unit clause `[-5]` although the formula has models with `5 = true`. -/
def badLearnFormula : List (List Int) :=
  [[-8, 1, 3], [-1, 8, 5], [-2, -5], [2, -7, 9], [6, 2, 3], [-6, -2], [1, -3], [7, -8, 3],
    [-9, -8], [-2, -7], [7, -5], [-4, -7], [5, -3, -1], [4, -3]]

/-- The total assignment given by a list of signed variables. -/
def ofSigned (m : List Int) : List (Int × Bool) :=
  m.map (fun n => (|n|, Decidable.decide (0 < n)))

/-- A total assignment over the variables of `cs` that makes every clause of `cs` true. -/
def isModelOf (model : List (Int × Bool)) (cs : List Clause) : Bool :=
  cs.all (fun c => c.literals.all (fun l => (mapFind model l.var).isSome)) &&
    cs.all (fun c => c.isTrue model)

/-- Check of a `solve` result: the final clause store is `orig` followed by the clauses
added after conflicts, and one of those is `c`. -/
def learnsClause (orig : List Clause) (c : Clause) (r : Option (CDCLSolver × Bool)) : Bool :=
  match r with
  | some (s, _) =>
    Decidable.decide (s.clauses.take orig.length = orig) &&
      Decidable.decide (c ∈ s.clauses.drop orig.length)
  | none => false

/-- States of the outer loop of `solve` on `scenarioS6` under newest-first iteration. -/
def XorReach (s : CDCLSolver) : Prop :=
  s = xorStart ∨ s = xorStart.nextHead IterOrder.newestFirst 4 ∨ XorInvX s ∨ XorInvY s

/-- A sequence of `addClause` calls on one solver. -/
def CDCLSolver.addClauses (s : CDCLSolver) (cls : List (List Literal)) : CDCLSolver :=
  cls.foldl CDCLSolver.addClause s

/-- The calls `CNFSolver(raw)`, `solve()`, `reset()`: the solver left behind. -/
def solveThenReset (o : IterOrder) (fuel : Nat) (raw : List (List Int)) : Option CDCLSolver :=
  ((CNFSolver raw).solve o fuel).map (fun r => r.1.reset)

/-- The verdict of `solve()` after the clauses `raw` are added to `s`, with the value
`getAssignment()` then gives to variable `v`. -/
def verdictAndValue (o : IterOrder) (fuel : Nat) (raw : List (List Int)) (v : Int)
    (s : CDCLSolver) : Option (Bool × Option Bool) :=
  ((s.addClauses (raw.map rawLiterals)).solve o fuel).map
    (fun r => (r.2, mapFind r.1.getAssignment v))

/-! ## The control points of `solve` -/

/-- The points of `solve` between which the solver state is observed. -/
inductive SolvePoint where
  /-- At the head of the loop of `unitPropagation`. -/
  | propagating
  /-- At the head of the outer loop of `solve`: `unitPropagation` has returned `nullptr`. -/
  | deciding
  /-- Just after `unitPropagation` has returned the conflict clause `conflict`. -/
  | conflicting (conflict : Clause)
  /-- Just after `analyzeConflict` has returned `{learnedClause, backtrackLevel}`. -/
  | analysed (learnedClause : Clause) (backtrackLevel : Int)
  /-- Just after `addClause(learnedClause->literals); clauses.back()->learned = true`. -/
  | learned (learnedClause : Clause) (backtrackLevel : Int)
  /-- Just after `backtrack(backtrackLevel)`. -/
  | backtracked (learnedClause : Clause) (backtrackLevel : Int)

/-- The states `solve()` passes through when called on the solver `s0`, with the control
point at which each is observed; one constructor per statement of `solve` and per pass
of the loop of `unitPropagation`. -/
inductive SolveReach (o : IterOrder) (s0 : CDCLSolver) : SolvePoint → CDCLSolver → Prop where
  /-- The statement `decisionLevel = 0` that opens `solve`. -/
  | start : SolveReach o s0 SolvePoint.propagating { s0 with decisionLevel := 0 }
  /-- A pass of `unitPropagation` that assigns a unit literal and finds no conflict. -/
  | unitNext (s s1 : CDCLSolver) : SolveReach o s0 SolvePoint.propagating s →
      s.unitPropagationBody = Step.next s1 → SolveReach o s0 SolvePoint.propagating s1
  /-- A pass of `unitPropagation` that assigns a unit literal and returns a conflict. -/
  | unitConflict (s s1 : CDCLSolver) (conflict : Clause) :
      SolveReach o s0 SolvePoint.propagating s →
      s.unitPropagationBody = Step.done (s1, some conflict) →
      SolveReach o s0 (SolvePoint.conflicting conflict) s1
  /-- A pass of `unitPropagation` that finds no unit clause and returns `nullptr`. -/
  | fixpoint (s s1 : CDCLSolver) : SolveReach o s0 SolvePoint.propagating s →
      s.unitPropagationBody = Step.done (s1, none) → SolveReach o s0 SolvePoint.deciding s1
  /-- The statements `decisionLevel++; assign(decision, decisionLevel, nullptr)`. -/
  | decision (s : CDCLSolver) : SolveReach o s0 SolvePoint.deciding s →
      (s.decide o).var ≠ 0 →
      SolveReach o s0 SolvePoint.propagating (s.assignDecision (s.decide o))
  /-- The call `analyzeConflict(conflict)`, made when `decisionLevel` is not 0. -/
  | analysis (fuel : Nat) (s s1 : CDCLSolver) (conflict learnedClause : Clause)
      (backtrackLevel : Int) : SolveReach o s0 (SolvePoint.conflicting conflict) s →
      s.decisionLevel ≠ 0 →
      s.analyzeConflict o fuel conflict = some (s1, learnedClause, backtrackLevel) →
      SolveReach o s0 (SolvePoint.analysed learnedClause backtrackLevel) s1
  /-- The statements `addClause(learnedClause->literals); clauses.back()->learned = true`. -/
  | learn (s : CDCLSolver) (learnedClause : Clause) (backtrackLevel : Int) :
      SolveReach o s0 (SolvePoint.analysed learnedClause backtrackLevel) s →
      SolveReach o s0 (SolvePoint.learned learnedClause backtrackLevel)
        (s.addClause learnedClause.literals).markLastLearned
  /-- The call `backtrack(backtrackLevel)`. -/
  | backjump (s : CDCLSolver) (learnedClause : Clause) (backtrackLevel : Int) :
      SolveReach o s0 (SolvePoint.learned learnedClause backtrackLevel) s →
      SolveReach o s0 (SolvePoint.backtracked learnedClause backtrackLevel)
        (s.backtrack backtrackLevel)
  /-- The guarded assertion `if(backtrackLevel < decisionLevel) ...`, after which the inner
  loop of `solve` calls `unitPropagation` again. -/
  | assertion (s : CDCLSolver) (learnedClause : Clause) (backtrackLevel : Int) :
      SolveReach o s0 (SolvePoint.backtracked learnedClause backtrackLevel) s →
      SolveReach o s0 SolvePoint.propagating (s.assertLearned learnedClause backtrackLevel)

/-- The local vector `unassigned` of `decide`: the keys of the activity map not in the
assignment, in the order the map is iterated. -/
def CDCLSolver.unassignedVars (o : IterOrder) (s : CDCLSolver) : List Int :=
  (o.mapKeys (s.varActivity.map Prod.fst)).filter (fun v => (mapFind s.assignment v).isNone)

/-- The state of `solve` right after its first decision, from which `unitPropagation`
is called next; `none` when `solve` returns before deciding. -/
def CDCLSolver.firstDecision (o : IterOrder) (fuel : Nat) (s0 : CDCLSolver) :
    Option CDCLSolver :=
  (({ s0 with decisionLevel := 0 } : CDCLSolver).unitPropagation fuel).bind
    (fun r =>
      match r.2 with
      | some _ => none
      | none =>
        if (r.1.decide o).var = 0 then none
        else some (r.1.assignDecision (r.1.decide o)))

/-- The state and the conflict clause with which `unitPropagation` returns after the
first decision of `solve`, when it returns a conflict there. -/
def CDCLSolver.firstConflict (o : IterOrder) (fuel : Nat) (s0 : CDCLSolver) :
    Option (CDCLSolver × Clause) :=
  (s0.firstDecision o fuel).bind
    (fun s => (s.unitPropagation fuel).bind
      (fun r1 => r1.2.map (fun conflict => (r1.1, conflict))))

/-- The result of the first call of `analyzeConflict` in `solve`, for a conflict that
follows the first decision: the state after the call, the learned clause and the
backtrack level. -/
def CDCLSolver.firstAnalysis (o : IterOrder) (fuel : Nat) (s0 : CDCLSolver) :
    Option (CDCLSolver × Clause × Int) :=
  (s0.firstConflict o fuel).bind
    (fun r => if r.1.decisionLevel = 0 then none else r.1.analyzeConflict o fuel r.2)

/-- The backjump level the specification describes for a learned clause: the maximum
decision level strictly less than the current level `d` among its literals, or 0 if there
is no such literal. -/
def CDCLSolver.specBackjumpLevel (s : CDCLSolver) (learnedClause : Clause) : Int :=
  ((learnedClause.literals.map (fun lit => s.getDecisionLevel lit.var)).filter
    (fun lvl => lvl < s.decisionLevel)).foldl max 0

/-- Two states that differ at most by what `analyzeConflict` may change: null entries
added to the reason map and an empty set added to `levelVars`. -/
structure FrameEq (s s1 : CDCLSolver) : Prop where
  clauses : s1.clauses = s.clauses
  assignment : s1.assignment = s.assignment
  decisionLevel : s1.decisionLevel = s.decisionLevel
  trail : s1.trail = s.trail
  varActivity : s1.varActivity = s.varActivity
  levelVars : ∀ l, (mapFind s1.levelVars l).getD [] = (mapFind s.levelVars l).getD []
  reason : ∀ v R, mapFind s1.reason v = some (some R) → mapFind s.reason v = some (some R)

/-! ## Invariants behind soundness on duplicate-free input -/

/-- Bookkeeping invariant of `solve` on duplicate-free input: no clause of the store
repeats a literal; every trail entry lies at a level between 0 and the decision level and
its variable is in the `levelVars` set of that level; every assigned variable has a trail
entry; every reason clause is in the store and has exactly one literal on the variable it
is the reason of; every variable of a clause is a key of the activity map, and 0 is not. -/
structure SoundInv (s : CDCLSolver) : Prop where
  nodup : ∀ c ∈ s.clauses, c.literals.Nodup
  level_nonneg : 0 ≤ s.decisionLevel
  trail_levels : ∀ e ∈ s.trail, 0 ≤ e.level ∧ e.level ≤ s.decisionLevel
  trail_levelVars : ∀ e ∈ s.trail, e.literal.var ∈ (mapFind s.levelVars e.level).getD []
  assigned_trail : ∀ v, (mapFind s.assignment v).isSome = true →
    ∃ e ∈ s.trail, e.literal.var = v
  reasons : ∀ v R, mapFind s.reason v = some (some R) →
    R ∈ s.clauses ∧ (R.literals.filter (fun l => l.var = v)).length = 1
  clause_keys : ∀ c ∈ s.clauses, ∀ l ∈ c.literals, l.var ∈ s.varActivity.map Prod.fst
  keys_nonzero : ∀ k ∈ s.varActivity.map Prod.fst, k ≠ 0

/-- No clause of the store is falsified by the assignment. -/
def NoFalsified (s : CDCLSolver) : Prop :=
  ∀ c ∈ s.clauses, c.isFalse s.assignment = false

/-- No clause of `cs` is falsified by the part of the assignment that lies outside the
`levelVars` set of the current decision level. -/
def NoFalsifiedBelow (s : CDCLSolver) (cs : List Clause) : Prop :=
  ∀ c ∈ cs, c.isFalse (s.currentLevelVars.foldl mapErase s.assignment) = false

/-- No clause of `cs` is empty. -/
def NoEmptyClause (cs : List Clause) : Prop :=
  ∀ c ∈ cs, c.literals ≠ []

/-- A state at decision level 0 whose store holds a unit clause and an empty clause: the
next pass of `unitPropagation` returns a conflict and `solve` returns `false`. -/
def Doomed (s : CDCLSolver) : Prop :=
  s.decisionLevel = 0 ∧ (∃ c ∈ s.clauses, c.isUnit s.assignment = true) ∧
    ∃ c ∈ s.clauses, c.literals = []

/-- What is known of the result of `analyzeConflict` on duplicate-free input: the learned
clause repeats no literal and mentions no variable 0, the level is the one computed from
it, the decision level is at least 1, and if the clause is empty then the store holds a
single-literal clause on a variable of the current level's `levelVars` set. -/
def LearnedOk (s : CDCLSolver) (learnedClause : Clause) (backtrackLevel : Int) : Prop :=
  learnedClause.literals.Nodup ∧ (∀ l ∈ learnedClause.literals, l.var ≠ 0) ∧
    backtrackLevel = s.backtrackLevelOf learnedClause ∧ 1 ≤ s.decisionLevel ∧
    (learnedClause.literals = [] →
      ∃ R ∈ s.clauses, ∃ l, R.literals = [l] ∧ l.var ∈ s.currentLevelVars)

/-- The invariant of `solve` on duplicate-free input at each control point. -/
def SoundAt (pc : SolvePoint) (s : CDCLSolver) : Prop :=
  match pc with
  | SolvePoint.propagating =>
    Doomed s ∨ (SoundInv s ∧ NoEmptyClause s.clauses ∧ NoFalsified s)
  | SolvePoint.deciding =>
    SoundInv s ∧ NoEmptyClause s.clauses ∧ NoFalsified s ∧
      ∀ c ∈ s.clauses, c.isUnit s.assignment = false
  | SolvePoint.conflicting conflict =>
    s.decisionLevel = 0 ∨
      (SoundInv s ∧ NoEmptyClause s.clauses ∧ NoFalsifiedBelow s s.clauses ∧
        conflict ∈ s.clauses)
  | SolvePoint.analysed learnedClause backtrackLevel =>
    SoundInv s ∧ NoEmptyClause s.clauses ∧ NoFalsifiedBelow s s.clauses ∧
      LearnedOk s learnedClause backtrackLevel
  | SolvePoint.learned learnedClause backtrackLevel =>
    ∃ old, s.clauses = old ++ [⟨learnedClause.literals, true, 0⟩] ∧ SoundInv s ∧
      NoEmptyClause old ∧ NoFalsifiedBelow s old ∧ LearnedOk s learnedClause backtrackLevel
  | SolvePoint.backtracked _ _ =>
    Doomed s ∨ (SoundInv s ∧ NoEmptyClause s.clauses ∧ NoFalsified s)

/-- Invariant of the construction loop of `CNFSolver` on duplicate-free raw clauses:
nothing is assigned, and the store holds non-empty clauses without repeated literals
whose variables are nonzero keys of the activity map. -/
structure FreshInv (s : CDCLSolver) : Prop where
  nodup : ∀ c ∈ s.clauses, c.literals.Nodup
  nonempty : ∀ c ∈ s.clauses, c.literals ≠ []
  trail_nil : s.trail = []
  assignment_nil : s.assignment = []
  reason_nil : s.reason = []
  clause_keys : ∀ c ∈ s.clauses, ∀ l ∈ c.literals, l.var ∈ s.varActivity.map Prod.fst
  keys_nonzero : ∀ k ∈ s.varActivity.map Prod.fst, k ≠ 0

/-! ## Generic facts about `whileTrue` -/

theorem whileTrue_succ_eq {ρ σ : Type} (body : σ → Option (Step ρ σ)) (n : Nat) (s : σ) :
    whileTrue body (n + 1) s =
      match body s with
      | none => none
      | some (Step.done r) => some r
      | some (Step.next s1) => whileTrue body n s1 := rfl

/-- More fuel and a more defined body never change a result already produced. -/
theorem whileTrue_mono {ρ σ : Type} (f g : σ → Option (Step ρ σ))
    (hfg : ∀ s x, f s = some x → g s = some x) :
    ∀ (n m : Nat), n ≤ m → ∀ (s : σ) (r : ρ), whileTrue f n s = some r → whileTrue g m s = some r := by
  intro n
  induction n with
  | zero => intro m _ s r h; simp [whileTrue] at h
  | succ n ih =>
    intro m hm s r h
    obtain ⟨m', rfl⟩ : ∃ m', m = m' + 1 := ⟨m - 1, by omega⟩
    rw [whileTrue_succ_eq] at h ⊢
    cases hb : f s with
    | none => simp [hb] at h
    | some x =>
      rw [hfg s x hb]
      rw [hb] at h
      cases x with
      | done r' => exact h
      | next s1 => exact ih m' (by omega) s1 r h

/-- Partial correctness: an invariant kept by every pass holds of the returned value. -/
theorem whileTrue_invariant {ρ σ : Type} (body : σ → Option (Step ρ σ)) (I : σ → Prop)
    (Q : ρ → Prop)
    (hdone : ∀ s r, I s → body s = some (Step.done r) → Q r)
    (hnext : ∀ s s1, I s → body s = some (Step.next s1) → I s1) :
    ∀ (n : Nat) (s : σ) (r : ρ), I s → whileTrue body n s = some r → Q r := by
  intro n
  induction n with
  | zero => intro s r _ h; simp [whileTrue] at h
  | succ n ih =>
    intro s r hI h
    rw [whileTrue_succ_eq] at h
    cases hb : body s with
    | none => simp [hb] at h
    | some x =>
      rw [hb] at h
      cases x with
      | done r' =>
        simp only [Option.some.injEq] at h
        subst h
        exact hdone s r' hI hb
      | next s1 => exact ih s1 r (hnext s s1 hI hb) h

/-- Divergence: if every pass from a state satisfying `I` either runs out of fuel or
goes round again into `I`, the loop never returns. -/
theorem whileTrue_diverges {ρ σ : Type} (body : σ → Option (Step ρ σ)) (I : σ → Prop)
    (hstep : ∀ s, I s → body s = none ∨ ∃ s1, body s = some (Step.next s1) ∧ I s1) :
    ∀ (n : Nat) (s : σ), I s → whileTrue body n s = none := by
  intro n
  induction n with
  | zero => intro s _; rfl
  | succ n ih =>
    intro s hI
    rw [whileTrue_succ_eq]
    rcases hstep s hI with hb | ⟨s1, hb, hI1⟩
    · rw [hb]
    · rw [hb]; exact ih s1 hI1

/-! ## Fuel monotonicity of the solver -/

theorem unitPropagation_mono (n m : Nat) (h : n ≤ m) (s : CDCLSolver)
    (r : CDCLSolver × Option Clause) (hr : s.unitPropagation n = some r) :
    s.unitPropagation m = some r :=
  whileTrue_mono _ _ (fun _ _ hx => hx) n m h s r hr

theorem analyzeLoop_mono (o : IterOrder) (lv : List Int) (n m : Nat) (h : n ≤ m)
    (s : CDCLSolver) (c : Clause) (r : CDCLSolver × Clause)
    (hr : analyzeLoop o lv n s c = some r) : analyzeLoop o lv m s c = some r :=
  whileTrue_mono _ _ (fun _ _ hx => hx) n m h (s, c) r hr

theorem analyzeConflict_mono (o : IterOrder) (n m : Nat) (h : n ≤ m) (s : CDCLSolver)
    (c : Clause) (r : CDCLSolver × Clause × Int) (hr : s.analyzeConflict o n c = some r) :
    s.analyzeConflict o m c = some r := by
  unfold CDCLSolver.analyzeConflict at hr ⊢
  split
  · next h0 => simpa [h0] using hr
  · next h0 =>
    simp only [h0, if_false, Option.map_eq_some'] at hr ⊢
    obtain ⟨x, hx, hxr⟩ := hr
    exact ⟨x, analyzeLoop_mono o _ n m h _ _ x hx, hxr⟩

theorem handleConflict_mono (o : IterOrder) (n m : Nat) (h : n ≤ m) (s : CDCLSolver)
    (c : Clause) (r : CDCLSolver) (hr : s.handleConflict o n c = some r) :
    s.handleConflict o m c = some r := by
  unfold CDCLSolver.handleConflict at hr ⊢
  simp only [Option.map_eq_some'] at hr ⊢
  obtain ⟨x, hx, hxr⟩ := hr
  exact ⟨x, analyzeConflict_mono o n m h s c x hx, hxr⟩

theorem afterPropagation_mono (o : IterOrder) (n m : Nat) (h : n ≤ m)
    (p : CDCLSolver × Option Clause) (x : Step (CDCLSolver × Option Bool) CDCLSolver)
    (hx : CDCLSolver.afterPropagation o n p = some x) :
    CDCLSolver.afterPropagation o m p = some x := by
  unfold CDCLSolver.afterPropagation at hx ⊢
  split
  · next hc => simpa [hc] using hx
  · next cf hc =>
    simp only [hc] at hx
    split
    · next h0 => simpa [h0] using hx
    · next h0 =>
      simp only [h0, if_false, Option.map_eq_some'] at hx ⊢
      obtain ⟨y, hy, hyx⟩ := hx
      exact ⟨y, handleConflict_mono o n m h _ _ y hy, hyx⟩

theorem propagateBody_mono (o : IterOrder) (n m : Nat) (h : n ≤ m) (s : CDCLSolver)
    (x : Step (CDCLSolver × Option Bool) CDCLSolver)
    (hx : CDCLSolver.propagateBody o n s = some x) : CDCLSolver.propagateBody o m s = some x := by
  unfold CDCLSolver.propagateBody at hx ⊢
  simp only [Option.bind_eq_some] at hx ⊢
  obtain ⟨p, hp, hpx⟩ := hx
  exact ⟨p, unitPropagation_mono n m h s p hp, afterPropagation_mono o n m h p x hpx⟩

theorem propagateLoop_mono (o : IterOrder) (n m : Nat) (h : n ≤ m) (s : CDCLSolver)
    (r : CDCLSolver × Option Bool) (hr : CDCLSolver.propagateLoop o n s = some r) :
    CDCLSolver.propagateLoop o m s = some r :=
  whileTrue_mono _ _ (propagateBody_mono o n m h) n m h s r hr

theorem solveBody_mono (o : IterOrder) (n m : Nat) (h : n ≤ m) (s : CDCLSolver)
    (x : Step (CDCLSolver × Bool) CDCLSolver)
    (hx : CDCLSolver.solveBody o n s = some x) : CDCLSolver.solveBody o m s = some x := by
  unfold CDCLSolver.solveBody at hx ⊢
  split
  · next h0 => simpa [h0] using hx
  · next h0 =>
    simp only [h0, if_false, Option.map_eq_some'] at hx ⊢
    obtain ⟨p, hp, hpx⟩ := hx
    exact ⟨p, propagateLoop_mono o n m h _ p hp, hpx⟩

theorem solveLoop_mono (o : IterOrder) (n m : Nat) (h : n ≤ m) (s : CDCLSolver)
    (r : CDCLSolver × Bool) (hr : CDCLSolver.solveLoop o n s = some r) :
    CDCLSolver.solveLoop o m s = some r :=
  whileTrue_mono _ _ (solveBody_mono o n m h) n m h s r hr

/-- A verdict reached with some fuel is the verdict for every larger fuel. -/
theorem solve_mono (o : IterOrder) (n m : Nat) (h : n ≤ m) (s : CDCLSolver)
    (r : CDCLSolver × Bool) (hr : s.solve o n = some r) : s.solve o m = some r := by
  unfold CDCLSolver.solve at hr ⊢
  simp only [Option.bind_eq_some] at hr ⊢
  obtain ⟨p, hp, hpr⟩ := hr
  refine ⟨p, unitPropagation_mono n m h _ p hp, ?_⟩
  cases hc : p.2 with
  | none =>
    simp only [hc] at hpr ⊢
    exact solveLoop_mono o n m h _ r hpr
  | some cf => simpa [hc] using hpr

/-! ## Iteration orders -/

theorem IterOrder.pin_eq (o : IterOrder) (ks p : List Int) (h : o.mapKeys ks = p) :
    o.pin ks p = o := by
  cases o with
  | mk mk ls =>
    simp only [IterOrder.pin, IterOrder.mk.injEq, and_true]
    funext l
    by_cases hl : l = ks
    · subst hl; simpa using h.symm
    · simp [hl]

theorem IterOrder.insertion_valid : IterOrder.insertion.Valid :=
  ⟨fun ks => List.Perm.refl ks, fun ls => List.Perm.refl ls⟩

theorem IterOrder.newestFirst_valid : IterOrder.newestFirst.Valid :=
  ⟨fun ks => List.reverse_perm ks, fun ls => List.reverse_perm ls⟩

theorem perm_one (l : List Int) (a : Int) (h : l.Perm [a]) : l = [a] :=
  List.perm_singleton.mp h

theorem perm_three (l : List Int) (h : l.Perm [1, 2, 3]) :
    l ∈ ([[1, 2, 3], [1, 3, 2], [2, 1, 3], [2, 3, 1], [3, 1, 2], [3, 2, 1]] : List (List Int)) := by
  have hlen : l.length = 3 := by simpa using h.length_eq
  obtain ⟨a, b, c, rfl⟩ := List.length_eq_three.mp hlen
  have hnd : [a, b, c].Nodup := h.nodup_iff.mpr (by decide)
  have ha : a ∈ ([1, 2, 3] : List Int) := h.mem_iff.mp (by simp)
  have hb : b ∈ ([1, 2, 3] : List Int) := h.mem_iff.mp (by simp)
  have hc : c ∈ ([1, 2, 3] : List Int) := h.mem_iff.mp (by simp)
  simp only [List.mem_cons, List.mem_singleton, List.not_mem_nil, or_false] at ha hb hc
  simp only [List.nodup_cons, List.mem_cons, List.mem_singleton, List.not_mem_nil, or_false,
    not_or, List.nodup_nil, not_false_eq_true, and_true] at hnd
  rcases ha with rfl | rfl | rfl <;> rcases hb with rfl | rfl | rfl <;>
    rcases hc with rfl | rfl | rfl <;> simp_all

/-! ## Checks of results -/

theorem isModelResult_spec (vs : List Int) (cs : List Clause) (r : Option (CDCLSolver × Bool))
    (h : isModelResult vs cs r = true) :
    ∃ s, r = some (s, true) ∧ (∀ v ∈ vs, (mapFind s.getAssignment v).isSome) ∧
      ∀ c ∈ cs, c.isTrue s.getAssignment = true := by
  unfold isModelResult at h
  split at h
  · next s =>
    simp only [Bool.and_eq_true, List.all_eq_true] at h
    exact ⟨s, rfl, h.1, h.2⟩
  · simp at h

theorem isFalsifyingResult_spec (cs : List Clause) (r : Option (CDCLSolver × Bool))
    (h : isFalsifyingResult cs r = true) :
    ∃ s, r = some (s, true) ∧
      ∃ c ∈ cs, c.isFalse s.getAssignment = true ∧ c.isTrue s.getAssignment = false := by
  unfold isFalsifyingResult at h
  split at h
  · next s =>
    simp only [List.any_eq_true, Bool.and_eq_true, Bool.not_eq_true'] at h
    exact ⟨s, rfl, h⟩
  · simp at h

theorem isResetResidue_spec (lv : List (Int × List Int)) (r : Option (CDCLSolver × Bool))
    (h : isResetResidue lv r = true) :
    ∃ s, r = some (s, true) ∧ s.reset.levelVars = lv ∧ s.reset ≠ CDCLSolver.new := by
  unfold isResetResidue at h
  split at h
  · next s =>
    simp only [Bool.and_eq_true, decide_eq_true_eq] at h
    exact ⟨s, rfl, h.1, h.2⟩
  · simp at h

theorem perm_two (l : List Int) (h : l.Perm [1, 2]) : l = [1, 2] ∨ l = [2, 1] := by
  have hlen : l.length = 2 := by simpa using h.length_eq
  obtain ⟨a, b, rfl⟩ := List.length_eq_two.mp hlen
  have hnd : [a, b].Nodup := h.nodup_iff.mpr (by decide)
  have ha : a ∈ ([1, 2] : List Int) := h.mem_iff.mp (by simp)
  have hb : b ∈ ([1, 2] : List Int) := h.mem_iff.mp (by simp)
  simp only [List.mem_cons, List.mem_singleton, List.not_mem_nil, or_false] at ha hb
  simp only [List.nodup_cons, List.mem_cons, List.mem_singleton, List.not_mem_nil, or_false,
    List.nodup_nil, not_false_eq_true, and_true] at hnd
  rcases ha with rfl | rfl <;> rcases hb with rfl | rfl <;> simp_all

/-! ## Wrap-around of `int` -/

/-- On the results that negation and `std::abs` produce from an `int`, `wrapInt32` is
reduction to the two's-complement range. -/
theorem wrapInt32_eq_mod (x : Int) (h1 : -2147483648 ≤ x) (h2 : x ≤ 2147483648) :
    wrapInt32 x = (x + 2147483648) % 4294967296 - 2147483648 := by
  unfold wrapInt32
  by_cases h : x = 2147483648
  · rw [if_pos h, h]
    decide
  · rw [if_neg h]
    omega

theorem wrapInt32_ne_zero (x : Int) (h : x ≠ 0) : wrapInt32 x ≠ 0 := by
  unfold wrapInt32
  by_cases h1 : x = 2147483648
  · rw [if_pos h1]
    decide
  · rw [if_neg h1]
    exact h

/-- The magnitude stored for a raw entry determines the magnitude of the entry. -/
theorem wrapInt32_abs_injective (x y : Int) (h : wrapInt32 |x| = wrapInt32 |y|) : |x| = |y| := by
  have hx : 0 ≤ |x| := abs_nonneg x
  have hy : 0 ≤ |y| := abs_nonneg y
  unfold wrapInt32 at h
  by_cases h1 : |x| = 2147483648
  · by_cases h2 : |y| = 2147483648
    · rw [h1, h2]
    · rw [if_pos h1, if_neg h2] at h
      omega
  · by_cases h2 : |y| = 2147483648
    · rw [if_neg h1, if_pos h2] at h
      omega
    · rw [if_neg h1, if_neg h2] at h
      exact h

/-! ## Field projections of the state-changing operations -/

@[simp] theorem assign_clauses (s : CDCLSolver) (l : Literal) (lvl : Int) (r : Option Clause) :
    (s.assign l lvl r).clauses = s.clauses := rfl
@[simp] theorem assign_assignment (s : CDCLSolver) (l : Literal) (lvl : Int) (r : Option Clause) :
    (s.assign l lvl r).assignment = mapSet s.assignment l.var (!l.negated) := rfl
@[simp] theorem assign_decisionLevel (s : CDCLSolver) (l : Literal) (lvl : Int) (r : Option Clause) :
    (s.assign l lvl r).decisionLevel = s.decisionLevel := rfl
@[simp] theorem assign_trail (s : CDCLSolver) (l : Literal) (lvl : Int) (r : Option Clause) :
    (s.assign l lvl r).trail = s.trail ++ [⟨l, lvl, r⟩] := rfl
@[simp] theorem assign_reason (s : CDCLSolver) (l : Literal) (lvl : Int) (r : Option Clause) :
    (s.assign l lvl r).reason = mapSet s.reason l.var r := rfl
@[simp] theorem assign_levelVars (s : CDCLSolver) (l : Literal) (lvl : Int) (r : Option Clause) :
    (s.assign l lvl r).levelVars =
      mapSet s.levelVars lvl (setInsert ((mapFind s.levelVars lvl).getD []) l.var) := rfl
@[simp] theorem assign_varActivity (s : CDCLSolver) (l : Literal) (lvl : Int) (r : Option Clause) :
    (s.assign l lvl r).varActivity =
      mapSet s.varActivity l.var ((mapFind s.varActivity l.var).getD 0 + 1) := rfl
@[simp] theorem assign_watchList (s : CDCLSolver) (l : Literal) (lvl : Int) (r : Option Clause) :
    (s.assign l lvl r).watchList = s.watchList := rfl

@[simp] theorem mapFind_mapSet_self {β : Type} (m : List (Int × β)) (k : Int) (v : β) :
    mapFind (mapSet m k v) k = some v := by
  induction m with
  | nil => simp [mapSet, mapFind]
  | cons p m ih =>
    obtain ⟨k', v'⟩ := p
    by_cases h : k' = k
    · simp [mapSet, mapFind, h]
    · simp [mapSet, mapFind, h, ih]

theorem mapFind_mapSet_ne {β : Type} (m : List (Int × β)) (k k2 : Int) (v : β) (h : k ≠ k2) :
    mapFind (mapSet m k v) k2 = mapFind m k2 := by
  induction m with
  | nil => simp [mapSet, mapFind, h]
  | cons p m ih =>
    obtain ⟨k', v'⟩ := p
    by_cases h1 : k' = k
    · subst h1
      simp [mapSet, mapFind, h]
    · simp only [mapSet, h1, if_false, mapFind]
      rw [ih]

theorem levelRange_self (l : Int) : levelRange l l = [l] := by
  have h : (l + 1 - l).toNat = 1 := by
    have : l + 1 - l = 1 := by omega
    rw [this]; rfl
  unfold levelRange
  rw [h]
  show [l + ((0 : Nat) : Int)] = [l]
  simp

@[simp] theorem assignDecision_clauses (s : CDCLSolver) (l : Literal) :
    (s.assignDecision l).clauses = s.clauses := rfl
@[simp] theorem assignDecision_assignment (s : CDCLSolver) (l : Literal) :
    (s.assignDecision l).assignment = mapSet s.assignment l.var (!l.negated) := rfl
@[simp] theorem assignDecision_decisionLevel (s : CDCLSolver) (l : Literal) :
    (s.assignDecision l).decisionLevel = s.decisionLevel + 1 := rfl
@[simp] theorem assignDecision_trail (s : CDCLSolver) (l : Literal) :
    (s.assignDecision l).trail = s.trail ++ [⟨l, s.decisionLevel + 1, none⟩] := rfl
@[simp] theorem assignDecision_reason (s : CDCLSolver) (l : Literal) :
    (s.assignDecision l).reason = mapSet s.reason l.var none := rfl
@[simp] theorem assignDecision_levelVars (s : CDCLSolver) (l : Literal) :
    (s.assignDecision l).levelVars =
      mapSet s.levelVars (s.decisionLevel + 1)
        (setInsert ((mapFind s.levelVars (s.decisionLevel + 1)).getD []) l.var) := rfl
@[simp] theorem assignDecision_varActivity (s : CDCLSolver) (l : Literal) :
    (s.assignDecision l).varActivity =
      mapSet s.varActivity l.var ((mapFind s.varActivity l.var).getD 0 + 1) := rfl

@[simp] theorem learn_clauses (s : CDCLSolver) (lits : List Literal) :
    ((s.addClause lits).markLastLearned).clauses = s.clauses ++ [⟨lits, true, 0⟩] := by
  simp [CDCLSolver.markLastLearned, CDCLSolver.addClause, Clause.new]
@[simp] theorem learn_assignment (s : CDCLSolver) (lits : List Literal) :
    ((s.addClause lits).markLastLearned).assignment = s.assignment := rfl
@[simp] theorem learn_decisionLevel (s : CDCLSolver) (lits : List Literal) :
    ((s.addClause lits).markLastLearned).decisionLevel = s.decisionLevel := rfl
@[simp] theorem learn_trail (s : CDCLSolver) (lits : List Literal) :
    ((s.addClause lits).markLastLearned).trail = s.trail := rfl
@[simp] theorem learn_reason (s : CDCLSolver) (lits : List Literal) :
    ((s.addClause lits).markLastLearned).reason = s.reason := rfl
@[simp] theorem learn_levelVars (s : CDCLSolver) (lits : List Literal) :
    ((s.addClause lits).markLastLearned).levelVars = s.levelVars := rfl
@[simp] theorem learn_varActivity (s : CDCLSolver) (lits : List Literal) :
    ((s.addClause lits).markLastLearned).varActivity =
      lits.foldl (fun m lit => mapSet m lit.var 0) s.varActivity := rfl

theorem backtrack_of_nonneg (s : CDCLSolver) (level : Int) (h : 0 ≤ level) :
    s.backtrack level =
      { s with
        assignment := (s.varsToRemove level).foldl mapErase s.assignment
        reason := (s.varsToRemove level).foldl mapErase s.reason
        trail := s.trail.filter (fun entry => ¬ (entry.level > level))
        decisionLevel := level } := by
  have h' : ¬ level < 0 := by omega
  simp [CDCLSolver.backtrack, h', CDCLSolver.varsToRemove]

theorem assertLearned_of_eq (s : CDCLSolver) (c : Clause) (level : Int)
    (h : s.decisionLevel = level) : s.assertLearned c level = s := by
  simp [CDCLSolver.assertLearned, h]

theorem learnAndBacktrack_of_nonneg (s : CDCLSolver) (c : Clause) (level : Int) (h : 0 ≤ level) :
    s.learnAndBacktrack c level = ((s.addClause c.literals).markLastLearned).backtrack level := by
  unfold CDCLSolver.learnAndBacktrack
  apply assertLearned_of_eq
  rw [backtrack_of_nonneg _ _ h]

/-! ## A formula on which `solve` never returns (C3) -/

theorem find?_append_of_some {α : Type} (p : α → Bool) (l1 l2 : List α) (x : α)
    (h : l1.find? p = some x) : (l1 ++ l2).find? p = some x := by
  rw [List.find?_append, h]; rfl

theorem find?_append_of_none {α : Type} (p : α → Bool) (l1 l2 : List α)
    (h1 : l1.find? p = none) (h2 : ∀ x ∈ l2, p x = false) : (l1 ++ l2).find? p = none := by
  rw [List.find?_append, h1]
  simp only [Option.none_or, List.find?_eq_none]
  intro x hx
  simp [h2 x hx]

theorem whileTrue_done {ρ σ : Type} (body : σ → Option (Step ρ σ)) (n : Nat) (s : σ) (r : ρ)
    (h : body s = some (Step.done r)) : whileTrue body (n + 1) s = some r := by
  rw [whileTrue_succ_eq, h]

theorem whileTrue_next {ρ σ : Type} (body : σ → Option (Step ρ σ)) (n : Nat) (s s1 : σ)
    (h : body s = some (Step.next s1)) : whileTrue body (n + 1) s = whileTrue body n s1 := by
  rw [whileTrue_succ_eq, h]

theorem unitPropagationBody_conflict (s : CDCLSolver) (u cf : Clause)
    (h1 : s.clauses.find? (fun c => c.isUnit s.assignment) = some u)
    (h2 : (s.assign (u.getUnitLiteral s.assignment) s.decisionLevel (some u)).checkConflict
      = some cf) :
    s.unitPropagationBody =
      Step.done (s.assign (u.getUnitLiteral s.assignment) s.decisionLevel (some u), some cf) := by
  unfold CDCLSolver.unitPropagationBody
  rw [h1]
  simp only [h2]

theorem unitPropagationBody_next (s : CDCLSolver) (u : Clause)
    (h1 : s.clauses.find? (fun c => c.isUnit s.assignment) = some u)
    (h2 : (s.assign (u.getUnitLiteral s.assignment) s.decisionLevel (some u)).checkConflict
      = none) :
    s.unitPropagationBody =
      Step.next (s.assign (u.getUnitLiteral s.assignment) s.decisionLevel (some u)) := by
  unfold CDCLSolver.unitPropagationBody
  rw [h1]
  simp only [h2]

theorem unitPropagationBody_none (s : CDCLSolver)
    (h1 : s.clauses.find? (fun c => c.isUnit s.assignment) = none) :
    s.unitPropagationBody = Step.done (s, none) := by
  unfold CDCLSolver.unitPropagationBody
  rw [h1]

theorem getDecisionLevel_append (s : CDCLSolver) (t1 t2 : List TrailEntry) (v : Int) (e : TrailEntry)
    (ht : s.trail = t1 ++ t2)
    (h : t2.reverse.find? (fun e => e.literal.var = v) = some e) :
    s.getDecisionLevel v = e.level := by
  unfold CDCLSolver.getDecisionLevel
  rw [ht, List.reverse_append, find?_append_of_some _ _ _ _ h]

theorem cycleA (o : IterOrder) (h12 : o.mapKeys [1, 2] = [1, 2]) (s : CDCLSolver)
    (hI : LoopInv loopLearnedA s) :
    (s.decide o).var ≠ 0 ∧
      ∃ s1, CDCLSolver.propagateLoop o 2 (s.assignDecision (s.decide o)) = some (s1, none) ∧
        LoopInv loopLearnedA s1 := by
  obtain ⟨⟨L, hcl, hL⟩, hasg, hrs, hact, hlvl, hfresh⟩ := hI
  have hdec : s.decide o = ⟨1, false⟩ := by
    simp [CDCLSolver.decide, hact, hasg, h12, mapFind, CDCLSolver.activityOf]
  rw [hdec]
  refine ⟨by decide, ?_⟩
  have hlv1 : mapFind s.levelVars (s.decisionLevel + 1) = none := hfresh _ (by omega)
  have hne : s.decisionLevel + 1 ≠ 0 := by omega
  -- the state after the decision
  obtain ⟨s2, hs2⟩ : ∃ s2, s2 = s.assignDecision ⟨1, false⟩ := ⟨_, rfl⟩
  have c2 : s2.clauses = loopBase ++ L := by rw [hs2, assignDecision_clauses, hcl]
  have a2 : s2.assignment = [(1, true)] := by rw [hs2, assignDecision_assignment, hasg]; rfl
  have d2 : s2.decisionLevel = s.decisionLevel + 1 := by rw [hs2]; rfl
  have r2 : s2.reason = [(1, none)] := by rw [hs2, assignDecision_reason, hrs]; rfl
  have l2 : s2.levelVars = mapSet s.levelVars (s.decisionLevel + 1) [1] := by
    rw [hs2, assignDecision_levelVars, hlv1]; rfl
  have t2 : s2.trail = s.trail ++ [⟨⟨1, false⟩, s.decisionLevel + 1, none⟩] := by rw [hs2]; rfl
  rw [← hs2]
  -- unit propagation: `[-1, 2]` is unit, then `[-1, -2]` is falsified
  have u2 : (⟨[⟨1, true⟩, ⟨2, false⟩], false, 0⟩ : Clause).getUnitLiteral s2.assignment
      = ⟨2, false⟩ := by rw [a2]; decide
  obtain ⟨s3, hs3⟩ : ∃ s3, s3 = s2.assign ⟨2, false⟩ s2.decisionLevel
      (some ⟨[⟨1, true⟩, ⟨2, false⟩], false, 0⟩) := ⟨_, rfl⟩
  have c3 : s3.clauses = loopBase ++ L := by rw [hs3, assign_clauses, c2]
  have a3 : s3.assignment = [(1, true), (2, true)] := by rw [hs3, assign_assignment, a2]; rfl
  have d3 : s3.decisionLevel = s.decisionLevel + 1 := by rw [hs3, assign_decisionLevel, d2]
  have r3 : s3.reason = [(1, none), (2, some ⟨[⟨1, true⟩, ⟨2, false⟩], false, 0⟩)] := by
    rw [hs3, assign_reason, r2]; rfl
  have l3 : s3.levelVars = mapSet (mapSet s.levelVars (s.decisionLevel + 1) [1])
      (s.decisionLevel + 1) [1, 2] := by
    rw [hs3, assign_levelVars, l2, d2, mapFind_mapSet_self]; rfl
  have t3 : s3.trail = s.trail ++ [⟨⟨1, false⟩, s.decisionLevel + 1, none⟩,
      ⟨⟨2, false⟩, s.decisionLevel + 1, some ⟨[⟨1, true⟩, ⟨2, false⟩], false, 0⟩⟩] := by
    rw [hs3, assign_trail, t2, d2]; simp
  have hU : s2.unitPropagationBody = Step.done (s3, some ⟨[⟨1, true⟩, ⟨2, true⟩], false, 0⟩) := by
    have h1 : s2.clauses.find? (fun c => c.isUnit s2.assignment) =
        some ⟨[⟨1, true⟩, ⟨2, false⟩], false, 0⟩ := by
      rw [c2, a2]
      exact find?_append_of_some _ _ _ _ (by decide)
    have h := unitPropagationBody_conflict s2 _ ⟨[⟨1, true⟩, ⟨2, true⟩], false, 0⟩ h1 (by
      rw [u2, ← hs3]
      unfold CDCLSolver.checkConflict
      rw [c3, a3]
      exact find?_append_of_some _ _ _ _ (by decide))
    rw [u2, ← hs3] at h
    exact h
  have hUP : s2.unitPropagation 2 = some (s3, some ⟨[⟨1, true⟩, ⟨2, true⟩], false, 0⟩) := by
    unfold CDCLSolver.unitPropagation
    exact whileTrue_done _ _ _ _ (by rw [hU])
  -- conflict analysis stops at the decision variable
  have g1 : s3.getDecisionLevel 1 = s.decisionLevel + 1 :=
    getDecisionLevel_append s3 _ _ 1 ⟨⟨1, false⟩, s.decisionLevel + 1, none⟩ t3 (by simp)
  have g2 : s3.getDecisionLevel 2 = s.decisionLevel + 1 :=
    getDecisionLevel_append s3 _ _ 2
      ⟨⟨2, false⟩, s.decisionLevel + 1, some ⟨[⟨1, true⟩, ⟨2, false⟩], false, 0⟩⟩ t3 (by simp)
  have hA : s3.analyzeConflict o 2 ⟨[⟨1, true⟩, ⟨2, true⟩], false, 0⟩ =
      some (s3, ⟨[⟨1, true⟩, ⟨2, true⟩], false, 0⟩, s.decisionLevel + 1) := by
    have hclv : s3.currentLevelVars = [1, 2] := by
      simp [CDCLSolver.currentLevelVars, l3, d3]
    have htl : s3.touchLevelVars = s3 := by
      simp [CDCLSolver.touchLevelVars, l3, d3]
    have hbody : analyzeBody o [1, 2] (s3, ⟨[⟨1, true⟩, ⟨2, true⟩], false, 0⟩) =
        Step.done (s3, ⟨[⟨1, true⟩, ⟨2, true⟩], false, 0⟩) := by
      simp [analyzeBody, lastLevelVar, CDCLSolver.touchReason, r3, mapFind]
    have hbl : s3.backtrackLevelOf ⟨[⟨1, true⟩, ⟨2, true⟩], false, 0⟩ = s.decisionLevel + 1 := by
      have hpos : s.decisionLevel + 1 > 0 := by omega
      have hmax : max 0 (s.decisionLevel + 1) = s.decisionLevel + 1 := max_eq_right (by omega)
      simp [CDCLSolver.backtrackLevelOf, g1, g2, hpos, hmax]
    unfold CDCLSolver.analyzeConflict
    rw [d3, if_neg hne, hclv, htl]
    unfold analyzeLoop
    rw [whileTrue_done _ _ _ _ (by rw [hbody])]
    simp [hbl]
  have v3 : s3.varActivity = [(1, 1), (2, 1)] := by
    rw [hs3, assign_varActivity, hs2, assignDecision_varActivity, hact]; rfl
  obtain ⟨s4, hs4⟩ : ∃ s4, s4 = s3.learnAndBacktrack ⟨[⟨1, true⟩, ⟨2, true⟩], false, 0⟩
      (s.decisionLevel + 1) := ⟨_, rfl⟩
  have hs4' := hs4
  rw [learnAndBacktrack_of_nonneg _ _ _ (by omega), backtrack_of_nonneg _ _ (by omega)] at hs4'
  have hrem : ((s3.addClause [⟨1, true⟩, ⟨2, true⟩]).markLastLearned).varsToRemove
      (s.decisionLevel + 1) = [1, 2] := by
    simp [CDCLSolver.varsToRemove, learn_decisionLevel, learn_levelVars, d3, levelRange_self, l3]
  have c4 : s4.clauses = loopBase ++ (L ++ [loopLearnedA]) := by
    rw [hs4']; simp [c3, loopLearnedA]
  have a4 : s4.assignment = [] := by
    rw [hs4']; simp only [hrem, learn_assignment, a3]; rfl
  have r4 : s4.reason = [] := by
    rw [hs4']; simp only [hrem, learn_reason, r3]; rfl
  have v4 : s4.varActivity = [(1, 0), (2, 0)] := by
    rw [hs4']; simp only [learn_varActivity, v3]; rfl
  have d4 : s4.decisionLevel = s.decisionLevel + 1 := by rw [hs4']
  have l4 : s4.levelVars = mapSet (mapSet s.levelVars (s.decisionLevel + 1) [1])
      (s.decisionLevel + 1) [1, 2] := by
    rw [hs4']; simp only [learn_levelVars, l3]
  have hI4 : LoopInv loopLearnedA s4 := by
    refine ⟨⟨L ++ [loopLearnedA], c4, ?_⟩, a4, r4, v4, by omega, ?_⟩
    · intro c hc
      rcases List.mem_append.mp hc with h | h
      · exact hL c h
      · simpa using h
    · intro l hl
      rw [d4] at hl
      rw [l4, mapFind_mapSet_ne _ _ _ _ (by omega), mapFind_mapSet_ne _ _ _ _ (by omega)]
      exact hfresh l (by omega)
  have hU4 : s4.unitPropagationBody = Step.done (s4, none) := by
    apply unitPropagationBody_none
    rw [c4, a4]
    apply find?_append_of_none _ _ _ (by decide)
    intro c hc
    rcases List.mem_append.mp hc with h | h
    · rw [hL c h]; decide
    · have : c = loopLearnedA := by simpa using h
      rw [this]; decide
  refine ⟨s4, ?_, hI4⟩
  have hb1 : CDCLSolver.propagateBody o 2 s2 = some (Step.next s4) := by
    unfold CDCLSolver.propagateBody
    rw [hUP]
    simp [CDCLSolver.afterPropagation, d3, hne, CDCLSolver.handleConflict, hA, hs4]
  have hb2 : CDCLSolver.propagateBody o 2 s4 = some (Step.done (s4, none)) := by
    unfold CDCLSolver.propagateBody CDCLSolver.unitPropagation
    rw [whileTrue_done _ _ _ _ (by rw [hU4])]
    rfl
  unfold CDCLSolver.propagateLoop
  rw [whileTrue_next _ _ _ _ hb1, whileTrue_done _ _ _ _ hb2]


theorem cycleB (o : IterOrder) (h12 : o.mapKeys [1, 2] = [2, 1]) (s : CDCLSolver)
    (hI : LoopInv loopLearnedB s) :
    (s.decide o).var ≠ 0 ∧
      ∃ s1, CDCLSolver.propagateLoop o 2 (s.assignDecision (s.decide o)) = some (s1, none) ∧
        LoopInv loopLearnedB s1 := by
  obtain ⟨⟨L, hcl, hL⟩, hasg, hrs, hact, hlvl, hfresh⟩ := hI
  have hdec : s.decide o = ⟨2, false⟩ := by
    simp [CDCLSolver.decide, hact, hasg, h12, mapFind, CDCLSolver.activityOf]
  rw [hdec]
  refine ⟨by decide, ?_⟩
  have hlv1 : mapFind s.levelVars (s.decisionLevel + 1) = none := hfresh _ (by omega)
  have hne : s.decisionLevel + 1 ≠ 0 := by omega
  -- the state after the decision
  obtain ⟨s2, hs2⟩ : ∃ s2, s2 = s.assignDecision ⟨2, false⟩ := ⟨_, rfl⟩
  have c2 : s2.clauses = loopBase ++ L := by rw [hs2, assignDecision_clauses, hcl]
  have a2 : s2.assignment = [(2, true)] := by rw [hs2, assignDecision_assignment, hasg]; rfl
  have d2 : s2.decisionLevel = s.decisionLevel + 1 := by rw [hs2]; rfl
  have r2 : s2.reason = [(2, none)] := by rw [hs2, assignDecision_reason, hrs]; rfl
  have l2 : s2.levelVars = mapSet s.levelVars (s.decisionLevel + 1) [2] := by
    rw [hs2, assignDecision_levelVars, hlv1]; rfl
  have t2 : s2.trail = s.trail ++ [⟨⟨2, false⟩, s.decisionLevel + 1, none⟩] := by rw [hs2]; rfl
  rw [← hs2]
  -- unit propagation: `[-1, 2]` is unit, then `[-1, -2]` is falsified
  have u2 : (⟨[⟨1, true⟩, ⟨2, true⟩], false, 0⟩ : Clause).getUnitLiteral s2.assignment
      = ⟨1, true⟩ := by rw [a2]; decide
  obtain ⟨s3, hs3⟩ : ∃ s3, s3 = s2.assign ⟨1, true⟩ s2.decisionLevel
      (some ⟨[⟨1, true⟩, ⟨2, true⟩], false, 0⟩) := ⟨_, rfl⟩
  have c3 : s3.clauses = loopBase ++ L := by rw [hs3, assign_clauses, c2]
  have a3 : s3.assignment = [(2, true), (1, false)] := by rw [hs3, assign_assignment, a2]; rfl
  have d3 : s3.decisionLevel = s.decisionLevel + 1 := by rw [hs3, assign_decisionLevel, d2]
  have r3 : s3.reason = [(2, none), (1, some ⟨[⟨1, true⟩, ⟨2, true⟩], false, 0⟩)] := by
    rw [hs3, assign_reason, r2]; rfl
  have l3 : s3.levelVars = mapSet (mapSet s.levelVars (s.decisionLevel + 1) [2])
      (s.decisionLevel + 1) [2, 1] := by
    rw [hs3, assign_levelVars, l2, d2, mapFind_mapSet_self]; rfl
  have t3 : s3.trail = s.trail ++ [⟨⟨2, false⟩, s.decisionLevel + 1, none⟩,
      ⟨⟨1, true⟩, s.decisionLevel + 1, some ⟨[⟨1, true⟩, ⟨2, true⟩], false, 0⟩⟩] := by
    rw [hs3, assign_trail, t2, d2]; simp
  have hU : s2.unitPropagationBody = Step.done (s3, some ⟨[⟨2, true⟩, ⟨1, false⟩], false, 0⟩) := by
    have h1 : s2.clauses.find? (fun c => c.isUnit s2.assignment) =
        some ⟨[⟨1, true⟩, ⟨2, true⟩], false, 0⟩ := by
      rw [c2, a2]
      exact find?_append_of_some _ _ _ _ (by decide)
    have h := unitPropagationBody_conflict s2 _ ⟨[⟨2, true⟩, ⟨1, false⟩], false, 0⟩ h1 (by
      rw [u2, ← hs3]
      unfold CDCLSolver.checkConflict
      rw [c3, a3]
      exact find?_append_of_some _ _ _ _ (by decide))
    rw [u2, ← hs3] at h
    exact h
  have hUP : s2.unitPropagation 2 = some (s3, some ⟨[⟨2, true⟩, ⟨1, false⟩], false, 0⟩) := by
    unfold CDCLSolver.unitPropagation
    exact whileTrue_done _ _ _ _ (by rw [hU])
  -- conflict analysis stops at the decision variable
  have g1 : s3.getDecisionLevel 2 = s.decisionLevel + 1 :=
    getDecisionLevel_append s3 _ _ 2 ⟨⟨2, false⟩, s.decisionLevel + 1, none⟩ t3 (by simp)
  have g2 : s3.getDecisionLevel 1 = s.decisionLevel + 1 :=
    getDecisionLevel_append s3 _ _ 1
      ⟨⟨1, true⟩, s.decisionLevel + 1, some ⟨[⟨1, true⟩, ⟨2, true⟩], false, 0⟩⟩ t3 (by simp)
  have hA : s3.analyzeConflict o 2 ⟨[⟨2, true⟩, ⟨1, false⟩], false, 0⟩ =
      some (s3, ⟨[⟨2, true⟩, ⟨1, false⟩], false, 0⟩, s.decisionLevel + 1) := by
    have hclv : s3.currentLevelVars = [2, 1] := by
      simp [CDCLSolver.currentLevelVars, l3, d3]
    have htl : s3.touchLevelVars = s3 := by
      simp [CDCLSolver.touchLevelVars, l3, d3]
    have hbody : analyzeBody o [2, 1] (s3, ⟨[⟨2, true⟩, ⟨1, false⟩], false, 0⟩) =
        Step.done (s3, ⟨[⟨2, true⟩, ⟨1, false⟩], false, 0⟩) := by
      simp [analyzeBody, lastLevelVar, CDCLSolver.touchReason, r3, mapFind]
    have hbl : s3.backtrackLevelOf ⟨[⟨2, true⟩, ⟨1, false⟩], false, 0⟩ = s.decisionLevel + 1 := by
      have hpos : s.decisionLevel + 1 > 0 := by omega
      have hmax : max 0 (s.decisionLevel + 1) = s.decisionLevel + 1 := max_eq_right (by omega)
      simp [CDCLSolver.backtrackLevelOf, g1, g2, hpos, hmax]
    unfold CDCLSolver.analyzeConflict
    rw [d3, if_neg hne, hclv, htl]
    unfold analyzeLoop
    rw [whileTrue_done _ _ _ _ (by rw [hbody])]
    simp [hbl]
  have v3 : s3.varActivity = [(1, 1), (2, 1)] := by
    rw [hs3, assign_varActivity, hs2, assignDecision_varActivity, hact]; rfl
  obtain ⟨s4, hs4⟩ : ∃ s4, s4 = s3.learnAndBacktrack ⟨[⟨2, true⟩, ⟨1, false⟩], false, 0⟩
      (s.decisionLevel + 1) := ⟨_, rfl⟩
  have hs4' := hs4
  rw [learnAndBacktrack_of_nonneg _ _ _ (by omega), backtrack_of_nonneg _ _ (by omega)] at hs4'
  have hrem : ((s3.addClause [⟨2, true⟩, ⟨1, false⟩]).markLastLearned).varsToRemove
      (s.decisionLevel + 1) = [2, 1] := by
    simp [CDCLSolver.varsToRemove, learn_decisionLevel, learn_levelVars, d3, levelRange_self, l3]
  have c4 : s4.clauses = loopBase ++ (L ++ [loopLearnedB]) := by
    rw [hs4']; simp [c3, loopLearnedB]
  have a4 : s4.assignment = [] := by
    rw [hs4']; simp only [hrem, learn_assignment, a3]; rfl
  have r4 : s4.reason = [] := by
    rw [hs4']; simp only [hrem, learn_reason, r3]; rfl
  have v4 : s4.varActivity = [(1, 0), (2, 0)] := by
    rw [hs4']; simp only [learn_varActivity, v3]; rfl
  have d4 : s4.decisionLevel = s.decisionLevel + 1 := by rw [hs4']
  have l4 : s4.levelVars = mapSet (mapSet s.levelVars (s.decisionLevel + 1) [2])
      (s.decisionLevel + 1) [2, 1] := by
    rw [hs4']; simp only [learn_levelVars, l3]
  have hI4 : LoopInv loopLearnedB s4 := by
    refine ⟨⟨L ++ [loopLearnedB], c4, ?_⟩, a4, r4, v4, by omega, ?_⟩
    · intro c hc
      rcases List.mem_append.mp hc with h | h
      · exact hL c h
      · simpa using h
    · intro l hl
      rw [d4] at hl
      rw [l4, mapFind_mapSet_ne _ _ _ _ (by omega), mapFind_mapSet_ne _ _ _ _ (by omega)]
      exact hfresh l (by omega)
  have hU4 : s4.unitPropagationBody = Step.done (s4, none) := by
    apply unitPropagationBody_none
    rw [c4, a4]
    apply find?_append_of_none _ _ _ (by decide)
    intro c hc
    rcases List.mem_append.mp hc with h | h
    · rw [hL c h]; decide
    · have : c = loopLearnedB := by simpa using h
      rw [this]; decide
  refine ⟨s4, ?_, hI4⟩
  have hb1 : CDCLSolver.propagateBody o 2 s2 = some (Step.next s4) := by
    unfold CDCLSolver.propagateBody
    rw [hUP]
    simp [CDCLSolver.afterPropagation, d3, hne, CDCLSolver.handleConflict, hA, hs4]
  have hb2 : CDCLSolver.propagateBody o 2 s4 = some (Step.done (s4, none)) := by
    unfold CDCLSolver.propagateBody CDCLSolver.unitPropagation
    rw [whileTrue_done _ _ _ _ (by rw [hU4])]
    rfl
  unfold CDCLSolver.propagateLoop
  rw [whileTrue_next _ _ _ _ hb1, whileTrue_done _ _ _ _ hb2]

theorem propagateLoop_det (o : IterOrder) (n m : Nat) (s : CDCLSolver)
    (r1 r2 : CDCLSolver × Option Bool)
    (h1 : CDCLSolver.propagateLoop o n s = some r1)
    (h2 : CDCLSolver.propagateLoop o m s = some r2) : r1 = r2 := by
  have e1 := propagateLoop_mono o n (max n m) (le_max_left n m) s r1 h1
  have e2 := propagateLoop_mono o m (max n m) (le_max_right n m) s r2 h2
  rw [e1] at e2
  exact Option.some.inj e2

/-- One pass of the outer loop from a state of the cycle. -/
theorem solveBody_of_cycle (o : IterOrder) (fuel : Nat) (s : CDCLSolver) (I : CDCLSolver → Prop)
    (hc : (s.decide o).var ≠ 0 ∧
      ∃ s1, CDCLSolver.propagateLoop o 2 (s.assignDecision (s.decide o)) = some (s1, none) ∧ I s1) :
    CDCLSolver.solveBody o fuel s = none ∨
      ∃ s1, CDCLSolver.solveBody o fuel s = some (Step.next s1) ∧ I s1 := by
  obtain ⟨hv, s1, hp, hI⟩ := hc
  unfold CDCLSolver.solveBody
  rw [if_neg hv]
  cases h : CDCLSolver.propagateLoop o fuel (s.assignDecision (s.decide o)) with
  | none => left; rfl
  | some r =>
    right
    have hr : r = (s1, none) := propagateLoop_det o _ _ _ _ _ h hp
    subst hr
    exact ⟨s1, rfl, hI⟩

theorem loopFormula_initial (cL : Clause) :
    LoopInv cL { (CNFSolver loopFormula) with decisionLevel := 0 } :=
  ⟨⟨[], by decide, by simp⟩, by decide, by decide, by decide, by decide, fun _ _ => rfl⟩

/-- C3 (termination) fails: on the satisfiable formula `{[-1,2],[-1,-2],[-2,1]}`, under
every valid iteration order, `solve` never returns: it runs out of fuel for every
fuel.  Each conflict is analysed at the decision variable, the conflict clause itself is
learned, `backtrack` undoes the level and the same decision is taken again. -/
theorem C3_solve_diverges (o : IterOrder) (ho : o.Valid) (fuel : Nat) :
    (CNFSolver loopFormula).solve o fuel = none := by
  unfold CDCLSolver.solve
  cases fuel with
  | zero => rfl
  | succ n =>
    have hU : ({ (CNFSolver loopFormula) with decisionLevel := 0 } : CDCLSolver).unitPropagation
        (n + 1) = some ({ (CNFSolver loopFormula) with decisionLevel := 0 }, none) := by
      unfold CDCLSolver.unitPropagation
      exact whileTrue_done _ _ _ _ (by rw [unitPropagationBody_none _ (by decide)])
    rw [hU]
    show CDCLSolver.solveLoop o (n + 1) _ = none
    unfold CDCLSolver.solveLoop
    rcases perm_two _ (ho.1 [1, 2]) with h12 | h12
    · exact whileTrue_diverges _ (LoopInv loopLearnedA)
        (fun s hI => solveBody_of_cycle o (n + 1) s _ (cycleA o h12 s hI)) _ _
        (loopFormula_initial loopLearnedA)
    · exact whileTrue_diverges _ (LoopInv loopLearnedB)
        (fun s hI => solveBody_of_cycle o (n + 1) s _ (cycleB o h12 s hI)) _ _
        (loopFormula_initial loopLearnedB)

theorem C3_solve_diverges_witness :
    (CNFSolver loopFormula).solve IterOrder.insertion 1000 = none :=
  C3_solve_diverges IterOrder.insertion IterOrder.insertion_valid 1000

/-! ## Construction (C6) -/

theorem addClause_clauses (s : CDCLSolver) (ls : List Literal) :
    (s.addClause ls).clauses = s.clauses ++ [⟨ls, false, 0⟩] := by
  simp [CDCLSolver.addClause, Clause.new]

/-- C7 (contradictory units): for every variable `v ≥ 1` and every iteration order,
`solve` on the solver built from `[v]` and `[-v]` returns `false` (with any fuel ≥ 1). -/
theorem C7_contradictory_units (v : Int) (hv : 1 ≤ v) (o : IterOrder) (fuel : Nat) :
    ∃ s, (CNFSolver [[v], [-v]]).solve o (fuel + 1) = some (s, false) := by
  have h0 : v ≠ 0 := by omega
  have h1 : |v| = v := abs_of_pos (by omega)
  have h2 : ¬ (v < 0) := by omega
  have h3 : (0 : Int) < v := by omega
  simp [CNFSolver, rawLiterals, rawLiteral, h0, h1, h2, h3, CDCLSolver.addClause, CDCLSolver.new,
    Clause.new, CDCLSolver.solve, CDCLSolver.unitPropagation, CDCLSolver.unitPropagationBody,
    whileTrue, Clause.isUnit, Clause.isTrue,
    isUnitLoop, mapFind, Clause.getUnitLiteral, CDCLSolver.assign, CDCLSolver.checkConflict,
    Clause.isFalse, isFalseLoop, litTrueUnder, mapSet, CDCLSolver.bumpVariableActivity,
    Literal.getValue, watchPush, setInsert]

theorem C7_contradictory_units_witness :
    (1 : Int) ≤ 5 ∧ ∃ s, (CNFSolver [[5], [-5]]).solve IterOrder.insertion (0 + 1) = some (s, false) :=
  ⟨by decide, C7_contradictory_units 5 (by decide) IterOrder.insertion 0⟩

/-! ## Soundness on a clause with a repeated literal (C1) -/

theorem duplicate_literal_eval (o : IterOrder) :
    isFalsifyingResult (CNFSolver [[-1, -1]]).clauses
      ((CNFSolver [[-1, -1]]).solve (o.pin [1] [1]) 3) = true := rfl

/-- C1 (soundness) fails: on the formula with the single clause `[-1, -1]`, under every
valid iteration order, `solve` returns `true` although the clause has no true literal
under the returned assignment (both of its literals are false). -/
theorem C1_repeated_literal_unsound (o : IterOrder) (ho : o.Valid) (fuel : Nat) :
    ∃ s, (CNFSolver [[-1, -1]]).solve o (fuel + 3) = some (s, true) ∧
      ∃ c ∈ (CNFSolver [[-1, -1]]).clauses,
        c.isFalse s.getAssignment = true ∧ c.isTrue s.getAssignment = false := by
  have h := duplicate_literal_eval o
  rw [IterOrder.pin_eq o [1] [1] (perm_one _ _ (ho.1 [1]))] at h
  obtain ⟨s, hs, hc⟩ := isFalsifyingResult_spec _ _ h
  exact ⟨s, solve_mono o 3 (fuel + 3) (by omega) _ _ hs, hc⟩

theorem C1_repeated_literal_unsound_witness :
    ∃ s, (CNFSolver [[-1, -1]]).solve IterOrder.insertion (0 + 3) = some (s, true) ∧
      ∃ c ∈ (CNFSolver [[-1, -1]]).clauses,
        c.isFalse s.getAssignment = true ∧ c.isTrue s.getAssignment = false :=
  C1_repeated_literal_unsound IterOrder.insertion IterOrder.insertion_valid 0

/-! ## Reset (C5) -/

theorem reset_residue_eval (o : IterOrder) :
    isResetResidue [(0, [1])] ((CNFSolver [[1]]).solve (o.pin [1] [1]) 2) = true := rfl

/-- C5 (reset) fails: after `CNFSolver([[1]])` and `solve()` (which returns `true`),
`reset()` leaves the per-level variable set `levelVars[0] = {1}` in place, so the state
is not that of a newly constructed solver. -/
theorem C5_reset_keeps_levelVars (o : IterOrder) (ho : o.Valid) (fuel : Nat) :
    ∃ s, (CNFSolver [[1]]).solve o (fuel + 2) = some (s, true) ∧
      s.reset.levelVars = [(0, [1])] ∧ s.reset ≠ CDCLSolver.new := by
  have h := reset_residue_eval o
  rw [IterOrder.pin_eq o [1] [1] (perm_one _ _ (ho.1 [1]))] at h
  obtain ⟨s, hs, hl⟩ := isResetResidue_spec _ _ h
  exact ⟨s, solve_mono o 2 (fuel + 2) (by omega) _ _ hs, hl⟩

theorem C5_reset_keeps_levelVars_witness :
    ∃ s, (CNFSolver [[1]]).solve IterOrder.insertion (0 + 2) = some (s, true) ∧
      s.reset.levelVars = [(0, [1])] ∧ s.reset ≠ CDCLSolver.new :=
  C5_reset_keeps_levelVars IterOrder.insertion IterOrder.insertion_valid 0

/-- The residue of `reset` is observable: on `badLearnFormula` a new solver returns
`true` with `1 = false`, while a solver that has solved `{[3,-2],[3,-1]}` and has been
reset returns `true` with `1 = true` (insertion-order iteration). -/
theorem reset_changes_later_solve :
    verdictAndValue IterOrder.insertion 15 badLearnFormula 1 CDCLSolver.new
        = some (true, some false) ∧
      (solveThenReset IterOrder.insertion 15 [[3, -2], [3, -1]]).bind
          (verdictAndValue IterOrder.insertion 15 badLearnFormula 1)
        = some (true, some true) := by
  decide

/-! ## Scenario S2 (C8) -/

theorem scenarioS2_eval (o : IterOrder) (p : List Int)
    (hp : p ∈ ([[1, 2, 3], [1, 3, 2], [2, 1, 3], [2, 3, 1], [3, 1, 2], [3, 2, 1]] : List (List Int))) :
    isModelResult [1, 2, 3] (CNFSolver scenarioS2).clauses
      ((CNFSolver scenarioS2).solve (o.pin [1, 2, 3] p) 4) = true := by
  simp only [List.mem_cons, List.mem_singleton, List.not_mem_nil, or_false] at hp
  rcases hp with rfl | rfl | rfl | rfl | rfl | rfl <;> rfl

theorem scenarioS2_run (o : IterOrder) (ho : o.Valid) :
    ∃ s, (CNFSolver scenarioS2).solve o 4 = some (s, true) ∧
      (∀ v ∈ ([1, 2, 3] : List Int), (mapFind s.getAssignment v).isSome) ∧
      ∀ c ∈ (CNFSolver scenarioS2).clauses, c.isTrue s.getAssignment = true := by
  have h := scenarioS2_eval o (o.mapKeys [1, 2, 3]) (perm_three _ (ho.1 [1, 2, 3]))
  rw [IterOrder.pin_eq o [1, 2, 3] _ rfl] at h
  exact isModelResult_spec _ _ _ h

/-- C8 (scenario S2): on `{[1,2],[-1,3],[-2,-3]}`, whatever order `decide` iterates the
activity map in, `solve` returns `true`, and the returned assignment assigns variables
1, 2 and 3 and makes each of the three clauses true. -/
theorem C8_scenario_S2 (o : IterOrder) (ho : o.Valid) (fuel : Nat) :
    ∃ s, (CNFSolver scenarioS2).solve o (fuel + 4) = some (s, true) ∧
      (∀ v ∈ ([1, 2, 3] : List Int), (mapFind s.getAssignment v).isSome) ∧
      ∀ c ∈ (CNFSolver scenarioS2).clauses, c.isTrue s.getAssignment = true := by
  obtain ⟨s, hs, hv, hc⟩ := scenarioS2_run o ho
  exact ⟨s, solve_mono o 4 (fuel + 4) (by omega) _ _ hs, hv, hc⟩

theorem C8_scenario_S2_witness :
    ∃ s, (CNFSolver scenarioS2).solve IterOrder.newestFirst (0 + 4) = some (s, true) ∧
      (∀ v ∈ ([1, 2, 3] : List Int), (mapFind s.getAssignment v).isSome) ∧
      ∀ c ∈ (CNFSolver scenarioS2).clauses, c.isTrue s.getAssignment = true :=
  C8_scenario_S2 IterOrder.newestFirst IterOrder.newestFirst_valid 0

/-! ## Total model (C4) -/

theorem mem_keys_mapSet {β : Type} (m : List (Int × β)) (k : Int) (v : β) (k2 : Int) :
    k2 ∈ (mapSet m k v).map Prod.fst ↔ k2 = k ∨ k2 ∈ m.map Prod.fst := by
  induction m with
  | nil => simp [mapSet]
  | cons p m ih =>
    obtain ⟨k1, v1⟩ := p
    by_cases h : k1 = k
    · subst h
      simp [mapSet]
    · simp only [mapSet, h, if_false, List.map_cons, List.mem_cons, ih]
      tauto

theorem mapFind_mapErase_some {β : Type} (m : List (Int × β)) (k k2 : Int) (x : β)
    (h : mapFind (mapErase m k) k2 = some x) : mapFind m k2 = some x := by
  induction m with
  | nil => simp [mapErase, mapFind] at h
  | cons p m ih =>
    obtain ⟨k1, v1⟩ := p
    by_cases h1 : k1 = k
    · subst h1
      have hE : mapErase ((k1, v1) :: m) k1 = mapErase m k1 := by simp [mapErase]
      rw [hE] at h
      have h2 := ih h
      by_cases h3 : k1 = k2
      · subst h3
        exfalso
        clear ih h2 hE
        induction m with
        | nil => simp [mapErase, mapFind] at h
        | cons q m ihm =>
          obtain ⟨k3, v3⟩ := q
          by_cases h4 : k3 = k1
          · subst h4
            have hE2 : mapErase ((k3, v3) :: m) k3 = mapErase m k3 := by simp [mapErase]
            rw [hE2] at h
            exact ihm h
          · have hE2 : mapErase ((k3, v3) :: m) k1 = (k3, v3) :: mapErase m k1 := by
              simp [mapErase, h4]
            rw [hE2] at h
            simp only [mapFind, h4, if_false] at h
            exact ihm h
      · simp only [mapFind, h3, if_false]
        exact h2
    · have hE : mapErase ((k1, v1) :: m) k = (k1, v1) :: mapErase m k := by
        simp [mapErase, h1]
      rw [hE] at h
      by_cases h3 : k1 = k2
      · simpa [mapFind, h3] using h
      · simp only [mapFind, h3, if_false] at h ⊢
        exact ih h

theorem mapFind_foldl_mapErase_some {β : Type} (vs : List Int) (m : List (Int × β)) (k2 : Int)
    (x : β) (h : mapFind (vs.foldl mapErase m) k2 = some x) : mapFind m k2 = some x := by
  induction vs generalizing m with
  | nil => exact h
  | cons v vs ih =>
    rw [List.foldl_cons] at h
    exact mapFind_mapErase_some m v k2 x (ih _ h)

theorem mapFind_mapSet {β : Type} (m : List (Int × β)) (k k2 : Int) (v : β) :
    mapFind (mapSet m k v) k2 = if k = k2 then some v else mapFind m k2 := by
  by_cases h : k = k2
  · subst h; simp
  · rw [mapFind_mapSet_ne _ _ _ _ h, if_neg h]

theorem mem_keys_foldl_mapSet (lits : List Literal) (m : List (Int × Nat)) (k : Int) :
    k ∈ (lits.foldl (fun m lit => mapSet m lit.var 0) m).map Prod.fst ↔
      k ∈ m.map Prod.fst ∨ ∃ l ∈ lits, l.var = k := by
  induction lits generalizing m with
  | nil => simp
  | cons l lits ih =>
    rw [List.foldl_cons, ih, mem_keys_mapSet]
    constructor
    · rintro ((h | h) | ⟨l2, hl2, h⟩)
      · exact Or.inr ⟨l, by simp, h.symm⟩
      · exact Or.inl h
      · exact Or.inr ⟨l2, by simp [hl2], h⟩
    · rintro (h | ⟨l2, hl2, h⟩)
      · exact Or.inl (Or.inr h)
      · rcases List.mem_cons.mp hl2 with rfl | hl2
        · exact Or.inl (Or.inl h.symm)
        · exact Or.inr ⟨l2, hl2, h⟩

theorem KeysInv.assign {keys0 : List Int} {s : CDCLSolver} (h : KeysInv keys0 s) (l : Literal)
    (lvl : Int) (r : Option Clause) (hl : l.var ≠ 0)
    (hr : ∀ R, r = some R → ∀ l ∈ R.literals, l.var ≠ 0) : KeysInv keys0 (s.assign l lvl r) := by
  refine ⟨?_, ?_, ?_, ?_⟩
  · intro k hk
    rw [assign_varActivity, mem_keys_mapSet] at hk
    rcases hk with rfl | hk
    · exact hl
    · exact h.keys_nonzero k hk
  · intro k hk
    rw [assign_varActivity, mem_keys_mapSet]
    exact Or.inr (h.keys_mono k hk)
  · intro c hc
    exact h.clause_vars c hc
  · intro v R hv
    rw [assign_reason, mapFind_mapSet] at hv
    by_cases hlv : l.var = v
    · rw [if_pos hlv] at hv
      exact hr R (Option.some.inj hv)
    · rw [if_neg hlv] at hv
      exact h.reason_vars v R hv

theorem isUnitLoop_of_find_none (a : List (Int × Bool)) (lits : List Literal) (n : Nat)
    (h : lits.find? (fun lit => (mapFind a lit.var).isNone) = none) :
    isUnitLoop a lits n = some n := by
  induction lits generalizing n with
  | nil => rfl
  | cons l lits ih =>
    rw [List.find?_cons] at h
    cases hl : mapFind a l.var with
    | none => simp [hl] at h
    | some b =>
      simp only [hl, Option.isNone_some] at h
      simp only [isUnitLoop, hl]
      exact ih n h

theorem getUnitLiteral_mem (c : Clause) (a : List (Int × Bool)) (h : c.isUnit a = true) :
    c.getUnitLiteral a ∈ c.literals := by
  unfold Clause.getUnitLiteral
  cases hf : c.literals.find? (fun lit => (mapFind a lit.var).isNone) with
  | none =>
    exfalso
    unfold Clause.isUnit at h
    rw [isUnitLoop_of_find_none a c.literals 0 hf] at h
    split at h
    · simp at h
    · simp at h
  | some l => exact List.mem_of_find?_eq_some hf

theorem KeysInv.unitPropagationBody {keys0 : List Int} {s : CDCLSolver} (h : KeysInv keys0 s) :
    match s.unitPropagationBody with
    | Step.done r => KeysInv keys0 r.1 ∧ ∀ cf, r.2 = some cf → cf ∈ r.1.clauses
    | Step.next s1 => KeysInv keys0 s1 := by
  unfold CDCLSolver.unitPropagationBody
  cases hf : s.clauses.find? (fun c => c.isUnit s.assignment) with
  | none => exact ⟨h, fun cf hcf => by simp at hcf⟩
  | some u =>
    have hu : u ∈ s.clauses := List.mem_of_find?_eq_some hf
    have huu : u.isUnit s.assignment = true := by
      have := List.find?_some hf
      simpa using this
    have hI : KeysInv keys0 (s.assign (u.getUnitLiteral s.assignment) s.decisionLevel (some u)) :=
      h.assign _ _ _ (h.clause_vars u hu _ (getUnitLiteral_mem u _ huu))
        (fun R hR => by
          have : u = R := Option.some.inj hR
          subst this
          exact h.clause_vars u hu)
    simp only
    cases hc : (s.assign (u.getUnitLiteral s.assignment) s.decisionLevel (some u)).checkConflict with
    | none => exact hI
    | some cf =>
      refine ⟨hI, ?_⟩
      intro cf2 hcf2
      have : cf = cf2 := Option.some.inj hcf2
      subst this
      exact List.mem_of_find?_eq_some hc

theorem KeysInv.unitPropagation {keys0 : List Int} (fuel : Nat) (s : CDCLSolver)
    (h : KeysInv keys0 s) (r : CDCLSolver × Option Clause)
    (hr : s.unitPropagation fuel = some r) :
    KeysInv keys0 r.1 ∧ ∀ cf, r.2 = some cf → cf ∈ r.1.clauses := by
  unfold CDCLSolver.unitPropagation at hr
  refine whileTrue_invariant _ (KeysInv keys0)
    (fun r => KeysInv keys0 r.1 ∧ ∀ cf, r.2 = some cf → cf ∈ r.1.clauses) ?_ ?_ fuel s r h hr
  · intro s1 r1 h1 hb
    have := h1.unitPropagationBody
    rw [Option.some.inj hb] at this
    exact this
  · intro s1 s2 h1 hb
    have := h1.unitPropagationBody
    rw [Option.some.inj hb] at this
    exact this

theorem mem_setInsert {α : Type} [DecidableEq α] (s : List α) (x y : α) :
    y ∈ setInsert s x ↔ y ∈ s ∨ y = x := by
  unfold setInsert
  by_cases h : x ∈ s
  · rw [if_pos h]
    constructor
    · exact Or.inl
    · rintro (h1 | rfl)
      · exact h1
      · exact h
  · rw [if_neg h]
    simp

theorem mem_foldl_setInsert (ys acc : List Literal) (l : Literal) :
    l ∈ ys.foldl setInsert acc ↔ l ∈ acc ∨ l ∈ ys := by
  induction ys generalizing acc with
  | nil => simp
  | cons y ys ih =>
    rw [List.foldl_cons, ih, mem_setInsert]
    simp only [List.mem_cons]
    tauto

theorem mem_litSetOf (ys : List Literal) (l : Literal) : l ∈ litSetOf ys ↔ l ∈ ys := by
  unfold litSetOf
  rw [mem_foldl_setInsert]
  simp

theorem KeysInv.touchReason {keys0 : List Int} {s : CDCLSolver} (h : KeysInv keys0 s) (v : Int) :
    KeysInv keys0 (s.touchReason v) := by
  unfold CDCLSolver.touchReason
  split
  · exact h
  · refine ⟨h.keys_nonzero, h.keys_mono, h.clause_vars, ?_⟩
    intro v2 R hv
    simp only [mapFind_mapSet] at hv
    by_cases hvv : v = v2
    · rw [if_pos hvv] at hv; simp at hv
    · rw [if_neg hvv] at hv
      exact h.reason_vars v2 R hv

theorem mem_resolveOn (o : IterOrder) (ho : o.Valid) (cur R : Clause) (v : Int) (l : Literal)
    (h : l ∈ (resolveOn o cur R v).literals) : l ∈ cur.literals ∨ l ∈ R.literals := by
  have hl1 : l ∈ litSetOf _ := (ho.2 _).mem_iff.mp h
  rw [mem_litSetOf, List.mem_append] at hl1
  rcases hl1 with h1 | h1
  · exact Or.inl (List.mem_of_mem_filter h1)
  · exact Or.inr (List.mem_of_mem_filter h1)

theorem getD_none_eq_some {α : Type} (x : Option (Option α)) (a : α)
    (h : x.getD none = some a) : x = some (some a) := by
  cases x with
  | none => simp at h
  | some y => simpa using h

theorem AnalyzeInv.step {keys0 : List Int} (o : IterOrder) (ho : o.Valid) (lv : List Int)
    (st : CDCLSolver × Clause) (h : AnalyzeInv keys0 st) :
    match analyzeBody o lv st with
    | Step.done r => AnalyzeInv keys0 r
    | Step.next st1 => AnalyzeInv keys0 st1 := by
  obtain ⟨hK, hcur⟩ := h
  unfold analyzeBody
  simp only
  by_cases h0 : lastLevelVar lv st.2 = 0
  · rw [if_pos h0]
    exact ⟨hK, hcur⟩
  · rw [if_neg h0]
    cases hr : (mapFind st.1.reason (lastLevelVar lv st.2)).getD none with
    | none => exact ⟨hK.touchReason _, hcur⟩
    | some R =>
      have hR := getD_none_eq_some _ _ hr
      have hnew : ∀ l ∈ (resolveOn o st.2 R (lastLevelVar lv st.2)).literals, l.var ≠ 0 := by
        intro l hl
        rcases mem_resolveOn o ho _ _ _ l hl with h1 | h1
        · exact hcur l h1
        · exact hK.reason_vars _ R hR l h1
      simp only
      by_cases hc : (st.1.touchReason (lastLevelVar lv st.2)).currentLvlCount
          (resolveOn o st.2 R (lastLevelVar lv st.2)) ≤ 1
      · rw [if_pos hc]
        exact ⟨hK.touchReason _, hnew⟩
      · rw [if_neg hc]
        exact ⟨hK.touchReason _, hnew⟩

theorem KeysInv.analyzeConflict {keys0 : List Int} (o : IterOrder) (ho : o.Valid) (fuel : Nat)
    (s : CDCLSolver) (cf : Clause) (h : KeysInv keys0 s) (hcf : ∀ l ∈ cf.literals, l.var ≠ 0)
    (r : CDCLSolver × Clause × Int) (hr : s.analyzeConflict o fuel cf = some r) :
    KeysInv keys0 r.1 ∧ ∀ l ∈ r.2.1.literals, l.var ≠ 0 := by
  unfold CDCLSolver.analyzeConflict at hr
  split at hr
  · have := Option.some.inj hr
    subst this
    exact ⟨h, hcf⟩
  · simp only [Option.map_eq_some'] at hr
    obtain ⟨x, hx, hxr⟩ := hr
    subst hxr
    have hT : KeysInv keys0 s.touchLevelVars := by
      unfold CDCLSolver.touchLevelVars
      split
      · exact h
      · exact ⟨h.keys_nonzero, h.keys_mono, h.clause_vars, h.reason_vars⟩
    unfold analyzeLoop at hx
    refine whileTrue_invariant _ (AnalyzeInv keys0) (AnalyzeInv keys0) ?_ ?_ fuel _ x ⟨hT, hcf⟩ hx
    · intro st r1 h1 hb
      have := h1.step o ho s.currentLevelVars
      rw [Option.some.inj hb] at this
      exact this
    · intro st st1 h1 hb
      have := h1.step o ho s.currentLevelVars
      rw [Option.some.inj hb] at this
      exact this

theorem KeysInv.learn {keys0 : List Int} {s : CDCLSolver} (h : KeysInv keys0 s)
    (lits : List Literal) (hl : ∀ l ∈ lits, l.var ≠ 0) :
    KeysInv keys0 ((s.addClause lits).markLastLearned) := by
  refine ⟨?_, ?_, ?_, ?_⟩
  · intro k hk
    rw [learn_varActivity, mem_keys_foldl_mapSet] at hk
    rcases hk with hk | ⟨l, hl1, rfl⟩
    · exact h.keys_nonzero k hk
    · exact hl l hl1
  · intro k hk
    rw [learn_varActivity, mem_keys_foldl_mapSet]
    exact Or.inl (h.keys_mono k hk)
  · intro c hc
    rw [learn_clauses, List.mem_append] at hc
    rcases hc with hc | hc
    · exact h.clause_vars c hc
    · have : c = ⟨lits, true, 0⟩ := by simpa using hc
      subst this
      exact hl
  · intro v R hv
    exact h.reason_vars v R hv

theorem KeysInv.backtrack {keys0 : List Int} {s : CDCLSolver} (h : KeysInv keys0 s)
    (level : Int) : KeysInv keys0 (s.backtrack level) := by
  by_cases hlv : level < 0
  · have : s.backtrack level = s := by simp [CDCLSolver.backtrack, hlv]
    rw [this]
    exact h
  · rw [backtrack_of_nonneg s level (by omega)]
    refine ⟨h.keys_nonzero, h.keys_mono, h.clause_vars, ?_⟩
    intro v R hv
    exact h.reason_vars v R (mapFind_foldl_mapErase_some _ _ _ _ hv)

theorem KeysInv.assertLearned {keys0 : List Int} {s : CDCLSolver} (h : KeysInv keys0 s)
    (c : Clause) (hc : ∀ l ∈ c.literals, l.var ≠ 0) (level : Int) :
    KeysInv keys0 (s.assertLearned c level) := by
  unfold CDCLSolver.assertLearned
  split
  · simp only
    split
    · next hv =>
      refine h.assign _ _ _ hv ?_
      intro R hR
      have : c = R := Option.some.inj hR
      subst this
      exact hc
    · exact h
  · exact h

theorem KeysInv.learnAndBacktrack {keys0 : List Int} {s : CDCLSolver} (h : KeysInv keys0 s)
    (c : Clause) (hc : ∀ l ∈ c.literals, l.var ≠ 0) (level : Int) :
    KeysInv keys0 (s.learnAndBacktrack c level) := by
  unfold CDCLSolver.learnAndBacktrack
  exact ((h.learn c.literals hc).backtrack level).assertLearned c hc level

theorem KeysInv.handleConflict {keys0 : List Int} (o : IterOrder) (ho : o.Valid) (fuel : Nat)
    (s : CDCLSolver) (cf : Clause) (h : KeysInv keys0 s) (hcf : cf ∈ s.clauses)
    (s1 : CDCLSolver) (hr : s.handleConflict o fuel cf = some s1) : KeysInv keys0 s1 := by
  unfold CDCLSolver.handleConflict at hr
  simp only [Option.map_eq_some'] at hr
  obtain ⟨x, hx, hxr⟩ := hr
  subst hxr
  obtain ⟨h1, h2⟩ := h.analyzeConflict o ho fuel s cf (h.clause_vars cf hcf) x hx
  exact h1.learnAndBacktrack _ h2 _

theorem KeysInv.propagateBody {keys0 : List Int} (o : IterOrder) (ho : o.Valid) (fuel : Nat)
    (s : CDCLSolver) (h : KeysInv keys0 s) :
    (∀ r, CDCLSolver.propagateBody o fuel s = some (Step.done r) → Propagatepost keys0 r) ∧
      ∀ s1, CDCLSolver.propagateBody o fuel s = some (Step.next s1) → KeysInv keys0 s1 := by
  unfold CDCLSolver.propagateBody
  cases hu : s.unitPropagation fuel with
  | none => simp
  | some p =>
    obtain ⟨hK, hcf⟩ := h.unitPropagation fuel s p hu
    simp only [Option.some_bind]
    unfold CDCLSolver.afterPropagation
    cases hp2 : p.2 with
    | none =>
      simp only
      refine ⟨?_, by simp⟩
      intro r hr
      have : (p.1, none) = r := by simpa using hr
      subst this
      exact ⟨hK, by simp⟩
    | some cf =>
      simp only
      by_cases h0 : p.1.decisionLevel = 0
      · rw [if_pos h0]
        refine ⟨?_, by simp⟩
        intro r hr
        have : (p.1, some false) = r := by simpa using hr
        subst this
        exact ⟨hK, by simp⟩
      · rw [if_neg h0]
        refine ⟨by simp, ?_⟩
        intro s1 hs1
        simp only [Option.map_eq_some', Step.next.injEq] at hs1
        obtain ⟨s2, hs2, rfl⟩ := hs1
        exact hK.handleConflict o ho fuel p.1 cf (hcf cf hp2) s2 hs2

theorem KeysInv.propagateLoop {keys0 : List Int} (o : IterOrder) (ho : o.Valid) (fuel : Nat)
    (s : CDCLSolver) (h : KeysInv keys0 s) (r : CDCLSolver × Option Bool)
    (hr : CDCLSolver.propagateLoop o fuel s = some r) : Propagatepost keys0 r := by
  unfold CDCLSolver.propagateLoop at hr
  exact whileTrue_invariant _ (KeysInv keys0) (Propagatepost keys0)
    (fun s1 r1 h1 hb => (h1.propagateBody o ho fuel s1).1 r1 hb)
    (fun s1 s2 h1 hb => (h1.propagateBody o ho fuel s1).2 s2 hb) fuel s r h hr

theorem foldl_best_mem (f : Int → Nat) (rest : List Int) (v0 : Int) :
    rest.foldl (fun bestVar v => if f bestVar < f v then v else bestVar) v0 ∈ v0 :: rest := by
  induction rest generalizing v0 with
  | nil => simp
  | cons v rest ih =>
    rw [List.foldl_cons]
    have := ih (if f v0 < f v then v else v0)
    rcases List.mem_cons.mp this with h | h
    · rw [h]
      split <;> simp
    · exact List.mem_cons_of_mem _ (List.mem_cons_of_mem _ h)

/-- When `decide` returns the sentinel on a state whose activity map has no key 0,
every key of the activity map is assigned. -/
theorem decide_sentinel_all_assigned (o : IterOrder) (ho : o.Valid) (s : CDCLSolver)
    (h0 : ∀ k ∈ s.varActivity.map Prod.fst, k ≠ 0) (hd : (s.decide o).var = 0) :
    ∀ k ∈ s.varActivity.map Prod.fst, (mapFind s.assignment k).isSome = true := by
  unfold CDCLSolver.decide at hd
  simp only at hd
  cases hu : (o.mapKeys (s.varActivity.map Prod.fst)).filter
      (fun v => (mapFind s.assignment v).isNone) with
  | nil =>
    intro k hk
    have hk1 : k ∈ o.mapKeys (s.varActivity.map Prod.fst) := (ho.1 _).mem_iff.mpr hk
    by_contra hcon
    have : k ∈ (o.mapKeys (s.varActivity.map Prod.fst)).filter
        (fun v => (mapFind s.assignment v).isNone) := by
      rw [List.mem_filter]
      refine ⟨hk1, ?_⟩
      cases hm : mapFind s.assignment k with
      | none => rfl
      | some b => rw [hm] at hcon; simp at hcon
    rw [hu] at this
    simp at this
  | cons v0 rest =>
    exfalso
    rw [hu] at hd
    simp only at hd
    have hmem := foldl_best_mem s.activityOf rest v0
    rw [hd, ← hu, List.mem_filter] at hmem
    exact h0 0 ((ho.1 _).mem_iff.mp hmem.1) rfl

theorem KeysInv.assignDecision {keys0 : List Int} {s : CDCLSolver} (h : KeysInv keys0 s)
    (l : Literal) (hl : l.var ≠ 0) : KeysInv keys0 (s.assignDecision l) := by
  unfold CDCLSolver.assignDecision
  have h1 : KeysInv keys0 ({ s with decisionLevel := s.decisionLevel + 1 } : CDCLSolver) :=
    ⟨h.keys_nonzero, h.keys_mono, h.clause_vars, h.reason_vars⟩
  exact h1.assign l _ none hl (fun R hR => by simp at hR)

theorem KeysInv.solveBody {keys0 : List Int} (o : IterOrder) (ho : o.Valid) (fuel : Nat)
    (s : CDCLSolver) (h : KeysInv keys0 s) :
    (∀ r, CDCLSolver.solveBody o fuel s = some (Step.done r) → Solvepost keys0 r) ∧
      ∀ s1, CDCLSolver.solveBody o fuel s = some (Step.next s1) → KeysInv keys0 s1 := by
  unfold CDCLSolver.solveBody
  by_cases hd : (s.decide o).var = 0
  · rw [if_pos hd]
    refine ⟨?_, by simp⟩
    intro r hr
    have : (s, true) = r := by simpa using hr
    subst this
    intro _ k hk
    exact decide_sentinel_all_assigned o ho s h.keys_nonzero hd k (h.keys_mono k hk)
  · rw [if_neg hd]
    cases hp : CDCLSolver.propagateLoop o fuel (s.assignDecision (s.decide o)) with
    | none => simp
    | some p =>
      obtain ⟨hK, hne⟩ := (h.assignDecision _ hd).propagateLoop o ho fuel _ p hp
      simp only [Option.map_some', Option.some.injEq]
      unfold afterPropagateLoop
      cases hp2 : p.2 with
      | none =>
        simp only
        refine ⟨by simp, ?_⟩
        intro s1 hs1
        have : p.1 = s1 := by simpa using hs1
        subst this
        exact hK
      | some b =>
        simp only
        refine ⟨?_, by simp⟩
        intro r hr
        have : (p.1, b) = r := by simpa using hr
        subst this
        intro hb
        simp only at hb
        subst hb
        exact absurd hp2 hne

theorem KeysInv.solve {keys0 : List Int} (o : IterOrder) (ho : o.Valid) (fuel : Nat)
    (s : CDCLSolver) (h : KeysInv keys0 s) (r : CDCLSolver × Bool)
    (hr : s.solve o fuel = some r) : Solvepost keys0 r := by
  unfold CDCLSolver.solve at hr
  simp only [Option.bind_eq_some] at hr
  obtain ⟨p, hp, hpr⟩ := hr
  have h0 : KeysInv keys0 ({ s with decisionLevel := 0 } : CDCLSolver) :=
    ⟨h.keys_nonzero, h.keys_mono, h.clause_vars, h.reason_vars⟩
  obtain ⟨hK, _⟩ := h0.unitPropagation fuel _ p hp
  cases hp2 : p.2 with
  | some cf =>
    rw [hp2] at hpr
    have : (p.1, false) = r := by simpa using hpr
    subst this
    intro hb
    simp at hb
  | none =>
    rw [hp2] at hpr
    simp only at hpr
    unfold CDCLSolver.solveLoop at hpr
    exact whileTrue_invariant _ (KeysInv keys0) (Solvepost keys0)
      (fun s1 r1 h1 hb => (h1.solveBody o ho fuel s1).1 r1 hb)
      (fun s1 s2 h1 hb => (h1.solveBody o ho fuel s1).2 s2 hb) fuel p.1 r hK hpr

theorem rawLiterals_var_ne_zero (clause : List Int) : ∀ l ∈ rawLiterals clause, l.var ≠ 0 := by
  intro l hl
  simp only [rawLiterals, List.mem_map, List.mem_filter] at hl
  obtain ⟨n, ⟨_, hn⟩, rfl⟩ := hl
  have hn0 : n ≠ 0 := by simpa using hn
  exact wrapInt32_ne_zero _ (abs_ne_zero.mpr hn0)

theorem BuildInv.addClause {s : CDCLSolver} (h : BuildInv s) (lits : List Literal)
    (hl : ∀ l ∈ lits, l.var ≠ 0) : BuildInv (s.addClause lits) := by
  have hva : (s.addClause lits).varActivity =
      lits.foldl (fun m lit => mapSet m lit.var 0) s.varActivity := rfl
  refine ⟨?_, ?_, h.reason_nil⟩
  · intro k hk
    rw [hva, mem_keys_foldl_mapSet] at hk
    rcases hk with hk | ⟨l, hl1, rfl⟩
    · exact h.keys_nonzero k hk
    · exact hl l hl1
  · intro c hc l hlc
    rw [addClause_clauses, List.mem_append] at hc
    rw [hva, mem_keys_foldl_mapSet]
    rcases hc with hc | hc
    · exact ⟨(h.clause_vars c hc l hlc).1, Or.inl (h.clause_vars c hc l hlc).2⟩
    · have : c = ⟨lits, false, 0⟩ := by simpa using hc
      subst this
      exact ⟨hl l hlc, Or.inr ⟨l, hlc, rfl⟩⟩

theorem BuildInv.fold (raw : List (List Int)) (s : CDCLSolver) (h : BuildInv s) :
    BuildInv (raw.foldl (fun solver clause =>
        let literals := rawLiterals clause
        if literals ≠ [] then solver.addClause literals else solver) s) := by
  induction raw generalizing s with
  | nil => exact h
  | cons c rest ih =>
    rw [List.foldl_cons]
    apply ih
    simp only
    split
    · exact h.addClause _ (rawLiterals_var_ne_zero c)
    · exact h

theorem BuildInv.CNFSolver (raw : List (List Int)) : BuildInv (CNFSolver raw) :=
  BuildInv.fold raw CDCLSolver.new ⟨by simp [CDCLSolver.new], by simp [CDCLSolver.new], rfl⟩

theorem BuildInv.keysInv {s : CDCLSolver} (h : BuildInv s) :
    KeysInv (s.varActivity.map Prod.fst) s :=
  ⟨h.keys_nonzero, fun _ hk => hk, fun c hc l hl => (h.clause_vars c hc l hl).1,
    fun v R hv => by rw [h.reason_nil] at hv; simp [mapFind] at hv⟩

/-- C4 (total model): for every list of raw clauses and every valid iteration order, if
`solve` on `CNFSolver raw` returns `true`, then `getAssignment` gives a truth value to
every variable that occurs in a clause of the formula. -/
theorem C4_total_model (o : IterOrder) (ho : o.Valid) (raw : List (List Int)) (fuel : Nat)
    (s : CDCLSolver) (h : (CNFSolver raw).solve o fuel = some (s, true)) :
    ∀ c ∈ (CNFSolver raw).clauses, ∀ l ∈ c.literals, (mapFind s.getAssignment l.var).isSome = true := by
  intro c hc l hl
  have hB := BuildInv.CNFSolver raw
  exact hB.keysInv.solve o ho fuel _ (s, true) h rfl l.var (hB.clause_vars c hc l hl).2

theorem C4_total_model_witness :
    ∃ s, (CNFSolver scenarioS2).solve IterOrder.insertion 4 = some (s, true) ∧
      ∀ c ∈ (CNFSolver scenarioS2).clauses, ∀ l ∈ c.literals,
        (mapFind s.getAssignment l.var).isSome = true := by
  obtain ⟨s, hs, _, _⟩ := scenarioS2_run IterOrder.insertion IterOrder.insertion_valid
  exact ⟨s, hs, C4_total_model IterOrder.insertion IterOrder.insertion_valid scenarioS2 4 s hs⟩

/-! ## Scenario S6 under newest-first iteration (C9) -/

theorem mem_mapSet {β : Type} (m : List (Int × β)) (k : Int) (v : β) (p : Int × β)
    (h : p ∈ mapSet m k v) : p = (k, v) ∨ p ∈ m := by
  induction m with
  | nil => simpa [mapSet] using h
  | cons q m ih =>
    obtain ⟨k1, v1⟩ := q
    by_cases h1 : k1 = k
    · simp only [mapSet, h1, if_true, List.mem_cons] at h
      rcases h with h | h
      · exact Or.inl h
      · exact Or.inr (List.mem_cons_of_mem _ h)
    · simp only [mapSet, h1, if_false, List.mem_cons] at h
      rcases h with h | h
      · exact Or.inr (by rw [h]; exact List.mem_cons_self _ _)
      · rcases ih h with h2 | h2
        · exact Or.inl h2
        · exact Or.inr (List.mem_cons_of_mem _ h2)

theorem mapFind_none_of_keys {β : Type} (m : List (Int × β)) (k : Int)
    (h : ∀ p ∈ m, p.1 ≠ k) : mapFind m k = none := by
  induction m with
  | nil => rfl
  | cons q m ih =>
    obtain ⟨k1, v1⟩ := q
    have h1 : k1 ≠ k := h (k1, v1) (List.mem_cons_self _ _)
    simp only [mapFind, h1, if_false]
    exact ih (fun p hp => h p (List.mem_cons_of_mem _ hp))

theorem find?_of_first {α : Type} (p : α → Bool) (l : List α) (x y : α)
    (hall : ∀ c ∈ l, c = x ∨ c = y) (hy : y ∈ l) (hx : p x = false) (hpy : p y = true) :
    l.find? p = some y := by
  induction l with
  | nil => simp at hy
  | cons c l ih =>
    rw [List.find?_cons]
    rcases hall c (List.mem_cons_self _ _) with rfl | rfl
    · rw [hx]
      simp only
      apply ih (fun c hc => hall c (List.mem_cons_of_mem _ hc))
      rcases List.mem_cons.mp hy with h | h
      · exfalso
        rw [h, hx] at hpy
        exact Bool.false_ne_true hpy
      · exact h
    · rw [hpy]

theorem find?_append_of_none_some {α : Type} (p : α → Bool) (l1 l2 : List α) (x : α)
    (h1 : l1.find? p = none) (h2 : l2.find? p = some x) : (l1 ++ l2).find? p = some x := by
  rw [List.find?_append, h1, h2]; rfl

theorem XorInv.fresh_none {s : CDCLSolver} (h : XorInv s) :
    mapFind s.levelVars (s.decisionLevel + 1) = none :=
  mapFind_none_of_keys _ _ (fun p hp => by have := h.fresh p hp; omega)

theorem xorCycleX (s : CDCLSolver) (hI : XorInvX s) :
    (s.decide IterOrder.newestFirst).var ≠ 0 ∧
      ∃ s1, CDCLSolver.propagateLoop IterOrder.newestFirst 3
          (s.assignDecision (s.decide IterOrder.newestFirst)) = some (s1, none) ∧
        XorInvY s1 := by
  obtain ⟨hInv, a, hact⟩ := hI
  have hlv1 := hInv.fresh_none
  obtain ⟨⟨L, hcl, hL, hYL⟩, hasg, hrs, hlvl, hfresh⟩ := hInv
  have hdec : s.decide IterOrder.newestFirst = ⟨3, false⟩ := by
    simp [CDCLSolver.decide, hact, hasg, IterOrder.newestFirst, mapFind, CDCLSolver.activityOf]
  rw [hdec]
  refine ⟨by decide, ?_⟩
  have hne : s.decisionLevel + 1 ≠ 0 := by omega
  -- the state after the decision `3 = true`
  obtain ⟨s2, hs2⟩ : ∃ s2, s2 = s.assignDecision ⟨3, false⟩ := ⟨_, rfl⟩
  have c2 : s2.clauses = xorBase ++ L := by rw [hs2, assignDecision_clauses, hcl]
  have a2 : s2.assignment = [(3, true)] := by rw [hs2, assignDecision_assignment, hasg]; rfl
  have d2 : s2.decisionLevel = s.decisionLevel + 1 := by rw [hs2]; rfl
  have r2 : s2.reason = [(3, none)] := by rw [hs2, assignDecision_reason, hrs]; rfl
  have l2 : s2.levelVars = mapSet s.levelVars (s.decisionLevel + 1) [3] := by
    rw [hs2, assignDecision_levelVars, hlv1]; rfl
  have t2 : s2.trail = s.trail ++ [⟨⟨3, false⟩, s.decisionLevel + 1, none⟩] := by rw [hs2]; rfl
  have v2 : s2.varActivity = [(1, 0), (2, 0), (3, a + 1)] := by
    rw [hs2, assignDecision_varActivity, hact]; rfl
  rw [← hs2]
  -- first propagation: `[-2, -3]` is unit and sets `2 = false`
  have u2 : (⟨[⟨2, true⟩, ⟨3, true⟩], false, 0⟩ : Clause).getUnitLiteral s2.assignment
      = ⟨2, true⟩ := by rw [a2]; decide
  obtain ⟨s3, hs3⟩ : ∃ s3, s3 = s2.assign ⟨2, true⟩ s2.decisionLevel
      (some ⟨[⟨2, true⟩, ⟨3, true⟩], false, 0⟩) := ⟨_, rfl⟩
  have c3 : s3.clauses = xorBase ++ L := by rw [hs3, assign_clauses, c2]
  have a3 : s3.assignment = [(3, true), (2, false)] := by rw [hs3, assign_assignment, a2]; rfl
  have d3 : s3.decisionLevel = s.decisionLevel + 1 := by rw [hs3, assign_decisionLevel, d2]
  have r3 : s3.reason = [(3, none), (2, some ⟨[⟨2, true⟩, ⟨3, true⟩], false, 0⟩)] := by
    rw [hs3, assign_reason, r2]; rfl
  have l3 : s3.levelVars = mapSet (mapSet s.levelVars (s.decisionLevel + 1) [3])
      (s.decisionLevel + 1) [3, 2] := by
    rw [hs3, assign_levelVars, l2, d2, mapFind_mapSet_self]; rfl
  have t3 : s3.trail = s.trail ++ [⟨⟨3, false⟩, s.decisionLevel + 1, none⟩,
      ⟨⟨2, true⟩, s.decisionLevel + 1, some ⟨[⟨2, true⟩, ⟨3, true⟩], false, 0⟩⟩] := by
    rw [hs3, assign_trail, t2, d2]; simp
  have v3 : s3.varActivity = [(1, 0), (2, 1), (3, a + 1)] := by
    rw [hs3, assign_varActivity, v2]; rfl
  have hU2 : s2.unitPropagationBody = Step.next s3 := by
    have h1 : s2.clauses.find? (fun c => c.isUnit s2.assignment) =
        some ⟨[⟨2, true⟩, ⟨3, true⟩], false, 0⟩ := by
      rw [c2, a2]
      exact find?_append_of_some _ _ _ _ (by decide)
    have h := unitPropagationBody_next s2 _ h1 (by
      rw [u2, ← hs3]
      unfold CDCLSolver.checkConflict
      rw [c3, a3]
      apply find?_append_of_none _ _ _ (by decide)
      intro c hc
      rcases hL c hc with rfl | rfl <;> decide)
    rw [u2, ← hs3] at h
    exact h
  -- second propagation: `[1, 2]` is unit, sets `1 = true` and falsifies `[-3, -1]`
  have u3 : (⟨[⟨1, false⟩, ⟨2, false⟩], false, 0⟩ : Clause).getUnitLiteral s3.assignment
      = ⟨1, false⟩ := by rw [a3]; decide
  obtain ⟨s4, hs4⟩ : ∃ s4, s4 = s3.assign ⟨1, false⟩ s3.decisionLevel
      (some ⟨[⟨1, false⟩, ⟨2, false⟩], false, 0⟩) := ⟨_, rfl⟩
  have c4 : s4.clauses = xorBase ++ L := by rw [hs4, assign_clauses, c3]
  have a4 : s4.assignment = [(3, true), (2, false), (1, true)] := by
    rw [hs4, assign_assignment, a3]; rfl
  have d4 : s4.decisionLevel = s.decisionLevel + 1 := by rw [hs4, assign_decisionLevel, d3]
  have r4 : s4.reason = [(3, none), (2, some ⟨[⟨2, true⟩, ⟨3, true⟩], false, 0⟩),
      (1, some ⟨[⟨1, false⟩, ⟨2, false⟩], false, 0⟩)] := by
    rw [hs4, assign_reason, r3]; rfl
  have l4 : s4.levelVars = mapSet (mapSet (mapSet s.levelVars (s.decisionLevel + 1) [3])
      (s.decisionLevel + 1) [3, 2]) (s.decisionLevel + 1) [3, 2, 1] := by
    rw [hs4, assign_levelVars, l3, d3, mapFind_mapSet_self]; rfl
  have t4 : s4.trail = s.trail ++ [⟨⟨3, false⟩, s.decisionLevel + 1, none⟩,
      ⟨⟨2, true⟩, s.decisionLevel + 1, some ⟨[⟨2, true⟩, ⟨3, true⟩], false, 0⟩⟩,
      ⟨⟨1, false⟩, s.decisionLevel + 1, some ⟨[⟨1, false⟩, ⟨2, false⟩], false, 0⟩⟩] := by
    rw [hs4, assign_trail, t3, d3]; simp
  have v4 : s4.varActivity = [(1, 1), (2, 1), (3, a + 1)] := by
    rw [hs4, assign_varActivity, v3]; rfl
  have hU3 : s3.unitPropagationBody =
      Step.done (s4, some ⟨[⟨3, true⟩, ⟨1, true⟩], false, 0⟩) := by
    have h1 : s3.clauses.find? (fun c => c.isUnit s3.assignment) =
        some ⟨[⟨1, false⟩, ⟨2, false⟩], false, 0⟩ := by
      rw [c3, a3]
      exact find?_append_of_some _ _ _ _ (by decide)
    have h := unitPropagationBody_conflict s3 _ ⟨[⟨3, true⟩, ⟨1, true⟩], false, 0⟩ h1 (by
      rw [u3, ← hs4]
      unfold CDCLSolver.checkConflict
      rw [c4, a4]
      exact find?_append_of_some _ _ _ _ (by decide))
    rw [u3, ← hs4] at h
    exact h
  have hUP : s2.unitPropagation 3 = some (s4, some ⟨[⟨3, true⟩, ⟨1, true⟩], false, 0⟩) := by
    unfold CDCLSolver.unitPropagation
    rw [whileTrue_next _ _ _ _ (by rw [hU2])]
    exact whileTrue_done _ _ _ _ (by rw [hU3])
  -- conflict analysis stops at the decision variable 3
  have g3 : s4.getDecisionLevel 3 = s.decisionLevel + 1 :=
    getDecisionLevel_append s4 _ _ 3 ⟨⟨3, false⟩, s.decisionLevel + 1, none⟩ t4 (by simp)
  have g1 : s4.getDecisionLevel 1 = s.decisionLevel + 1 :=
    getDecisionLevel_append s4 _ _ 1
      ⟨⟨1, false⟩, s.decisionLevel + 1, some ⟨[⟨1, false⟩, ⟨2, false⟩], false, 0⟩⟩ t4 (by simp)
  have hA : s4.analyzeConflict IterOrder.newestFirst 3 ⟨[⟨3, true⟩, ⟨1, true⟩], false, 0⟩ =
      some (s4, ⟨[⟨3, true⟩, ⟨1, true⟩], false, 0⟩, s.decisionLevel + 1) := by
    have hclv : s4.currentLevelVars = [3, 2, 1] := by
      simp [CDCLSolver.currentLevelVars, l4, d4]
    have htl : s4.touchLevelVars = s4 := by
      simp [CDCLSolver.touchLevelVars, l4, d4]
    have hbody : analyzeBody IterOrder.newestFirst [3, 2, 1]
        (s4, ⟨[⟨3, true⟩, ⟨1, true⟩], false, 0⟩) =
        Step.done (s4, ⟨[⟨3, true⟩, ⟨1, true⟩], false, 0⟩) := by
      simp [analyzeBody, lastLevelVar, CDCLSolver.touchReason, r4, mapFind]
    have hbl : s4.backtrackLevelOf ⟨[⟨3, true⟩, ⟨1, true⟩], false, 0⟩ = s.decisionLevel + 1 := by
      have hpos : s.decisionLevel + 1 > 0 := by omega
      have hmax : max 0 (s.decisionLevel + 1) = s.decisionLevel + 1 := max_eq_right (by omega)
      simp [CDCLSolver.backtrackLevelOf, g1, g3, hpos, hmax]
    unfold CDCLSolver.analyzeConflict
    rw [d4, if_neg hne, hclv, htl]
    unfold analyzeLoop
    rw [whileTrue_done _ _ _ _ (by rw [hbody])]
    simp [hbl]
  -- learn `[-3, -1]` and undo the level
  obtain ⟨s5, hs5⟩ : ∃ s5, s5 = s4.learnAndBacktrack ⟨[⟨3, true⟩, ⟨1, true⟩], false, 0⟩
      (s.decisionLevel + 1) := ⟨_, rfl⟩
  have hs5' := hs5
  rw [learnAndBacktrack_of_nonneg _ _ _ (by omega), backtrack_of_nonneg _ _ (by omega)] at hs5'
  have hrem : ((s4.addClause [⟨3, true⟩, ⟨1, true⟩]).markLastLearned).varsToRemove
      (s.decisionLevel + 1) = [3, 2, 1] := by
    simp [CDCLSolver.varsToRemove, learn_decisionLevel, learn_levelVars, d4, levelRange_self, l4]
  have c5 : s5.clauses = xorBase ++ (L ++ [xorLearnedX]) := by
    rw [hs5']; simp [c4, xorLearnedX]
  have a5 : s5.assignment = [] := by
    rw [hs5']; simp only [hrem, learn_assignment, a4]; rfl
  have r5 : s5.reason = [] := by
    rw [hs5']; simp only [hrem, learn_reason, r4]; rfl
  have v5 : s5.varActivity = [(1, 0), (2, 1), (3, 0)] := by
    rw [hs5']; simp only [learn_varActivity, v4]; rfl
  have d5 : s5.decisionLevel = s.decisionLevel + 1 := by rw [hs5']
  have l5 : s5.levelVars = mapSet (mapSet (mapSet s.levelVars (s.decisionLevel + 1) [3])
      (s.decisionLevel + 1) [3, 2]) (s.decisionLevel + 1) [3, 2, 1] := by
    rw [hs5']; simp only [learn_levelVars, l4]
  have hI5 : XorInvY s5 := by
    refine ⟨⟨⟨L ++ [xorLearnedX], c5, ?_, List.mem_append_left _ hYL⟩, a5, r5, by omega, ?_⟩, v5⟩
    · intro c hc
      rcases List.mem_append.mp hc with h | h
      · exact hL c h
      · left; simpa using h
    · intro p hp
      rw [d5]
      rw [l5] at hp
      rcases mem_mapSet _ _ _ _ hp with h | h
      · rw [h]
      · rcases mem_mapSet _ _ _ _ h with h | h
        · rw [h]
        · rcases mem_mapSet _ _ _ _ h with h | h
          · rw [h]
          · have := hfresh p h; omega
  have hU5 : s5.unitPropagationBody = Step.done (s5, none) := by
    apply unitPropagationBody_none
    rw [c5, a5]
    apply find?_append_of_none _ _ _ (by decide)
    intro c hc
    rcases List.mem_append.mp hc with h | h
    · rcases hL c h with rfl | rfl <;> decide
    · have : c = xorLearnedX := by simpa using h
      rw [this]; decide
  refine ⟨s5, ?_, hI5⟩
  have hb1 : CDCLSolver.propagateBody IterOrder.newestFirst 3 s2 = some (Step.next s5) := by
    unfold CDCLSolver.propagateBody
    rw [hUP]
    simp [CDCLSolver.afterPropagation, d4, hne, CDCLSolver.handleConflict, hA, hs5]
  have hb2 : CDCLSolver.propagateBody IterOrder.newestFirst 3 s5 =
      some (Step.done (s5, none)) := by
    unfold CDCLSolver.propagateBody CDCLSolver.unitPropagation
    rw [whileTrue_done _ _ _ _ (by rw [hU5])]
    rfl
  unfold CDCLSolver.propagateLoop
  rw [whileTrue_next _ _ _ _ hb1, whileTrue_done _ _ _ _ hb2]

theorem xorCycleY (s : CDCLSolver) (hI : XorInvY s) :
    (s.decide IterOrder.newestFirst).var ≠ 0 ∧
      ∃ s1, CDCLSolver.propagateLoop IterOrder.newestFirst 3
          (s.assignDecision (s.decide IterOrder.newestFirst)) = some (s1, none) ∧
        XorInvX s1 := by
  obtain ⟨hInv, hact⟩ := hI
  have hlv1 := hInv.fresh_none
  obtain ⟨⟨L, hcl, hL, hYL⟩, hasg, hrs, hlvl, hfresh⟩ := hInv
  have hdec : s.decide IterOrder.newestFirst = ⟨2, false⟩ := by
    simp [CDCLSolver.decide, hact, hasg, IterOrder.newestFirst, mapFind, CDCLSolver.activityOf]
  rw [hdec]
  refine ⟨by decide, ?_⟩
  have hne : s.decisionLevel + 1 ≠ 0 := by omega
  -- the state after the decision `2 = true`
  obtain ⟨s2, hs2⟩ : ∃ s2, s2 = s.assignDecision ⟨2, false⟩ := ⟨_, rfl⟩
  have c2 : s2.clauses = xorBase ++ L := by rw [hs2, assignDecision_clauses, hcl]
  have a2 : s2.assignment = [(2, true)] := by rw [hs2, assignDecision_assignment, hasg]; rfl
  have d2 : s2.decisionLevel = s.decisionLevel + 1 := by rw [hs2]; rfl
  have r2 : s2.reason = [(2, none)] := by rw [hs2, assignDecision_reason, hrs]; rfl
  have l2 : s2.levelVars = mapSet s.levelVars (s.decisionLevel + 1) [2] := by
    rw [hs2, assignDecision_levelVars, hlv1]; rfl
  have t2 : s2.trail = s.trail ++ [⟨⟨2, false⟩, s.decisionLevel + 1, none⟩] := by rw [hs2]; rfl
  have v2 : s2.varActivity = [(1, 0), (2, 2), (3, 0)] := by
    rw [hs2, assignDecision_varActivity, hact]; rfl
  rw [← hs2]
  -- propagation: `[-1, -2]` is unit, sets `1 = false` and falsifies the learned `[-2, 1]`
  have u2 : (⟨[⟨1, true⟩, ⟨2, true⟩], false, 0⟩ : Clause).getUnitLiteral s2.assignment
      = ⟨1, true⟩ := by rw [a2]; decide
  obtain ⟨s3, hs3⟩ : ∃ s3, s3 = s2.assign ⟨1, true⟩ s2.decisionLevel
      (some ⟨[⟨1, true⟩, ⟨2, true⟩], false, 0⟩) := ⟨_, rfl⟩
  have c3 : s3.clauses = xorBase ++ L := by rw [hs3, assign_clauses, c2]
  have a3 : s3.assignment = [(2, true), (1, false)] := by rw [hs3, assign_assignment, a2]; rfl
  have d3 : s3.decisionLevel = s.decisionLevel + 1 := by rw [hs3, assign_decisionLevel, d2]
  have r3 : s3.reason = [(2, none), (1, some ⟨[⟨1, true⟩, ⟨2, true⟩], false, 0⟩)] := by
    rw [hs3, assign_reason, r2]; rfl
  have l3 : s3.levelVars = mapSet (mapSet s.levelVars (s.decisionLevel + 1) [2])
      (s.decisionLevel + 1) [2, 1] := by
    rw [hs3, assign_levelVars, l2, d2, mapFind_mapSet_self]; rfl
  have t3 : s3.trail = s.trail ++ [⟨⟨2, false⟩, s.decisionLevel + 1, none⟩,
      ⟨⟨1, true⟩, s.decisionLevel + 1, some ⟨[⟨1, true⟩, ⟨2, true⟩], false, 0⟩⟩] := by
    rw [hs3, assign_trail, t2, d2]; simp
  have v3 : s3.varActivity = [(1, 1), (2, 2), (3, 0)] := by
    rw [hs3, assign_varActivity, v2]; rfl
  have hU2 : s2.unitPropagationBody = Step.done (s3, some xorLearnedY) := by
    have h1 : s2.clauses.find? (fun c => c.isUnit s2.assignment) =
        some ⟨[⟨1, true⟩, ⟨2, true⟩], false, 0⟩ := by
      rw [c2, a2]
      exact find?_append_of_some _ _ _ _ (by decide)
    have h := unitPropagationBody_conflict s2 _ xorLearnedY h1 (by
      rw [u2, ← hs3]
      unfold CDCLSolver.checkConflict
      rw [c3, a3]
      apply find?_append_of_none_some _ _ _ _ (by decide)
      exact find?_of_first _ L xorLearnedX xorLearnedY hL hYL (by decide) (by decide))
    rw [u2, ← hs3] at h
    exact h
  have hUP : s2.unitPropagation 3 = some (s3, some xorLearnedY) := by
    unfold CDCLSolver.unitPropagation
    exact whileTrue_done _ _ _ _ (by rw [hU2])
  -- conflict analysis stops at the decision variable 2
  have g2 : s3.getDecisionLevel 2 = s.decisionLevel + 1 :=
    getDecisionLevel_append s3 _ _ 2 ⟨⟨2, false⟩, s.decisionLevel + 1, none⟩ t3 (by simp)
  have g1 : s3.getDecisionLevel 1 = s.decisionLevel + 1 :=
    getDecisionLevel_append s3 _ _ 1
      ⟨⟨1, true⟩, s.decisionLevel + 1, some ⟨[⟨1, true⟩, ⟨2, true⟩], false, 0⟩⟩ t3 (by simp)
  have hA : s3.analyzeConflict IterOrder.newestFirst 3 xorLearnedY =
      some (s3, xorLearnedY, s.decisionLevel + 1) := by
    have hclv : s3.currentLevelVars = [2, 1] := by
      simp [CDCLSolver.currentLevelVars, l3, d3]
    have htl : s3.touchLevelVars = s3 := by
      simp [CDCLSolver.touchLevelVars, l3, d3]
    have hbody : analyzeBody IterOrder.newestFirst [2, 1] (s3, xorLearnedY) =
        Step.done (s3, xorLearnedY) := by
      simp [analyzeBody, lastLevelVar, CDCLSolver.touchReason, r3, mapFind, xorLearnedY]
    have hbl : s3.backtrackLevelOf xorLearnedY = s.decisionLevel + 1 := by
      have hpos : s.decisionLevel + 1 > 0 := by omega
      have hmax : max 0 (s.decisionLevel + 1) = s.decisionLevel + 1 := max_eq_right (by omega)
      simp [CDCLSolver.backtrackLevelOf, xorLearnedY, g1, g2, hpos, hmax]
    unfold CDCLSolver.analyzeConflict
    rw [d3, if_neg hne, hclv, htl]
    unfold analyzeLoop
    rw [whileTrue_done _ _ _ _ (by rw [hbody])]
    simp [hbl]
  -- learn `[-2, 1]` again and undo the level
  obtain ⟨s5, hs5⟩ : ∃ s5, s5 = s3.learnAndBacktrack xorLearnedY (s.decisionLevel + 1) :=
    ⟨_, rfl⟩
  have hs5' := hs5
  rw [learnAndBacktrack_of_nonneg _ _ _ (by omega), backtrack_of_nonneg _ _ (by omega)] at hs5'
  have hrem : ((s3.addClause xorLearnedY.literals).markLastLearned).varsToRemove
      (s.decisionLevel + 1) = [2, 1] := by
    simp [CDCLSolver.varsToRemove, learn_decisionLevel, learn_levelVars, d3, levelRange_self, l3]
  have c5 : s5.clauses = xorBase ++ (L ++ [xorLearnedY]) := by
    rw [hs5']; simp [c3, xorLearnedY]
  have a5 : s5.assignment = [] := by
    rw [hs5']; simp only [hrem, learn_assignment, a3]; rfl
  have r5 : s5.reason = [] := by
    rw [hs5']; simp only [hrem, learn_reason, r3]; rfl
  have v5 : s5.varActivity = [(1, 0), (2, 0), (3, 0)] := by
    rw [hs5']; simp only [learn_varActivity, v3]; rfl
  have d5 : s5.decisionLevel = s.decisionLevel + 1 := by rw [hs5']
  have l5 : s5.levelVars = mapSet (mapSet s.levelVars (s.decisionLevel + 1) [2])
      (s.decisionLevel + 1) [2, 1] := by
    rw [hs5']; simp only [learn_levelVars, l3]
  have hI5 : XorInvX s5 := by
    refine ⟨⟨⟨L ++ [xorLearnedY], c5, ?_, List.mem_append_left _ hYL⟩, a5, r5, by omega, ?_⟩,
      0, v5⟩
    · intro c hc
      rcases List.mem_append.mp hc with h | h
      · exact hL c h
      · right; simpa using h
    · intro p hp
      rw [d5]
      rw [l5] at hp
      rcases mem_mapSet _ _ _ _ hp with h | h
      · rw [h]
      · rcases mem_mapSet _ _ _ _ h with h | h
        · rw [h]
        · have := hfresh p h; omega
  have hU5 : s5.unitPropagationBody = Step.done (s5, none) := by
    apply unitPropagationBody_none
    rw [c5, a5]
    apply find?_append_of_none _ _ _ (by decide)
    intro c hc
    rcases List.mem_append.mp hc with h | h
    · rcases hL c h with rfl | rfl <;> decide
    · have : c = xorLearnedY := by simpa using h
      rw [this]; decide
  refine ⟨s5, ?_, hI5⟩
  have hb1 : CDCLSolver.propagateBody IterOrder.newestFirst 3 s2 = some (Step.next s5) := by
    unfold CDCLSolver.propagateBody
    rw [hUP]
    simp [CDCLSolver.afterPropagation, d3, hne, CDCLSolver.handleConflict, hA, hs5]
  have hb2 : CDCLSolver.propagateBody IterOrder.newestFirst 3 s5 =
      some (Step.done (s5, none)) := by
    unfold CDCLSolver.propagateBody CDCLSolver.unitPropagation
    rw [whileTrue_done _ _ _ _ (by rw [hU5])]
    rfl
  unfold CDCLSolver.propagateLoop
  rw [whileTrue_next _ _ _ _ hb1, whileTrue_done _ _ _ _ hb2]

/-- One pass of the outer loop when the inner loop is known to break into a state
satisfying `I`. -/
theorem solveBody_of_pass (o : IterOrder) (fuel : Nat) (s : CDCLSolver) (I : CDCLSolver → Prop)
    (hc : (s.decide o).var ≠ 0 ∧
      ∃ n s1, CDCLSolver.propagateLoop o n (s.assignDecision (s.decide o)) = some (s1, none) ∧
        I s1) :
    CDCLSolver.solveBody o fuel s = none ∨
      ∃ s1, CDCLSolver.solveBody o fuel s = some (Step.next s1) ∧ I s1 := by
  obtain ⟨hv, n, s1, hp, hI⟩ := hc
  unfold CDCLSolver.solveBody
  rw [if_neg hv]
  cases h : CDCLSolver.propagateLoop o fuel (s.assignDecision (s.decide o)) with
  | none => left; rfl
  | some r =>
    right
    have hr : r = (s1, none) := propagateLoop_det o _ _ _ _ _ h hp
    subst hr
    exact ⟨s1, rfl, hI⟩

theorem xorStart_pass1 :
    (xorStart.decide IterOrder.newestFirst).var ≠ 0 ∧
      CDCLSolver.propagateLoop IterOrder.newestFirst 4
        (xorStart.assignDecision (xorStart.decide IterOrder.newestFirst)) =
          some (xorStart.nextHead IterOrder.newestFirst 4, none) := by
  decide

theorem xorStart_pass2 :
    ((xorStart.nextHead IterOrder.newestFirst 4).decide IterOrder.newestFirst).var ≠ 0 ∧
      CDCLSolver.propagateLoop IterOrder.newestFirst 4
        ((xorStart.nextHead IterOrder.newestFirst 4).assignDecision
          ((xorStart.nextHead IterOrder.newestFirst 4).decide IterOrder.newestFirst)) =
          some ((xorStart.nextHead IterOrder.newestFirst 4).nextHead IterOrder.newestFirst 4,
            none) := by
  decide

theorem xorStart_steady :
    XorInvX ((xorStart.nextHead IterOrder.newestFirst 4).nextHead IterOrder.newestFirst 4) := by
  refine ⟨⟨⟨[xorLearnedX, xorLearnedY], by decide, ?_, by simp⟩, by decide, by decide, by decide,
    by decide⟩, 1, by decide⟩
  intro c hc
  simpa using hc

/-- C9 (scenario S6) fails when the hash containers are traversed newest element first:
on `{[1,2],[-1,-2],[2,3],[-2,-3],[3,1],[-3,-1]}` `solve` never returns (it runs out of
fuel for every fuel): from the third conflict on it alternates between deciding 3 and
learning `[-3,-1]`, and deciding 2 and learning `[-2,1]`. -/
theorem C9_scenario_S6_diverges (fuel : Nat) :
    (CNFSolver scenarioS6).solve IterOrder.newestFirst fuel = none := by
  unfold CDCLSolver.solve
  cases fuel with
  | zero => rfl
  | succ n =>
    have hU : xorStart.unitPropagation (n + 1) = some (xorStart, none) := by
      unfold CDCLSolver.unitPropagation
      exact whileTrue_done _ _ _ _ (by rw [unitPropagationBody_none _ (by decide)])
    show (xorStart.unitPropagation (n + 1)).bind _ = none
    rw [hU]
    show CDCLSolver.solveLoop IterOrder.newestFirst (n + 1) _ = none
    unfold CDCLSolver.solveLoop
    refine whileTrue_diverges _ XorReach ?_ _ _ (Or.inl rfl)
    intro s hs
    rcases hs with rfl | rfl | hX | hY
    · exact solveBody_of_pass _ _ _ _
        ⟨xorStart_pass1.1, 4, _, xorStart_pass1.2, Or.inr (Or.inl rfl)⟩
    · exact solveBody_of_pass _ _ _ _
        ⟨xorStart_pass2.1, 4, _, xorStart_pass2.2, Or.inr (Or.inr (Or.inl xorStart_steady))⟩
    · obtain ⟨hv, s1, hp, hI⟩ := xorCycleX s hX
      exact solveBody_of_pass _ _ _ _ ⟨hv, 3, s1, hp, Or.inr (Or.inr (Or.inr hI))⟩
    · obtain ⟨hv, s1, hp, hI⟩ := xorCycleY s hY
      exact solveBody_of_pass _ _ _ _ ⟨hv, 3, s1, hp, Or.inr (Or.inr (Or.inl hI))⟩

/-- Under insertion-order iteration the same input is answered `false`. -/
theorem scenarioS6_insertion_unsat :
    ((CNFSolver scenarioS6).solve IterOrder.insertion 12).map Prod.snd = some false := by
  decide

/-! ## Answers `false` on satisfiable formulas (C2) and learned clauses that are not
entailed (C10) -/

/-- C2 (UNSAT-soundness) fails: `solve` returns `false` on `unsatAnswerFormula` under
insertion-order iteration and on `unsatAnswerFormulaNewest` under newest-first
iteration, although each formula has the displayed total satisfying assignment. -/
theorem C2_false_on_satisfiable :
    (((CNFSolver unsatAnswerFormula).solve IterOrder.insertion 14).map Prod.snd = some false ∧
      isModelOf (ofSigned [1, -2, -3, -4, 5, 6, 7, -8, 9])
        (CNFSolver unsatAnswerFormula).clauses = true) ∧
    (((CNFSolver unsatAnswerFormulaNewest).solve IterOrder.newestFirst 12).map Prod.snd
        = some false ∧
      isModelOf (ofSigned [-1, -2, -3, -4, 5, 6, -7, -8, -9])
        (CNFSolver unsatAnswerFormulaNewest).clauses = true) := by
  decide

/-- C10 (resolution validity) fails: under insertion-order iteration `solve` on
`badLearnFormula` adds the clause `[-5]` to the store, and under newest-first iteration
`solve` on `unsatAnswerFormulaNewest` adds `[-5, 3]`; in both cases the displayed total
assignment satisfies every original clause and falsifies the learned clause. -/
theorem C10_learned_clause_not_entailed :
    (learnsClause (CNFSolver badLearnFormula).clauses ⟨[⟨5, true⟩], true, 0⟩
        ((CNFSolver badLearnFormula).solve IterOrder.insertion 15) = true ∧
      isModelOf (ofSigned [-1, -2, -3, -4, 5, 6, 7, -8, 9])
        (CNFSolver badLearnFormula).clauses = true ∧
      (⟨[⟨5, true⟩], true, 0⟩ : Clause).isFalse (ofSigned [-1, -2, -3, -4, 5, 6, 7, -8, 9])
        = true) ∧
    (learnsClause (CNFSolver unsatAnswerFormulaNewest).clauses ⟨[⟨5, true⟩, ⟨3, false⟩], true, 0⟩
        ((CNFSolver unsatAnswerFormulaNewest).solve IterOrder.newestFirst 12) = true ∧
      isModelOf (ofSigned [-1, -2, -3, -4, 5, 6, -7, -8, -9])
        (CNFSolver unsatAnswerFormulaNewest).clauses = true ∧
      (⟨[⟨5, true⟩, ⟨3, false⟩], true, 0⟩ : Clause).isFalse
        (ofSigned [-1, -2, -3, -4, 5, 6, -7, -8, -9]) = true) := by
  decide

/-! ## The step relation of `solve` and the functional model -/

theorem reach_unitPropagation (o : IterOrder) (s0 : CDCLSolver) (fuel : Nat) :
    ∀ (s : CDCLSolver) (r : CDCLSolver × Option Clause),
      SolveReach o s0 SolvePoint.propagating s → s.unitPropagation fuel = some r →
      match r.2 with
      | none => SolveReach o s0 SolvePoint.deciding r.1
      | some conflict => SolveReach o s0 (SolvePoint.conflicting conflict) r.1 := by
  intro s r h hr
  unfold CDCLSolver.unitPropagation at hr
  refine whileTrue_invariant _ (SolveReach o s0 SolvePoint.propagating)
    (fun r => match r.2 with
      | none => SolveReach o s0 SolvePoint.deciding r.1
      | some conflict => SolveReach o s0 (SolvePoint.conflicting conflict) r.1) ?_ ?_ fuel s r h hr
  · intro s1 r1 h1 hb
    have hb1 : s1.unitPropagationBody = Step.done r1 := Option.some.inj hb
    obtain ⟨s2, c⟩ := r1
    cases c with
    | none => exact SolveReach.fixpoint s1 s2 h1 hb1
    | some cf => exact SolveReach.unitConflict s1 s2 cf h1 hb1
  · intro s1 s2 h1 hb
    exact SolveReach.unitNext s1 s2 h1 (Option.some.inj hb)

theorem reach_firstDecision (o : IterOrder) (fuel : Nat) (s0 s : CDCLSolver)
    (h : s0.firstDecision o fuel = some s) : SolveReach o s0 SolvePoint.propagating s := by
  unfold CDCLSolver.firstDecision at h
  simp only [Option.bind_eq_some] at h
  obtain ⟨⟨s1, c⟩, hp, hpx⟩ := h
  have hu := reach_unitPropagation o s0 fuel _ (s1, c) SolveReach.start hp
  cases c with
  | some cf => simp at hpx
  | none =>
    simp only at hpx hu
    by_cases hd : (s1.decide o).var = 0
    · rw [if_pos hd] at hpx
      simp at hpx
    · rw [if_neg hd] at hpx
      simp only [Option.some.injEq] at hpx
      subst hpx
      exact SolveReach.decision s1 hu hd

theorem reach_firstConflict (o : IterOrder) (fuel : Nat) (s0 s : CDCLSolver)
    (conflict : Clause) (h : s0.firstConflict o fuel = some (s, conflict)) :
    SolveReach o s0 (SolvePoint.conflicting conflict) s := by
  unfold CDCLSolver.firstConflict at h
  simp only [Option.bind_eq_some, Option.map_eq_some'] at h
  obtain ⟨s1, h1, ⟨s2, c2⟩, hp2, cf, hc2, hcf⟩ := h
  simp only at hc2
  subst hc2
  simp only [Prod.mk.injEq] at hcf
  obtain ⟨rfl, rfl⟩ := hcf
  exact reach_unitPropagation o s0 fuel _ (s2, some cf)
    (reach_firstDecision o fuel s0 s1 h1) hp2

theorem reach_firstAnalysis (o : IterOrder) (fuel : Nat) (s0 s : CDCLSolver)
    (learnedClause : Clause) (backtrackLevel : Int)
    (h : s0.firstAnalysis o fuel = some (s, learnedClause, backtrackLevel)) :
    SolveReach o s0 (SolvePoint.analysed learnedClause backtrackLevel) s := by
  unfold CDCLSolver.firstAnalysis at h
  simp only [Option.bind_eq_some] at h
  obtain ⟨⟨s1, cf⟩, hp, hpx⟩ := h
  by_cases h0 : s1.decisionLevel = 0
  · simp [h0] at hpx
  · simp only [h0, if_false] at hpx
    exact SolveReach.analysis fuel s1 s cf learnedClause backtrackLevel
      (reach_firstConflict o fuel s0 s1 cf hp) h0 hpx

/-- A check that holds of an optional value holds of a value that is present. -/
theorem option_any_spec {α : Type} (r : Option α) (p : α → Bool) (h : r.any p = true) :
    ∃ x, r = some x ∧ p x = true := by
  cases r with
  | none => simp [Option.any] at h
  | some x => exact ⟨x, rfl, by simpa [Option.any] using h⟩

/-- On `loopFormula` the first conflict analysis of `solve` is, under every valid
iteration order, the one made under insertion order or the one made under newest-first
order. -/
theorem loopFormula_firstAnalysis (o : IterOrder) (ho : o.Valid) :
    (CNFSolver loopFormula).firstAnalysis o 2 =
        (CNFSolver loopFormula).firstAnalysis IterOrder.insertion 2 ∨
      (CNFSolver loopFormula).firstAnalysis o 2 =
        (CNFSolver loopFormula).firstAnalysis IterOrder.newestFirst 2 := by
  have hA : (CNFSolver loopFormula).firstAnalysis (o.pin [1, 2] [1, 2]) 2 =
      (CNFSolver loopFormula).firstAnalysis IterOrder.insertion 2 := rfl
  have hB : (CNFSolver loopFormula).firstAnalysis (o.pin [1, 2] [2, 1]) 2 =
      (CNFSolver loopFormula).firstAnalysis IterOrder.newestFirst 2 := rfl
  rcases perm_two _ (ho.1 [1, 2]) with h | h
  · rw [IterOrder.pin_eq o [1, 2] _ h] at hA
    exact Or.inl hA
  · rw [IterOrder.pin_eq o [1, 2] _ h] at hB
    exact Or.inr hB

/-! ## Erasing from association lists -/

theorem mapFind_mapErase {β : Type} (m : List (Int × β)) (k k2 : Int) :
    mapFind (mapErase m k) k2 = if k = k2 then none else mapFind m k2 := by
  induction m with
  | nil => simp [mapErase, mapFind]
  | cons p m ih =>
    obtain ⟨k1, v1⟩ := p
    by_cases h1 : k1 = k
    · subst h1
      have hE : mapErase ((k1, v1) :: m) k1 = mapErase m k1 := by simp [mapErase]
      rw [hE, ih]
      by_cases h2 : k1 = k2
      · simp [h2]
      · simp [h2, mapFind]
    · have hE : mapErase ((k1, v1) :: m) k = (k1, v1) :: mapErase m k := by
        simp [mapErase, h1]
      rw [hE]
      by_cases h2 : k1 = k2
      · subst h2
        have h3 : ¬ k = k1 := fun h => h1 h.symm
        simp [mapFind, h3]
      · simp only [mapFind, h2, if_false]
        exact ih

theorem mapFind_foldl_mapErase {β : Type} (vs : List Int) (m : List (Int × β)) (k2 : Int) :
    mapFind (vs.foldl mapErase m) k2 = if k2 ∈ vs then none else mapFind m k2 := by
  induction vs generalizing m with
  | nil => simp
  | cons v vs ih =>
    rw [List.foldl_cons, ih, mapFind_mapErase]
    by_cases h1 : k2 ∈ vs
    · simp [h1]
    · by_cases h2 : v = k2
      · simp [h2]
      · have h3 : ¬ k2 = v := fun h => h2 h.symm
        simp [h1, h2, h3]

theorem mem_levelRange (level decisionLevel l : Int) :
    l ∈ levelRange level decisionLevel ↔ level ≤ l ∧ l ≤ decisionLevel := by
  unfold levelRange
  simp only [List.mem_map, List.bind_eq_flatMap, List.mem_flatMap, List.pure_def,
    List.mem_singleton, List.mem_range]
  constructor
  · rintro ⟨a, ⟨i, hi, rfl⟩, rfl⟩
    have h2 : (0 : Int) ≤ (i : Int) := Int.ofNat_nonneg i
    have h3 : decisionLevel + 1 - level > 0 := by
      by_contra hcon
      have : (decisionLevel + 1 - level).toNat = 0 := Int.toNat_eq_zero.mpr (by omega)
      rw [this] at hi
      exact Nat.not_lt_zero _ hi
    have h1 : (i : Int) < ((decisionLevel + 1 - level).toNat : Int) := by exact_mod_cast hi
    rw [Int.toNat_of_nonneg (le_of_lt h3)] at h1
    constructor <;> omega
  · rintro ⟨h1, h2⟩
    have h3 : ((l - level).toNat : Int) = l - level := Int.toNat_of_nonneg (by omega)
    refine ⟨l - level, ⟨(l - level).toNat, ?_, h3.symm⟩, by omega⟩
    have h4 : ((decisionLevel + 1 - level).toNat : Int) = decisionLevel + 1 - level :=
      Int.toNat_of_nonneg (by omega)
    have : ((l - level).toNat : Int) < ((decisionLevel + 1 - level).toNat : Int) := by
      rw [h3, h4]; omega
    exact_mod_cast this

/-- The variables erased by `backtrack(level)` are those of the sets `levelVars[dl]` for
`level ≤ dl ≤ decisionLevel`. -/
theorem mem_varsToRemove (s : CDCLSolver) (level v : Int) :
    v ∈ s.varsToRemove level ↔
      ∃ dl, level ≤ dl ∧ dl ≤ s.decisionLevel ∧ v ∈ (mapFind s.levelVars dl).getD [] := by
  unfold CDCLSolver.varsToRemove
  simp only [List.mem_flatMap, mem_levelRange]
  constructor
  · rintro ⟨dl, ⟨h1, h2⟩, h3⟩
    exact ⟨dl, h1, h2, h3⟩
  · rintro ⟨dl, h1, h2, h3⟩
    exact ⟨dl, ⟨h1, h2⟩, h3⟩

/-- Every variable of a set `levelVars[dl]` with `level ≤ dl ≤ decisionLevel` is erased
by `backtrack(level)`. -/
theorem backtrack_erases_level_range (s : CDCLSolver) (level dl v : Int) (h0 : 0 ≤ level)
    (h1 : level ≤ dl) (h2 : dl ≤ s.decisionLevel)
    (hv : v ∈ (mapFind s.levelVars dl).getD []) :
    mapFind (s.backtrack level).assignment v = none ∧
      mapFind (s.backtrack level).reason v = none := by
  have hmem : v ∈ s.varsToRemove level :=
    (mem_varsToRemove s level v).mpr ⟨dl, h1, h2, hv⟩
  rw [backtrack_of_nonneg s level h0]
  simp only [mapFind_foldl_mapErase, hmem, if_true, and_self]

/-- Every variable of `levelVars[level]` is erased by `backtrack(level)`: the level
itself is undone, not only the levels above it. -/
theorem backtrack_erases_level (s : CDCLSolver) (level v : Int) (h0 : 0 ≤ level)
    (hL : level ≤ s.decisionLevel) (hv : v ∈ (mapFind s.levelVars level).getD []) :
    mapFind (s.backtrack level).assignment v = none ∧
      mapFind (s.backtrack level).reason v = none :=
  backtrack_erases_level_range s level level v h0 le_rfl hL hv

/-! ## The decision rule (C19) -/

/-- The selection loop of `decide` returns the first element of maximal value. -/
theorem foldl_best_first (f : Int → Nat) (rest : List Int) :
    ∀ (best : Int) (pre mid : List Int), (∀ u ∈ pre, f u < f best) → (∀ u ∈ mid, f u ≤ f best) →
      ∃ pre2 post2,
        pre ++ best :: mid ++ rest =
          pre2 ++ rest.foldl (fun bestVar v => if f bestVar < f v then v else bestVar) best ::
            post2 ∧
        (∀ u ∈ pre2,
          f u < f (rest.foldl (fun bestVar v => if f bestVar < f v then v else bestVar) best)) ∧
        (∀ u ∈ post2,
          f u ≤ f (rest.foldl (fun bestVar v => if f bestVar < f v then v else bestVar) best)) := by
  induction rest with
  | nil =>
    intro best pre mid hpre hmid
    exact ⟨pre, mid, by simp, hpre, hmid⟩
  | cons v rest ih =>
    intro best pre mid hpre hmid
    rw [List.foldl_cons]
    by_cases hlt : f best < f v
    · rw [if_pos hlt]
      obtain ⟨pre2, post2, heq, h1, h2⟩ := ih v (pre ++ best :: mid) [] (by
        intro u hu
        rcases List.mem_append.mp hu with hu | hu
        · exact lt_trans (hpre u hu) hlt
        · rcases List.mem_cons.mp hu with hu | hu
          · rw [hu]; exact hlt
          · exact lt_of_le_of_lt (hmid u hu) hlt) (by simp)
      refine ⟨pre2, post2, ?_, h1, h2⟩
      rw [← heq]
      simp
    · rw [if_neg hlt]
      obtain ⟨pre2, post2, heq, h1, h2⟩ := ih best pre (mid ++ [v]) hpre (by
        intro u hu
        rcases List.mem_append.mp hu with hu | hu
        · exact hmid u hu
        · rw [List.mem_singleton.mp hu]; exact Nat.le_of_not_lt hlt)
      refine ⟨pre2, post2, ?_, h1, h2⟩
      rw [← heq]
      simp

/-- C19 (decision rule): in every solver state and under every valid iteration order,
the vector `unassigned` built by `decide` holds exactly the unassigned keys of the
activity map; if it is empty `decide` returns the sentinel literal on variable 0;
otherwise `decide` returns a non-negated literal on an element of that vector whose
activity is maximal, namely the first such in iteration order (every earlier element has
a strictly smaller activity, every later one an activity that is not larger). -/
theorem C19_decide_rule (o : IterOrder) (ho : o.Valid) (s : CDCLSolver) :
    (∀ v, v ∈ s.unassignedVars o ↔
      (v ∈ s.varActivity.map Prod.fst ∧ mapFind s.assignment v = none)) ∧
    (s.unassignedVars o = [] → s.decide o = ⟨0, false⟩) ∧
    (s.unassignedVars o ≠ [] →
      (s.decide o).negated = false ∧
      ∃ pre post, s.unassignedVars o = pre ++ (s.decide o).var :: post ∧
        (∀ u ∈ pre, s.activityOf u < s.activityOf (s.decide o).var) ∧
        (∀ u ∈ post, s.activityOf u ≤ s.activityOf (s.decide o).var)) := by
  refine ⟨?_, ?_, ?_⟩
  · intro v
    unfold CDCLSolver.unassignedVars
    rw [List.mem_filter, (ho.1 _).mem_iff]
    cases mapFind s.assignment v <;> simp
  · intro hnil
    unfold CDCLSolver.unassignedVars at hnil
    unfold CDCLSolver.decide
    simp only [hnil]
  · intro hne
    unfold CDCLSolver.unassignedVars at hne ⊢
    unfold CDCLSolver.decide
    cases hu : (o.mapKeys (s.varActivity.map Prod.fst)).filter
        (fun v => (mapFind s.assignment v).isNone) with
    | nil => exact absurd hu hne
    | cons v0 rest =>
      simp only
      refine ⟨trivial, ?_⟩
      obtain ⟨pre2, post2, heq, h1, h2⟩ :=
        foldl_best_first s.activityOf rest v0 [] [] (by simp) (by simp)
      exact ⟨pre2, post2, by simpa using heq, h1, h2⟩

theorem C19_decide_rule_witness :
    (∀ v, v ∈ (CNFSolver scenarioS2).unassignedVars IterOrder.insertion ↔
      (v ∈ (CNFSolver scenarioS2).varActivity.map Prod.fst ∧
        mapFind (CNFSolver scenarioS2).assignment v = none)) ∧
    ((CNFSolver scenarioS2).unassignedVars IterOrder.insertion = [] →
      (CNFSolver scenarioS2).decide IterOrder.insertion = ⟨0, false⟩) ∧
    ((CNFSolver scenarioS2).unassignedVars IterOrder.insertion ≠ [] →
      ((CNFSolver scenarioS2).decide IterOrder.insertion).negated = false ∧
      ∃ pre post, (CNFSolver scenarioS2).unassignedVars IterOrder.insertion =
          pre ++ ((CNFSolver scenarioS2).decide IterOrder.insertion).var :: post ∧
        (∀ u ∈ pre, (CNFSolver scenarioS2).activityOf u <
          (CNFSolver scenarioS2).activityOf ((CNFSolver scenarioS2).decide IterOrder.insertion).var) ∧
        (∀ u ∈ post, (CNFSolver scenarioS2).activityOf u ≤
          (CNFSolver scenarioS2).activityOf
            ((CNFSolver scenarioS2).decide IterOrder.insertion).var)) :=
  C19_decide_rule IterOrder.insertion IterOrder.insertion_valid (CNFSolver scenarioS2)

/-! ## Conflict handling on `loopFormula` (C11, C12, C13, C14, C15, C18) -/

/-- The backtrack level returned by `analyzeConflict` is never negative when the
decision level is not 0. -/
theorem backtrackLevelOf_nonneg (s : CDCLSolver) (c : Clause) : 0 ≤ s.backtrackLevelOf c := by
  unfold CDCLSolver.backtrackLevelOf
  have : ∀ (lits : List Literal) (b : Int), 0 ≤ b →
      0 ≤ lits.foldl (fun backtrackLevel lit =>
        if s.getDecisionLevel lit.var > 0 then max backtrackLevel (s.getDecisionLevel lit.var)
        else backtrackLevel) b := by
    intro lits
    induction lits with
    | nil => intro b hb; exact hb
    | cons l lits ih =>
      intro b hb
      rw [List.foldl_cons]
      apply ih
      split
      · exact le_max_of_le_left hb
      · exact hb
  exact this _ 0 le_rfl

theorem analyzeConflict_level_nonneg (o : IterOrder) (fuel : Nat) (s s1 : CDCLSolver)
    (conflict learnedClause : Clause) (backtrackLevel : Int) (h0 : s.decisionLevel ≠ 0)
    (h : s.analyzeConflict o fuel conflict = some (s1, learnedClause, backtrackLevel)) :
    0 ≤ backtrackLevel := by
  unfold CDCLSolver.analyzeConflict at h
  simp only [h0, if_false, Option.map_eq_some'] at h
  obtain ⟨r, _, hr⟩ := h
  simp only [Prod.mk.injEq] at hr
  obtain ⟨_, rfl, rfl⟩ := hr
  exact backtrackLevelOf_nonneg _ _

/-- At the point after `backtrack(backtrackLevel)` the decision level is the backtrack
level, which is not negative, and no trail entry lies above it. -/
theorem reach_backtracked_level (o : IterOrder) (s0 s : CDCLSolver) (learnedClause : Clause)
    (backtrackLevel : Int)
    (h : SolveReach o s0 (SolvePoint.backtracked learnedClause backtrackLevel) s) :
    0 ≤ backtrackLevel ∧ s.decisionLevel = backtrackLevel ∧
      ∀ e ∈ s.trail, e.level ≤ backtrackLevel := by
  cases h with
  | backjump s1 _ _ h1 =>
    cases h1 with
    | learn s2 _ _ h2 =>
      cases h2 with
      | analysis fuel s3 _ cf _ _ h3 hd ha =>
        have hβ := analyzeConflict_level_nonneg o fuel s3 s2 cf learnedClause backtrackLevel hd ha
        refine ⟨hβ, ?_, ?_⟩
        · unfold CDCLSolver.backtrack
          rw [if_neg (not_lt.mpr hβ)]
        · intro e he
          unfold CDCLSolver.backtrack at he
          rw [if_neg (not_lt.mpr hβ)] at he
          simp only [List.mem_filter, decide_eq_true_eq, not_lt] at he
          exact he.2

/-- The guarded assertion that follows `backtrack` in `solve` never changes the state. -/
theorem reach_assertLearned_eq (o : IterOrder) (s0 s : CDCLSolver) (learnedClause : Clause)
    (backtrackLevel : Int)
    (h : SolveReach o s0 (SolvePoint.backtracked learnedClause backtrackLevel) s) :
    s.assertLearned learnedClause backtrackLevel = s := by
  obtain ⟨_, hd, _⟩ := reach_backtracked_level o s0 s learnedClause backtrackLevel h
  unfold CDCLSolver.assertLearned
  rw [if_neg (by rw [hd]; exact lt_irrefl _)]

/-- C13 (assertion after backjump) fails: at every point of `solve` that follows
`backtrack(backtrackLevel)`, under every iteration order, the guard
`backtrackLevel < decisionLevel` is false because `backtrack` has just set
`decisionLevel = backtrackLevel`; the guarded assertion leaves the state unchanged, so
no literal of the learned clause is assigned and the trail has no entry at level
`backtrackLevel + 1`. -/
theorem C13_no_assertion_after_backjump (o : IterOrder) (s0 s : CDCLSolver)
    (learnedClause : Clause) (backtrackLevel : Int)
    (h : SolveReach o s0 (SolvePoint.backtracked learnedClause backtrackLevel) s) :
    s.assertLearned learnedClause backtrackLevel = s ∧
      ∀ e ∈ (s.assertLearned learnedClause backtrackLevel).trail,
        e.level ≠ backtrackLevel + 1 := by
  obtain ⟨_, hd, ht⟩ := reach_backtracked_level o s0 s learnedClause backtrackLevel h
  have hs := reach_assertLearned_eq o s0 s learnedClause backtrackLevel h
  refine ⟨hs, ?_⟩
  rw [hs]
  intro e he
  have := ht e he
  omega

/-- The state after the first `backtrack` of `solve`, with the learned clause and the
backtrack level. -/
theorem reach_firstBacktrack (o : IterOrder) (fuel : Nat) (s0 s : CDCLSolver)
    (learnedClause : Clause) (backtrackLevel : Int)
    (h : s0.firstAnalysis o fuel = some (s, learnedClause, backtrackLevel)) :
    SolveReach o s0 (SolvePoint.backtracked learnedClause backtrackLevel)
      (((s.addClause learnedClause.literals).markLastLearned).backtrack backtrackLevel) :=
  SolveReach.backjump _ _ _ (SolveReach.learn _ _ _ (reach_firstAnalysis o fuel s0 s _ _ h))

theorem C13_no_assertion_after_backjump_witness :
    ∃ s learnedClause backtrackLevel,
      SolveReach IterOrder.insertion (CNFSolver loopFormula)
        (SolvePoint.backtracked learnedClause backtrackLevel) s ∧
      (∃ l ∈ learnedClause.literals, mapFind s.assignment l.var = none) ∧
      s.assertLearned learnedClause backtrackLevel = s ∧
      ∀ e ∈ (s.assertLearned learnedClause backtrackLevel).trail,
        e.level ≠ backtrackLevel + 1 := by
  obtain ⟨⟨s, C, β⟩, hx, hp⟩ := option_any_spec
    ((CNFSolver loopFormula).firstAnalysis IterOrder.insertion 2)
    (fun r => (r.2.1.literals.any (fun l => (mapFind
      (((r.1.addClause r.2.1.literals).markLastLearned).backtrack r.2.2).assignment l.var).isNone)))
    (by decide)
  have hr := reach_firstBacktrack IterOrder.insertion 2 _ s C β hx
  refine ⟨_, C, β, hr, ?_, C13_no_assertion_after_backjump IterOrder.insertion _ _ C β hr⟩
  simp only [List.any_eq_true, Option.isNone_iff_eq_none] at hp
  exact hp

/-- A check that holds of the first conflict analysis on `loopFormula` under insertion
order and under newest-first order holds of it under every valid iteration order. -/
theorem loopFormula_firstAnalysis_any (o : IterOrder) (ho : o.Valid)
    (p : CDCLSolver × Clause × Int → Bool)
    (hA : ((CNFSolver loopFormula).firstAnalysis IterOrder.insertion 2).any p = true)
    (hB : ((CNFSolver loopFormula).firstAnalysis IterOrder.newestFirst 2).any p = true) :
    ∃ s learnedClause backtrackLevel,
      (CNFSolver loopFormula).firstAnalysis o 2 = some (s, learnedClause, backtrackLevel) ∧
        p (s, learnedClause, backtrackLevel) = true := by
  rcases loopFormula_firstAnalysis o ho with h | h
  · rw [← h] at hA
    obtain ⟨⟨s, C, β⟩, hx, hp⟩ := option_any_spec _ p hA
    exact ⟨s, C, β, hx, hp⟩
  · rw [← h] at hB
    obtain ⟨⟨s, C, β⟩, hx, hp⟩ := option_any_spec _ p hB
    exact ⟨s, C, β, hx, hp⟩

/-- C11 (backjump correctness) fails: on `loopFormula`, under every valid iteration
order, the first conflict of `solve` is handled at decision level 1; the clause returned
by `analyzeConflict` is falsified before `backtrack`, but after `backtrack` with the
returned level it is not unit: two of its literals are unassigned. -/
theorem C11_learned_clause_not_unit (o : IterOrder) (ho : o.Valid) :
    ∃ s learnedClause backtrackLevel,
      SolveReach o (CNFSolver loopFormula) (SolvePoint.analysed learnedClause backtrackLevel) s ∧
      SolveReach o (CNFSolver loopFormula) (SolvePoint.backtracked learnedClause backtrackLevel)
        (((s.addClause learnedClause.literals).markLastLearned).backtrack backtrackLevel) ∧
      s.decisionLevel = 1 ∧
      learnedClause.isFalse s.assignment = true ∧
      learnedClause.isUnit
        (((s.addClause learnedClause.literals).markLastLearned).backtrack
          backtrackLevel).assignment = false ∧
      (learnedClause.literals.filter (fun l => (mapFind
        (((s.addClause learnedClause.literals).markLastLearned).backtrack
          backtrackLevel).assignment l.var).isNone)).length = 2 := by
  obtain ⟨s, C, β, hx, hp⟩ := loopFormula_firstAnalysis_any o ho
    (fun r => Decidable.decide (r.1.decisionLevel = 1) && r.2.1.isFalse r.1.assignment &&
      !(r.2.1.isUnit
        (((r.1.addClause r.2.1.literals).markLastLearned).backtrack r.2.2).assignment) &&
      Decidable.decide ((r.2.1.literals.filter (fun l => (mapFind
        (((r.1.addClause r.2.1.literals).markLastLearned).backtrack r.2.2).assignment
          l.var).isNone)).length = 2))
    (by decide) (by decide)
  simp only [Bool.and_eq_true, decide_eq_true_eq, Bool.not_eq_true'] at hp
  exact ⟨s, C, β, reach_firstAnalysis o 2 _ s C β hx,
    reach_firstBacktrack o 2 _ s C β hx, hp.1.1.1, hp.1.1.2, hp.1.2, hp.2⟩

theorem C11_learned_clause_not_unit_witness :
    ∃ s learnedClause backtrackLevel,
      SolveReach IterOrder.insertion (CNFSolver loopFormula)
        (SolvePoint.analysed learnedClause backtrackLevel) s ∧
      SolveReach IterOrder.insertion (CNFSolver loopFormula)
        (SolvePoint.backtracked learnedClause backtrackLevel)
        (((s.addClause learnedClause.literals).markLastLearned).backtrack backtrackLevel) ∧
      s.decisionLevel = 1 ∧
      learnedClause.isFalse s.assignment = true ∧
      learnedClause.isUnit
        (((s.addClause learnedClause.literals).markLastLearned).backtrack
          backtrackLevel).assignment = false ∧
      (learnedClause.literals.filter (fun l => (mapFind
        (((s.addClause learnedClause.literals).markLastLearned).backtrack
          backtrackLevel).assignment l.var).isNone)).length = 2 :=
  C11_learned_clause_not_unit IterOrder.insertion IterOrder.insertion_valid

/-- C12 (backjump level) fails: on `loopFormula`, under every valid iteration order, the
first call of `analyzeConflict` is made at decision level 1 and returns a clause whose
literals are all at level 1 together with the backtrack level 1; the level is not below
the decision level and is not the 0 that the specified rule gives. -/
theorem C12_backtrack_level_not_below (o : IterOrder) (ho : o.Valid) :
    ∃ s learnedClause backtrackLevel,
      SolveReach o (CNFSolver loopFormula) (SolvePoint.analysed learnedClause backtrackLevel) s ∧
      s.decisionLevel = 1 ∧ backtrackLevel = 1 ∧
      (∀ l ∈ learnedClause.literals, s.getDecisionLevel l.var = 1) ∧
      s.specBackjumpLevel learnedClause = 0 ∧
      ¬ backtrackLevel < s.decisionLevel := by
  obtain ⟨s, C, β, hx, hp⟩ := loopFormula_firstAnalysis_any o ho
    (fun r => Decidable.decide (r.1.decisionLevel = 1) && Decidable.decide (r.2.2 = 1) &&
      r.2.1.literals.all (fun l => Decidable.decide (r.1.getDecisionLevel l.var = 1)) &&
      Decidable.decide (r.1.specBackjumpLevel r.2.1 = 0))
    (by decide) (by decide)
  simp only [Bool.and_eq_true, decide_eq_true_eq, List.all_eq_true] at hp
  refine ⟨s, C, β, reach_firstAnalysis o 2 _ s C β hx, hp.1.1.1, hp.1.1.2, hp.1.2,
    hp.2, ?_⟩
  rw [hp.1.1.1, hp.1.1.2]
  decide

theorem C12_backtrack_level_not_below_witness :
    ∃ s learnedClause backtrackLevel,
      SolveReach IterOrder.newestFirst (CNFSolver loopFormula)
        (SolvePoint.analysed learnedClause backtrackLevel) s ∧
      s.decisionLevel = 1 ∧ backtrackLevel = 1 ∧
      (∀ l ∈ learnedClause.literals, s.getDecisionLevel l.var = 1) ∧
      s.specBackjumpLevel learnedClause = 0 ∧
      ¬ backtrackLevel < s.decisionLevel :=
  C12_backtrack_level_not_below IterOrder.newestFirst IterOrder.newestFirst_valid

/-- C14 (backtrack frame) fails: on `loopFormula`, under every valid iteration order,
`solve` calls `backtrack(1)` at decision level 1 in a state where variable 1 has a value
and a reason entry and was assigned at level 1, a level that is not above the target; the
call removes variable 1 from the assignment and from the reason map. -/
theorem C14_backtrack_erases_target_level (o : IterOrder) (ho : o.Valid) :
    ∃ s learnedClause backtrackLevel,
      SolveReach o (CNFSolver loopFormula) (SolvePoint.learned learnedClause backtrackLevel) s ∧
      0 ≤ backtrackLevel ∧ backtrackLevel ≤ s.decisionLevel ∧
      (mapFind s.assignment 1).isSome = true ∧ (mapFind s.reason 1).isSome = true ∧
      s.getDecisionLevel 1 ≤ backtrackLevel ∧
      mapFind (s.backtrack backtrackLevel).assignment 1 = none ∧
      mapFind (s.backtrack backtrackLevel).reason 1 = none := by
  obtain ⟨s, C, β, hx, hp⟩ := loopFormula_firstAnalysis_any o ho
    (fun r =>
      Decidable.decide (0 ≤ r.2.2) &&
      Decidable.decide
        (r.2.2 ≤ ((r.1.addClause r.2.1.literals).markLastLearned).decisionLevel) &&
      (mapFind ((r.1.addClause r.2.1.literals).markLastLearned).assignment 1).isSome &&
      (mapFind ((r.1.addClause r.2.1.literals).markLastLearned).reason 1).isSome &&
      Decidable.decide
        (((r.1.addClause r.2.1.literals).markLastLearned).getDecisionLevel 1 ≤ r.2.2) &&
      Decidable.decide (1 ∈ (mapFind
        ((r.1.addClause r.2.1.literals).markLastLearned).levelVars r.2.2).getD []))
    (by decide) (by decide)
  simp only [Bool.and_eq_true, decide_eq_true_eq] at hp
  obtain ⟨⟨⟨⟨⟨h1, h2⟩, h3⟩, h4⟩, h5⟩, h6⟩ := hp
  have hE := backtrack_erases_level _ β 1 h1 h2 h6
  exact ⟨_, C, β, SolveReach.learn _ _ _ (reach_firstAnalysis o 2 _ s C β hx),
    h1, h2, h3, h4, h5, hE.1, hE.2⟩

theorem C14_backtrack_erases_target_level_witness :
    ∃ s learnedClause backtrackLevel,
      SolveReach IterOrder.insertion (CNFSolver loopFormula)
        (SolvePoint.learned learnedClause backtrackLevel) s ∧
      0 ≤ backtrackLevel ∧ backtrackLevel ≤ s.decisionLevel ∧
      (mapFind s.assignment 1).isSome = true ∧ (mapFind s.reason 1).isSome = true ∧
      s.getDecisionLevel 1 ≤ backtrackLevel ∧
      mapFind (s.backtrack backtrackLevel).assignment 1 = none ∧
      mapFind (s.backtrack backtrackLevel).reason 1 = none :=
  C14_backtrack_erases_target_level IterOrder.insertion IterOrder.insertion_valid

/-- C15 (trail/assignment consistency) fails: on `loopFormula`, under every valid
iteration order, the state of `solve` after its first `backtrack` has a trail entry
whose variable is not in the assignment map. -/
theorem C15_trail_entry_unassigned (o : IterOrder) (ho : o.Valid) :
    ∃ s learnedClause backtrackLevel,
      SolveReach o (CNFSolver loopFormula)
        (SolvePoint.backtracked learnedClause backtrackLevel) s ∧
      ∃ e ∈ s.trail, mapFind s.assignment e.literal.var = none := by
  obtain ⟨s, C, β, hx, hp⟩ := loopFormula_firstAnalysis_any o ho
    (fun r => (((r.1.addClause r.2.1.literals).markLastLearned).backtrack r.2.2).trail.any
      (fun e => (mapFind
        (((r.1.addClause r.2.1.literals).markLastLearned).backtrack r.2.2).assignment
        e.literal.var).isNone))
    (by decide) (by decide)
  simp only [List.any_eq_true, Option.isNone_iff_eq_none] at hp
  exact ⟨_, C, β, reach_firstBacktrack o 2 _ s C β hx, hp⟩

theorem C15_trail_entry_unassigned_witness :
    ∃ s learnedClause backtrackLevel,
      SolveReach IterOrder.newestFirst (CNFSolver loopFormula)
        (SolvePoint.backtracked learnedClause backtrackLevel) s ∧
      ∃ e ∈ s.trail, mapFind s.assignment e.literal.var = none :=
  C15_trail_entry_unassigned IterOrder.newestFirst IterOrder.newestFirst_valid

/-! ## Activities and `addClause` (C18) -/

theorem mapFind_foldl_mapSet_stable (lits : List Literal) (m : List (Int × Nat)) (k : Int)
    (h : mapFind m k = some 0) :
    mapFind (lits.foldl (fun m lit => mapSet m lit.var 0) m) k = some 0 := by
  induction lits generalizing m with
  | nil => exact h
  | cons l lits ih =>
    rw [List.foldl_cons]
    apply ih
    rw [mapFind_mapSet]
    split
    · rfl
    · exact h

theorem mapFind_foldl_mapSet_zero (lits : List Literal) (m : List (Int × Nat)) (k : Int)
    (h : ∃ l ∈ lits, l.var = k) :
    mapFind (lits.foldl (fun m lit => mapSet m lit.var 0) m) k = some 0 := by
  induction lits generalizing m with
  | nil => simp at h
  | cons l lits ih =>
    rw [List.foldl_cons]
    obtain ⟨l2, hl2, hk⟩ := h
    rcases List.mem_cons.mp hl2 with rfl | hl2
    · apply mapFind_foldl_mapSet_stable
      rw [mapFind_mapSet, if_pos hk]
    · exact ih _ ⟨l2, hl2, hk⟩

/-- C18 (activity initialisation) fails for variables already present: `addClause`
assigns 0 to the activity of every variable of the new clause, so a variable of the clause
whose activity was positive has it reset to 0. -/
theorem C18_addClause_resets_activity (s : CDCLSolver) (literals : List Literal) (l : Literal)
    (a : Nat) (hl : l ∈ literals) (ha : mapFind s.varActivity l.var = some (a + 1)) :
    mapFind (s.addClause literals).varActivity l.var = some 0 ∧
      mapFind (s.addClause literals).varActivity l.var ≠ mapFind s.varActivity l.var := by
  have h0 : mapFind (s.addClause literals).varActivity l.var = some 0 :=
    mapFind_foldl_mapSet_zero literals s.varActivity l.var ⟨l, hl, rfl⟩
  refine ⟨h0, ?_⟩
  rw [h0, ha]
  simp

theorem C18_addClause_resets_activity_witness :
    ∃ s learnedClause backtrackLevel l,
      SolveReach IterOrder.insertion (CNFSolver loopFormula)
        (SolvePoint.analysed learnedClause backtrackLevel) s ∧
      l ∈ learnedClause.literals ∧ mapFind s.varActivity l.var = some (0 + 1) ∧
      mapFind (s.addClause learnedClause.literals).varActivity l.var = some 0 ∧
      mapFind (s.addClause learnedClause.literals).varActivity l.var ≠
        mapFind s.varActivity l.var := by
  obtain ⟨⟨s, C, β⟩, hx, hp⟩ := option_any_spec
    ((CNFSolver loopFormula).firstAnalysis IterOrder.insertion 2)
    (fun r => r.2.1.literals.any (fun l =>
      Decidable.decide (mapFind r.1.varActivity l.var = some (0 + 1))))
    (by decide)
  simp only [List.any_eq_true, decide_eq_true_eq] at hp
  obtain ⟨l, hl, ha⟩ := hp
  exact ⟨s, C, β, l, reach_firstAnalysis IterOrder.insertion 2 _ s C β hx, hl, ha,
    C18_addClause_resets_activity s C.literals l 0 hl ha⟩

/-! ## The propagation fixpoint (C17) -/

/-- C17 (propagation fixpoint) fails: on the formula with the single clause `[-1, -1]`,
under every valid iteration order, `solve` calls `unitPropagation` after its first
decision in a state from which the call returns `nullptr` (no conflict) although the
clause is falsified by the assignment of the resulting state. -/
theorem C17_fixpoint_with_falsified_clause (o : IterOrder) (ho : o.Valid) (fuel : Nat) :
    ∃ s s1, SolveReach o (CNFSolver [[-1, -1]]) SolvePoint.propagating s ∧
      s.unitPropagation (fuel + 1) = some (s1, none) ∧
      ∃ c ∈ s1.clauses, c.isFalse s1.assignment = true := by
  have h : ((CNFSolver [[-1, -1]]).firstDecision (o.pin [1] [1]) 1).any
      (fun s => Decidable.decide (s.unitPropagation 1 = some (s, none)) &&
        s.clauses.any (fun c => c.isFalse s.assignment)) = true := rfl
  rw [IterOrder.pin_eq o [1] [1] (perm_one _ _ (ho.1 [1]))] at h
  obtain ⟨s, hx, hp⟩ := option_any_spec _ _ h
  simp only [Bool.and_eq_true, decide_eq_true_eq, List.any_eq_true] at hp
  exact ⟨s, s, reach_firstDecision o 1 _ s hx,
    unitPropagation_mono 1 (fuel + 1) (by omega) s _ hp.1, hp.2⟩

theorem C17_fixpoint_with_falsified_clause_witness :
    ∃ s s1, SolveReach IterOrder.insertion (CNFSolver [[-1, -1]]) SolvePoint.propagating s ∧
      s.unitPropagation (0 + 1) = some (s1, none) ∧
      ∃ c ∈ s1.clauses, c.isFalse s1.assignment = true :=
  C17_fixpoint_with_falsified_clause IterOrder.insertion IterOrder.insertion_valid 0

/-- The same defect without a repeated literal: with an empty clause in the store (added
through `addClause`), the first call of `unitPropagation` in `solve` returns `nullptr`
although the empty clause is falsified. -/
theorem fixpoint_with_empty_clause (fuel : Nat) :
    ∃ s, (({ CDCLSolver.new.addClause [] with decisionLevel := 0 } : CDCLSolver).unitPropagation
        (fuel + 1) = some (s, none)) ∧
      ∃ c ∈ s.clauses, c.isFalse s.assignment = true := by
  refine ⟨{ CDCLSolver.new.addClause [] with decisionLevel := 0 },
    unitPropagation_mono 1 (fuel + 1) (by omega) _ _ rfl, ?_⟩
  exact ⟨⟨[], false, 0⟩, by decide, rfl⟩

/-! ## Case analysis of the steps of `solve` -/

/-- The three ways a pass of `unitPropagation` can end. -/
theorem unitPropagationBody_cases (s : CDCLSolver) :
    (s.clauses.find? (fun c => c.isUnit s.assignment) = none ∧
      s.unitPropagationBody = Step.done (s, none)) ∨
    ∃ u, s.clauses.find? (fun c => c.isUnit s.assignment) = some u ∧
      ((∃ cf, (s.assign (u.getUnitLiteral s.assignment) s.decisionLevel (some u)).checkConflict
            = some cf ∧
          s.unitPropagationBody =
            Step.done (s.assign (u.getUnitLiteral s.assignment) s.decisionLevel (some u),
              some cf)) ∨
        ((s.assign (u.getUnitLiteral s.assignment) s.decisionLevel (some u)).checkConflict
            = none ∧
          s.unitPropagationBody =
            Step.next (s.assign (u.getUnitLiteral s.assignment) s.decisionLevel (some u)))) := by
  cases hf : s.clauses.find? (fun c => c.isUnit s.assignment) with
  | none => exact Or.inl ⟨rfl, unitPropagationBody_none s hf⟩
  | some u =>
    refine Or.inr ⟨u, rfl, ?_⟩
    cases hc : (s.assign (u.getUnitLiteral s.assignment) s.decisionLevel (some u)).checkConflict with
    | none => exact Or.inr ⟨rfl, unitPropagationBody_next s u hf hc⟩
    | some cf => exact Or.inl ⟨cf, rfl, unitPropagationBody_conflict s u cf hf hc⟩

theorem frameEq_refl (s : CDCLSolver) : FrameEq s s :=
  ⟨rfl, rfl, rfl, rfl, rfl, fun _ => rfl, fun _ _ h => h⟩

theorem frameEq_touchReason {s s1 : CDCLSolver} (h : FrameEq s s1) (v : Int) :
    FrameEq s (s1.touchReason v) := by
  unfold CDCLSolver.touchReason
  cases hr : mapFind s1.reason v with
  | some x => exact h
  | none =>
    refine ⟨h.clauses, h.assignment, h.decisionLevel, h.trail, h.varActivity, h.levelVars, ?_⟩
    intro v2 R hR
    simp only [mapFind_mapSet] at hR
    by_cases hv : v = v2
    · rw [if_pos hv] at hR
      simp at hR
    · rw [if_neg hv] at hR
      exact h.reason v2 R hR

theorem frameEq_touchLevelVars (s : CDCLSolver) : FrameEq s s.touchLevelVars := by
  unfold CDCLSolver.touchLevelVars
  cases hr : mapFind s.levelVars s.decisionLevel with
  | some x => exact frameEq_refl s
  | none =>
    refine ⟨rfl, rfl, rfl, rfl, rfl, ?_, fun _ _ h => h⟩
    intro l
    simp only [mapFind_mapSet]
    by_cases hl : s.decisionLevel = l
    · rw [if_pos hl, ← hl, hr]
      rfl
    · rw [if_neg hl]

/-- The four ways a pass of the resolution loop of `analyzeConflict` can end. -/
theorem analyzeBody_cases (o : IterOrder) (lv : List Int) (st : CDCLSolver × Clause) :
    (lastLevelVar lv st.2 = 0 ∧ analyzeBody o lv st = Step.done st) ∨
    (lastLevelVar lv st.2 ≠ 0 ∧
      (mapFind st.1.reason (lastLevelVar lv st.2)).getD none = none ∧
      analyzeBody o lv st = Step.done (st.1.touchReason (lastLevelVar lv st.2), st.2)) ∨
    (∃ R, lastLevelVar lv st.2 ≠ 0 ∧
      mapFind st.1.reason (lastLevelVar lv st.2) = some (some R) ∧
      (st.1.touchReason (lastLevelVar lv st.2)).currentLvlCount
        (resolveOn o st.2 R (lastLevelVar lv st.2)) ≤ 1 ∧
      analyzeBody o lv st = Step.done (st.1.touchReason (lastLevelVar lv st.2),
        resolveOn o st.2 R (lastLevelVar lv st.2))) ∨
    (∃ R, lastLevelVar lv st.2 ≠ 0 ∧
      mapFind st.1.reason (lastLevelVar lv st.2) = some (some R) ∧
      ¬ (st.1.touchReason (lastLevelVar lv st.2)).currentLvlCount
        (resolveOn o st.2 R (lastLevelVar lv st.2)) ≤ 1 ∧
      analyzeBody o lv st = Step.next (st.1.touchReason (lastLevelVar lv st.2),
        resolveOn o st.2 R (lastLevelVar lv st.2))) := by
  unfold analyzeBody
  simp only
  by_cases h0 : lastLevelVar lv st.2 = 0
  · rw [if_pos h0]
    exact Or.inl ⟨h0, rfl⟩
  · rw [if_neg h0]
    cases hr : (mapFind st.1.reason (lastLevelVar lv st.2)).getD none with
    | none => exact Or.inr (Or.inl ⟨h0, rfl, rfl⟩)
    | some R =>
      have hR := getD_none_eq_some _ _ hr
      simp only
      by_cases hc : (st.1.touchReason (lastLevelVar lv st.2)).currentLvlCount
          (resolveOn o st.2 R (lastLevelVar lv st.2)) ≤ 1
      · rw [if_pos hc]
        exact Or.inr (Or.inr (Or.inl ⟨R, h0, hR, hc, rfl⟩))
      · rw [if_neg hc]
        exact Or.inr (Or.inr (Or.inr ⟨R, h0, hR, hc, rfl⟩))

/-- The result of one pass of the resolution loop differs from its input state by the
frame only. -/
theorem analyzeBody_frame (o : IterOrder) (lv : List Int) (s : CDCLSolver)
    (st : CDCLSolver × Clause) (h : FrameEq s st.1) :
    match analyzeBody o lv st with
    | Step.done r => FrameEq s r.1
    | Step.next st1 => FrameEq s st1.1 := by
  rcases analyzeBody_cases o lv st with ⟨_, hb⟩ | ⟨_, _, hb⟩ | ⟨R, _, _, _, hb⟩ | ⟨R, _, _, _, hb⟩
  · rw [hb]; exact h
  · rw [hb]; exact frameEq_touchReason h _
  · rw [hb]; exact frameEq_touchReason h _
  · rw [hb]; exact frameEq_touchReason h _

/-- The solver state is changed by `analyzeConflict` in the frame only, and the returned
level is the one computed from the returned clause. -/
theorem analyzeConflict_frame (o : IterOrder) (fuel : Nat) (s s1 : CDCLSolver)
    (conflict learnedClause : Clause) (backtrackLevel : Int) (h0 : s.decisionLevel ≠ 0)
    (h : s.analyzeConflict o fuel conflict = some (s1, learnedClause, backtrackLevel)) :
    FrameEq s s1 ∧ backtrackLevel = s1.backtrackLevelOf learnedClause := by
  unfold CDCLSolver.analyzeConflict at h
  simp only [h0, if_false, Option.map_eq_some'] at h
  obtain ⟨r, hr, hx⟩ := h
  simp only [Prod.mk.injEq] at hx
  obtain ⟨rfl, rfl, rfl⟩ := hx
  refine ⟨?_, rfl⟩
  unfold analyzeLoop at hr
  refine whileTrue_invariant _ (fun st => FrameEq s st.1) (fun r => FrameEq s r.1)
    ?_ ?_ fuel _ r (frameEq_touchLevelVars s) hr
  · intro st r1 hst hb
    have := analyzeBody_frame o s.currentLevelVars s st hst
    rw [Option.some.inj hb] at this
    exact this
  · intro st st1 hst hb
    have := analyzeBody_frame o s.currentLevelVars s st hst
    rw [Option.some.inj hb] at this
    exact this

/-! ## The order of the trail (C16) -/

/-- The point after `addClause` of the learned clause carries a backtrack level that is
not negative. -/
theorem reach_learned_level (o : IterOrder) (s0 s : CDCLSolver) (learnedClause : Clause)
    (backtrackLevel : Int)
    (h : SolveReach o s0 (SolvePoint.learned learnedClause backtrackLevel) s) :
    0 ≤ backtrackLevel := by
  cases h with
  | learn s2 _ _ h2 =>
    cases h2 with
    | analysis fuel s3 _ cf _ _ h3 hd ha =>
      exact analyzeConflict_level_nonneg o fuel s3 s2 cf learnedClause backtrackLevel hd ha

/-- Appending an entry at the current decision level keeps the trail ordered. -/
theorem trail_ordered_append (t : List TrailEntry) (d : Int) (e : TrailEntry)
    (h1 : t.Pairwise (fun a b => a.level ≤ b.level)) (h2 : ∀ x ∈ t, x.level ≤ d)
    (he : e.level = d) :
    (t ++ [e]).Pairwise (fun a b => a.level ≤ b.level) ∧ ∀ x ∈ t ++ [e], x.level ≤ d := by
  constructor
  · rw [List.pairwise_append]
    refine ⟨h1, List.pairwise_singleton _ _, ?_⟩
    intro a ha b hb
    rw [List.mem_singleton.mp hb, he]
    exact h2 a ha
  · intro x hx
    rcases List.mem_append.mp hx with hx | hx
    · exact h2 x hx
    · rw [List.mem_singleton.mp hx, he]

/-- In every state `solve` passes through, started on a solver with an empty trail, the
levels of the trail do not decrease and none exceeds the decision level. -/
theorem reach_trail_ordered (o : IterOrder) (s0 : CDCLSolver) (h0 : s0.trail = [])
    (pc : SolvePoint) (s : CDCLSolver) (h : SolveReach o s0 pc s) :
    s.trail.Pairwise (fun a b => a.level ≤ b.level) ∧ ∀ e ∈ s.trail, e.level ≤ s.decisionLevel := by
  induction h with
  | start =>
    show s0.trail.Pairwise _ ∧ ∀ e ∈ s0.trail, e.level ≤ 0
    rw [h0]
    exact ⟨List.Pairwise.nil, by simp⟩
  | unitNext s s1 _ hb ih =>
    rcases unitPropagationBody_cases s with ⟨_, hb2⟩ | ⟨u, _, ⟨cf, _, hb2⟩ | ⟨_, hb2⟩⟩
    · rw [hb2] at hb; simp at hb
    · rw [hb2] at hb; simp at hb
    · rw [hb2] at hb
      simp only [Step.next.injEq] at hb
      subst hb
      simp only [assign_trail, assign_decisionLevel]
      exact trail_ordered_append _ _ _ ih.1 ih.2 rfl
  | unitConflict s s1 cf _ hb ih =>
    rcases unitPropagationBody_cases s with ⟨_, hb2⟩ | ⟨u, _, ⟨cf2, _, hb2⟩ | ⟨_, hb2⟩⟩
    · rw [hb2] at hb; simp at hb
    · rw [hb2] at hb
      simp only [Step.done.injEq, Prod.mk.injEq] at hb
      obtain ⟨rfl, _⟩ := hb
      simp only [assign_trail, assign_decisionLevel]
      exact trail_ordered_append _ _ _ ih.1 ih.2 rfl
    · rw [hb2] at hb; simp at hb
  | fixpoint s s1 _ hb ih =>
    rcases unitPropagationBody_cases s with ⟨_, hb2⟩ | ⟨u, _, ⟨cf2, _, hb2⟩ | ⟨_, hb2⟩⟩
    · rw [hb2] at hb
      simp only [Step.done.injEq, Prod.mk.injEq, and_true] at hb
      subst hb
      exact ih
    · rw [hb2] at hb; simp at hb
    · rw [hb2] at hb; simp at hb
  | decision s _ hd ih =>
    simp only [assignDecision_trail, assignDecision_decisionLevel]
    exact trail_ordered_append _ _ _ ih.1 (fun x hx => le_trans (ih.2 x hx) (by omega)) rfl
  | analysis fuel s s1 cf C β _ hd ha ih =>
    obtain ⟨hF, _⟩ := analyzeConflict_frame o fuel s s1 cf C β hd ha
    rw [hF.trail, hF.decisionLevel]
    exact ih
  | learn s C β _ ih =>
    simp only [learn_trail, learn_decisionLevel]
    exact ih
  | backjump s C β hprev ih =>
    have hβ := reach_learned_level o s0 s C β hprev
    rw [backtrack_of_nonneg s β hβ]
    simp only
    refine ⟨List.Pairwise.sublist (List.filter_sublist _) ih.1, ?_⟩
    intro e he
    simp only [List.mem_filter, decide_eq_true_eq, not_lt] at he
    exact he.2
  | assertion s C β hprev ih =>
    rw [reach_assertLearned_eq o s0 s C β hprev]
    exact ih

/-- In an ordered list the entries at levels up to `L` form a prefix and the others the
suffix that follows it. -/
theorem trail_filter_split (t : List TrailEntry) (L : Int)
    (h : t.Pairwise (fun a b => a.level ≤ b.level)) :
    t = t.filter (fun entry => ¬ (entry.level > L)) ++ t.filter (fun entry => entry.level > L) := by
  induction t with
  | nil => rfl
  | cons a t ih =>
    rw [List.pairwise_cons] at h
    by_cases ha : a.level > L
    · have h1 : (a :: t).filter (fun entry => ¬ (entry.level > L)) = [] := by
        rw [List.filter_eq_nil_iff]
        intro x hx
        rcases List.mem_cons.mp hx with rfl | hx
        · simpa using ha
        · have := h.1 x hx
          simp only [decide_not, Bool.not_eq_true', decide_eq_false_iff_not, not_not]
          omega
      have h2 : (a :: t).filter (fun entry => entry.level > L) = a :: t := by
        rw [List.filter_eq_self]
        intro x hx
        rcases List.mem_cons.mp hx with rfl | hx
        · simpa using ha
        · have := h.1 x hx
          simp only [decide_eq_true_eq]
          omega
      rw [h1, h2]
      rfl
    · have h1 : (a :: t).filter (fun entry => ¬ (entry.level > L)) =
          a :: t.filter (fun entry => ¬ (entry.level > L)) := by
        rw [List.filter_cons_of_pos]
        simpa using ha
      have h2 : (a :: t).filter (fun entry => entry.level > L) =
          t.filter (fun entry => entry.level > L) := by
        rw [List.filter_cons_of_neg]
        simpa using ha
      rw [h1, h2, List.cons_append, ← ih h.2]

/-- C16 (trail order): in every state that `solve` passes through when called on a
solver with an empty trail, under every iteration order, the levels of the trail entries
do not decrease from first to last and none exceeds `decisionLevel`; hence for every
`L ≥ 0`, `backtrack(L)` sets `decisionLevel` to `L` and keeps as its trail a prefix of the
old one, all at levels up to `L`, with every removed entry above `L`. -/
theorem C16_trail_order (o : IterOrder) (s0 : CDCLSolver) (h0 : s0.trail = [])
    (pc : SolvePoint) (s : CDCLSolver) (h : SolveReach o s0 pc s) :
    s.trail.Pairwise (fun a b => a.level ≤ b.level) ∧
      (∀ e ∈ s.trail, e.level ≤ s.decisionLevel) ∧
      ∀ L : Int, 0 ≤ L →
        (s.backtrack L).decisionLevel = L ∧
        (∀ e ∈ (s.backtrack L).trail, e.level ≤ L) ∧
        ∃ removed, s.trail = (s.backtrack L).trail ++ removed ∧ ∀ e ∈ removed, L < e.level := by
  obtain ⟨h1, h2⟩ := reach_trail_ordered o s0 h0 pc s h
  refine ⟨h1, h2, ?_⟩
  intro L hL
  rw [backtrack_of_nonneg s L hL]
  simp only
  refine ⟨trivial, ?_, s.trail.filter (fun entry => entry.level > L),
    trail_filter_split s.trail L h1, ?_⟩
  · intro e he
    simp only [List.mem_filter, decide_eq_true_eq, not_lt] at he
    exact he.2
  · intro e he
    simp only [List.mem_filter, decide_eq_true_eq] at he
    exact he.2

theorem C16_trail_order_witness :
    ∃ s learnedClause backtrackLevel,
      SolveReach IterOrder.insertion (CNFSolver loopFormula)
        (SolvePoint.learned learnedClause backtrackLevel) s ∧ s.trail ≠ [] ∧
      s.trail.Pairwise (fun a b => a.level ≤ b.level) ∧
      (∀ e ∈ s.trail, e.level ≤ s.decisionLevel) ∧
      ∀ L : Int, 0 ≤ L →
        (s.backtrack L).decisionLevel = L ∧
        (∀ e ∈ (s.backtrack L).trail, e.level ≤ L) ∧
        ∃ removed, s.trail = (s.backtrack L).trail ++ removed ∧ ∀ e ∈ removed, L < e.level := by
  obtain ⟨⟨s, C, β⟩, hx, hp⟩ := option_any_spec
    ((CNFSolver loopFormula).firstAnalysis IterOrder.insertion 2)
    (fun r => Decidable.decide (r.1.trail ≠ [])) (by decide)
  simp only [decide_eq_true_eq] at hp
  have hr := SolveReach.learn _ _ _
    (reach_firstAnalysis IterOrder.insertion 2 _ s C β hx)
  exact ⟨_, C, β, hr, by simpa using hp,
    C16_trail_order IterOrder.insertion (CNFSolver loopFormula) rfl _ _ hr⟩

/-! ## Clause status as properties of the literals -/

theorem isFalse_iff (c : Clause) (a : List (Int × Bool)) :
    c.isFalse a = true ↔
      ∀ l ∈ c.literals, ∃ b, mapFind a l.var = some b ∧ litTrueUnder b l = false := by
  unfold Clause.isFalse
  induction c.literals with
  | nil => simp [isFalseLoop]
  | cons l lits ih =>
    simp only [isFalseLoop, List.mem_cons, forall_eq_or_imp]
    cases hm : mapFind a l.var with
    | none => simp
    | some b =>
      simp only [Option.some.injEq, exists_eq_left']
      cases hb : litTrueUnder b l with
      | true => simp
      | false => simpa using ih

theorem isTrue_iff (c : Clause) (a : List (Int × Bool)) :
    c.isTrue a = true ↔
      ∃ l ∈ c.literals, ∃ b, mapFind a l.var = some b ∧ litTrueUnder b l = true := by
  unfold Clause.isTrue
  rw [List.any_eq_true]
  constructor
  · rintro ⟨l, hl, h⟩
    cases hm : mapFind a l.var with
    | none => rw [hm] at h; simp at h
    | some b => rw [hm] at h; exact ⟨l, hl, b, hm, h⟩
  · rintro ⟨l, hl, b, hm, h⟩
    exact ⟨l, hl, by rw [hm]; exact h⟩

/-- The counting loop of `isUnit` started with a count of at most 1. -/
theorem isUnitLoop_eq (a : List (Int × Bool)) (lits : List Literal) :
    ∀ n : Nat, n ≤ 1 →
      isUnitLoop a lits n =
        if n + (lits.filter (fun l => (mapFind a l.var).isNone)).length ≤ 1 then
          some (n + (lits.filter (fun l => (mapFind a l.var).isNone)).length)
        else none := by
  induction lits with
  | nil => intro n hn; simp [isUnitLoop, hn]
  | cons l lits ih =>
    intro n hn
    cases hm : mapFind a l.var with
    | none =>
      have hf : ((l :: lits).filter (fun l => (mapFind a l.var).isNone)).length =
          (lits.filter (fun l => (mapFind a l.var).isNone)).length + 1 := by
        rw [List.filter_cons_of_pos (by simp [hm])]
        rfl
      rw [hf]
      simp only [isUnitLoop, hm]
      by_cases hn1 : n + 1 > 1
      · rw [if_pos hn1, if_neg (by omega)]
      · rw [if_neg hn1, ih (n + 1) (by omega)]
        have e : n + 1 + (lits.filter (fun l => (mapFind a l.var).isNone)).length =
            n + ((lits.filter (fun l => (mapFind a l.var).isNone)).length + 1) := by omega
        rw [e]
    | some b =>
      have hf : (l :: lits).filter (fun l => (mapFind a l.var).isNone) =
          lits.filter (fun l => (mapFind a l.var).isNone) := by
        rw [List.filter_cons_of_neg (by simp [hm])]
      rw [hf]
      simp only [isUnitLoop, hm]
      exact ih n hn

theorem isUnit_iff (c : Clause) (a : List (Int × Bool)) :
    c.isUnit a = true ↔
      c.isTrue a = false ∧
        (c.literals.filter (fun l => (mapFind a l.var).isNone)).length = 1 := by
  unfold Clause.isUnit
  cases ht : c.isTrue a with
  | true => simp
  | false =>
    simp only [Bool.false_eq_true, if_false, true_and]
    rw [isUnitLoop_eq a c.literals 0 (by omega)]
    simp only [Nat.zero_add]
    by_cases h : (c.literals.filter (fun l => (mapFind a l.var).isNone)).length ≤ 1
    · rw [if_pos h]
      simp
    · rw [if_neg h]
      simp only [Bool.false_eq_true, false_iff]
      omega

/-- A clause falsified by a part of an assignment is falsified by the whole of it. -/
theorem isFalse_of_sub (c : Clause) (a1 a : List (Int × Bool))
    (hsub : ∀ v b, mapFind a1 v = some b → mapFind a v = some b)
    (h : c.isFalse a1 = true) : c.isFalse a = true := by
  rw [isFalse_iff] at h ⊢
  intro l hl
  obtain ⟨b, hb, ht⟩ := h l hl
  exact ⟨b, hsub _ _ hb, ht⟩

/-- A literal is false under a value exactly when its `negated` flag is that value. -/
theorem litTrueUnder_false_iff (b : Bool) (l : Literal) :
    litTrueUnder b l = false ↔ l.negated = b := by
  unfold litTrueUnder
  cases b <;> cases l.negated <;> simp

/-- Assigning an unassigned variable falsifies a duplicate-free clause only if the clause
was falsified or unit before. -/
theorem isFalse_mapSet_unassigned (c : Clause) (a : List (Int × Bool)) (v : Int) (b : Bool)
    (hnd : c.literals.Nodup) (hv : mapFind a v = none)
    (h : c.isFalse (mapSet a v b) = true) :
    c.isFalse a = true ∨ c.isUnit a = true := by
  rw [isFalse_iff] at h
  by_cases hex : ∃ l ∈ c.literals, l.var = v
  · right
    rw [isUnit_iff]
    constructor
    · cases ht : c.isTrue a with
      | false => rfl
      | true =>
        exfalso
        rw [isTrue_iff] at ht
        obtain ⟨l, hl, b1, hb1, ht1⟩ := ht
        obtain ⟨b2, hb2, ht2⟩ := h l hl
        rw [mapFind_mapSet] at hb2
        by_cases hvl : v = l.var
        · rw [← hvl, hv] at hb1
          simp at hb1
        · rw [if_neg hvl, hb1] at hb2
          have : b1 = b2 := Option.some.inj hb2
          subst this
          rw [ht1] at ht2
          simp at ht2
    · have hfil : c.literals.filter (fun l => (mapFind a l.var).isNone) =
          c.literals.filter (fun l => l == (⟨v, b⟩ : Literal)) := by
        apply List.filter_congr
        intro l hl
        obtain ⟨b2, hb2, ht2⟩ := h l hl
        rw [mapFind_mapSet] at hb2
        by_cases hvl : v = l.var
        · rw [if_pos hvl] at hb2
          have : b = b2 := Option.some.inj hb2
          subst this
          have hneg := (litTrueUnder_false_iff b l).mp ht2
          have hle : l = ⟨v, b⟩ := by
            cases l with
            | mk lv ln =>
              simp only at hvl hneg
              rw [hvl, hneg]
          rw [hle, hv]
          simp
        · rw [if_neg hvl] at hb2
          rw [hb2]
          have hne : l ≠ ⟨v, b⟩ := by
            intro hcon
            rw [hcon] at hvl
            exact hvl rfl
          simp [hne]
      rw [hfil, ← List.countP_eq_length_filter]
      show List.count (⟨v, b⟩ : Literal) c.literals = 1
      obtain ⟨l, hl, hlv⟩ := hex
      obtain ⟨b2, hb2, ht2⟩ := h l hl
      rw [mapFind_mapSet, if_pos hlv.symm] at hb2
      have : b = b2 := Option.some.inj hb2
      subst this
      have hneg := (litTrueUnder_false_iff b l).mp ht2
      have hle : l = ⟨v, b⟩ := by
        cases l with
        | mk lv ln =>
          simp only at hlv hneg
          rw [hlv, hneg]
      rw [hle] at hl
      have h1 : List.count (⟨v, b⟩ : Literal) c.literals ≤ 1 :=
        List.nodup_iff_count_le_one.mp hnd _
      have h2 : 0 < List.count (⟨v, b⟩ : Literal) c.literals := List.count_pos_iff.mpr hl
      omega
  · left
    rw [isFalse_iff]
    intro l hl
    obtain ⟨b2, hb2, ht2⟩ := h l hl
    rw [mapFind_mapSet] at hb2
    have hvl : ¬ v = l.var := fun hcon => hex ⟨l, hl, hcon.symm⟩
    rw [if_neg hvl] at hb2
    exact ⟨b2, hb2, ht2⟩

theorem find?_of_filter_cons {α : Type} (p : α → Bool) (l : List α) (x : α) (rest : List α)
    (h : l.filter p = x :: rest) : l.find? p = some x := by
  induction l with
  | nil => simp at h
  | cons y l ih =>
    by_cases hy : p y = true
    · rw [List.filter_cons_of_pos hy] at h
      rw [List.find?_cons_of_pos _ hy]
      rw [(List.cons.inj h).1]
    · rw [List.filter_cons_of_neg hy] at h
      rw [List.find?_cons_of_neg _ hy]
      exact ih h

/-- The unit literal of a unit clause: a literal of the clause on an unassigned variable,
and the only literal of the clause on that variable. -/
theorem getUnitLiteral_spec (c : Clause) (a : List (Int × Bool)) (h : c.isUnit a = true) :
    c.getUnitLiteral a ∈ c.literals ∧ mapFind a (c.getUnitLiteral a).var = none ∧
      (c.literals.filter (fun l => l.var = (c.getUnitLiteral a).var)).length = 1 := by
  rw [isUnit_iff] at h
  obtain ⟨_, hone⟩ := h
  obtain ⟨x, hx⟩ := List.length_eq_one.mp hone
  have hxm : x ∈ c.literals.filter (fun l => (mapFind a l.var).isNone) := by
    rw [hx]; simp
  have hfind : c.literals.find? (fun lit => (mapFind a lit.var).isNone) = some x := by
    exact find?_of_filter_cons _ _ x [] hx
  have hg : c.getUnitLiteral a = x := by
    unfold Clause.getUnitLiteral
    rw [hfind]
  rw [hg]
  rw [List.mem_filter] at hxm
  have hxn : mapFind a x.var = none := by simpa using hxm.2
  refine ⟨hxm.1, hxn, ?_⟩
  have hff : c.literals.filter (fun l => l.var = x.var) =
      (c.literals.filter (fun l => (mapFind a l.var).isNone)).filter
        (fun l => l.var = x.var) := by
    rw [List.filter_filter]
    apply List.filter_congr
    intro l _
    by_cases hl : l.var = x.var
    · simp [hl, hxn]
    · simp [hl]
  rw [hff, hx]
  simp

/-! ## Preservation of the bookkeeping invariant -/

theorem soundInv_assign {s : CDCLSolver} (h : SoundInv s) (l : Literal) (r : Option Clause)
    (hl0 : l.var ≠ 0)
    (hr : ∀ R, r = some R →
      R ∈ s.clauses ∧ (R.literals.filter (fun x => x.var = l.var)).length = 1) :
    SoundInv (s.assign l s.decisionLevel r) := by
  refine ⟨h.nodup, h.level_nonneg, ?_, ?_, ?_, ?_, ?_, ?_⟩
  · intro e he
    simp only [assign_trail, List.mem_append, List.mem_singleton] at he
    rcases he with he | rfl
    · exact h.trail_levels e he
    · exact ⟨h.level_nonneg, le_rfl⟩
  · intro e he
    simp only [assign_trail, List.mem_append, List.mem_singleton] at he
    simp only [assign_levelVars, mapFind_mapSet]
    rcases he with he | rfl
    · by_cases hlv : s.decisionLevel = e.level
      · rw [if_pos hlv]
        simp only [Option.getD_some, mem_setInsert]
        left
        rw [hlv]
        exact h.trail_levelVars e he
      · rw [if_neg hlv]
        exact h.trail_levelVars e he
    · simp only [if_true, Option.getD_some, mem_setInsert]
      exact Or.inr trivial
  · intro v hv
    simp only [assign_assignment, mapFind_mapSet] at hv
    simp only [assign_trail]
    by_cases hlv : l.var = v
    · exact ⟨⟨l, s.decisionLevel, r⟩, by simp, hlv⟩
    · rw [if_neg hlv] at hv
      obtain ⟨e, he, hev⟩ := h.assigned_trail v hv
      exact ⟨e, List.mem_append_left _ he, hev⟩
  · intro v R hR
    simp only [assign_reason, mapFind_mapSet] at hR
    simp only [assign_clauses]
    by_cases hlv : l.var = v
    · rw [if_pos hlv] at hR
      have := hr R (Option.some.inj hR)
      rw [hlv] at this
      exact this
    · rw [if_neg hlv] at hR
      exact h.reasons v R hR
  · intro c hc x hx
    simp only [assign_varActivity, mem_keys_mapSet]
    exact Or.inr (h.clause_keys c hc x hx)
  · intro k hk
    simp only [assign_varActivity, mem_keys_mapSet] at hk
    rcases hk with rfl | hk
    · exact hl0
    · exact h.keys_nonzero k hk

theorem soundInv_assignDecision {s : CDCLSolver} (h : SoundInv s) (l : Literal)
    (hl0 : l.var ≠ 0) : SoundInv (s.assignDecision l) := by
  have h2 : SoundInv ({ s with decisionLevel := s.decisionLevel + 1 } : CDCLSolver) :=
    ⟨h.nodup, by have := h.level_nonneg; show 0 ≤ s.decisionLevel + 1; omega,
      fun e he => ⟨(h.trail_levels e he).1, by
        have := (h.trail_levels e he).2
        show e.level ≤ s.decisionLevel + 1
        omega⟩,
      h.trail_levelVars, h.assigned_trail, h.reasons, h.clause_keys, h.keys_nonzero⟩
  exact soundInv_assign h2 l none hl0 (fun R hR => by simp at hR)

theorem soundInv_frame {s s1 : CDCLSolver} (h : SoundInv s) (hF : FrameEq s s1) :
    SoundInv s1 := by
  refine ⟨?_, ?_, ?_, ?_, ?_, ?_, ?_, ?_⟩
  · rw [hF.clauses]; exact h.nodup
  · rw [hF.decisionLevel]; exact h.level_nonneg
  · rw [hF.trail, hF.decisionLevel]; exact h.trail_levels
  · rw [hF.trail]
    intro e he
    rw [hF.levelVars]
    exact h.trail_levelVars e he
  · rw [hF.trail, hF.assignment]; exact h.assigned_trail
  · intro v R hR
    rw [hF.clauses]
    exact h.reasons v R (hF.reason v R hR)
  · rw [hF.clauses, hF.varActivity]; exact h.clause_keys
  · rw [hF.varActivity]; exact h.keys_nonzero

theorem soundInv_learn {s : CDCLSolver} (h : SoundInv s) (lits : List Literal)
    (hnd : lits.Nodup) (h0 : ∀ l ∈ lits, l.var ≠ 0) :
    SoundInv ((s.addClause lits).markLastLearned) := by
  refine ⟨?_, h.level_nonneg, h.trail_levels, h.trail_levelVars, h.assigned_trail, ?_, ?_, ?_⟩
  · intro c hc
    simp only [learn_clauses, List.mem_append, List.mem_singleton] at hc
    rcases hc with hc | rfl
    · exact h.nodup c hc
    · exact hnd
  · intro v R hR
    simp only [learn_reason] at hR
    simp only [learn_clauses, List.mem_append]
    exact ⟨Or.inl (h.reasons v R hR).1, (h.reasons v R hR).2⟩
  · intro c hc x hx
    simp only [learn_clauses, List.mem_append, List.mem_singleton] at hc
    simp only [learn_varActivity, mem_keys_foldl_mapSet]
    rcases hc with hc | rfl
    · exact Or.inl (h.clause_keys c hc x hx)
    · exact Or.inr ⟨x, hx, rfl⟩
  · intro k hk
    simp only [learn_varActivity, mem_keys_foldl_mapSet] at hk
    rcases hk with hk | ⟨l, hl, rfl⟩
    · exact h.keys_nonzero k hk
    · exact h0 l hl

theorem soundInv_backtrack {s : CDCLSolver} (h : SoundInv s) (level : Int) (h0 : 0 ≤ level) :
    SoundInv (s.backtrack level) := by
  rw [backtrack_of_nonneg s level h0]
  refine ⟨h.nodup, h0, ?_, ?_, ?_, ?_, h.clause_keys, h.keys_nonzero⟩
  · intro e he
    simp only [List.mem_filter, decide_eq_true_eq, not_lt] at he
    exact ⟨(h.trail_levels e he.1).1, he.2⟩
  · intro e he
    simp only [List.mem_filter] at he
    exact h.trail_levelVars e he.1
  · intro v hv
    simp only [mapFind_foldl_mapErase] at hv
    by_cases hmem : v ∈ s.varsToRemove level
    · rw [if_pos hmem] at hv
      simp at hv
    · rw [if_neg hmem] at hv
      obtain ⟨e, he, hev⟩ := h.assigned_trail v hv
      refine ⟨e, ?_, hev⟩
      simp only [List.mem_filter, decide_eq_true_eq, not_lt]
      refine ⟨he, ?_⟩
      by_contra hcon
      apply hmem
      rw [mem_varsToRemove]
      refine ⟨e.level, by omega, (h.trail_levels e he).2, ?_⟩
      rw [← hev]
      exact h.trail_levelVars e he
  · intro v R hR
    simp only [mapFind_foldl_mapErase] at hR
    by_cases hmem : v ∈ s.varsToRemove level
    · rw [if_pos hmem] at hR
      simp at hR
    · rw [if_neg hmem] at hR
      exact h.reasons v R hR

/-! ## Non-falsification across the steps of `solve` -/

/-- A decision of `decide` other than the sentinel is on an unassigned variable. -/
theorem decide_unassigned (o : IterOrder) (s : CDCLSolver) (hd : (s.decide o).var ≠ 0) :
    mapFind s.assignment (s.decide o).var = none ∧ (s.decide o).negated = false := by
  unfold CDCLSolver.decide at hd ⊢
  simp only at hd ⊢
  cases hu : (o.mapKeys (s.varActivity.map Prod.fst)).filter
      (fun v => (mapFind s.assignment v).isNone) with
  | nil =>
    rw [hu] at hd
    exact absurd rfl hd
  | cons v0 rest =>
    simp only
    refine ⟨?_, trivial⟩
    have hmem := foldl_best_mem s.activityOf rest v0
    rw [← hu, List.mem_filter] at hmem
    simpa using hmem.2

/-- After a decision made where no clause is falsified and none is unit, no clause is
falsified. -/
theorem noFalsified_assignDecision (o : IterOrder) (s : CDCLSolver)
    (hnd : ∀ c ∈ s.clauses, c.literals.Nodup) (hF : NoFalsified s)
    (hU : ∀ c ∈ s.clauses, c.isUnit s.assignment = false) (hd : (s.decide o).var ≠ 0) :
    NoFalsified (s.assignDecision (s.decide o)) := by
  intro c hc
  simp only [assignDecision_clauses] at hc
  simp only [assignDecision_assignment]
  cases hf : c.isFalse (mapSet s.assignment (s.decide o).var (!(s.decide o).negated)) with
  | false => rfl
  | true =>
    exfalso
    rcases isFalse_mapSet_unassigned c s.assignment _ _ (hnd c hc)
      (decide_unassigned o s hd).1 hf with h1 | h1
    · rw [hF c hc] at h1
      simp at h1
    · rw [hU c hc] at h1
      simp at h1

/-- After a unit assignment made where no clause is falsified, no clause is falsified by
the assignments made below the current level's `levelVars` set. -/
theorem noFalsified_assign_below (s : CDCLSolver) (l : Literal) (r : Option Clause)
    (hF : NoFalsified s) :
    NoFalsifiedBelow (s.assign l s.decisionLevel r) (s.assign l s.decisionLevel r).clauses := by
  intro c hc
  simp only [assign_clauses] at hc
  cases hf : c.isFalse ((s.assign l s.decisionLevel r).currentLevelVars.foldl mapErase
      (s.assign l s.decisionLevel r).assignment) with
  | false => rfl
  | true =>
    exfalso
    have := isFalse_of_sub c _ s.assignment ?_ hf
    · rw [hF c hc] at this
      simp at this
    · intro v b hvb
      simp only [CDCLSolver.currentLevelVars, assign_levelVars, assign_decisionLevel,
        assign_assignment, mapFind_mapSet_self, Option.getD_some, mapFind_foldl_mapErase,
        mem_setInsert] at hvb
      by_cases hv : l.var = v
      · rw [if_pos (Or.inr hv.symm)] at hvb
        simp at hvb
      · by_cases hv2 : v ∈ (mapFind s.levelVars s.decisionLevel).getD []
        · rw [if_pos (Or.inl hv2)] at hvb
          simp at hvb
        · rw [if_neg (by
            intro hcon
            rcases hcon with hcon | hcon
            · exact hv2 hcon
            · exact hv hcon.symm)] at hvb
          rw [mapFind_mapSet, if_neg hv] at hvb
          exact hvb

/-- The level `getDecisionLevel` returns for a variable is -1 when the variable has no
trail entry and the level of one of its trail entries otherwise. -/
theorem getDecisionLevel_spec (s : CDCLSolver) (v : Int) :
    (s.getDecisionLevel v = -1 ∧ ∀ e ∈ s.trail, e.literal.var ≠ v) ∨
      ∃ e ∈ s.trail, e.literal.var = v ∧ e.level = s.getDecisionLevel v := by
  unfold CDCLSolver.getDecisionLevel
  cases hf : s.trail.reverse.find? (fun e => e.literal.var = v) with
  | none =>
    left
    refine ⟨rfl, ?_⟩
    intro e he
    have := List.find?_eq_none.mp hf e (List.mem_reverse.mpr he)
    simpa using this
  | some e =>
    right
    refine ⟨e, List.mem_reverse.mp (List.mem_of_find?_eq_some hf), ?_, rfl⟩
    have := List.find?_some hf
    simpa using this

/-- The loop that computes the backtrack level: the result bounds the level of every
literal, and is the initial value or the level of one of the literals. -/
theorem backtrackLevel_foldl (s : CDCLSolver) (lits : List Literal) :
    ∀ b : Int, 0 ≤ b →
      b ≤ lits.foldl (fun backtrackLevel lit =>
        if s.getDecisionLevel lit.var > 0 then max backtrackLevel (s.getDecisionLevel lit.var)
        else backtrackLevel) b ∧
      (∀ l ∈ lits, s.getDecisionLevel l.var ≤ lits.foldl (fun backtrackLevel lit =>
        if s.getDecisionLevel lit.var > 0 then max backtrackLevel (s.getDecisionLevel lit.var)
        else backtrackLevel) b) ∧
      (lits.foldl (fun backtrackLevel lit =>
        if s.getDecisionLevel lit.var > 0 then max backtrackLevel (s.getDecisionLevel lit.var)
        else backtrackLevel) b = b ∨
        ∃ l ∈ lits, s.getDecisionLevel l.var = lits.foldl (fun backtrackLevel lit =>
          if s.getDecisionLevel lit.var > 0 then max backtrackLevel (s.getDecisionLevel lit.var)
          else backtrackLevel) b) := by
  induction lits with
  | nil => intro b hb; exact ⟨le_rfl, by simp, Or.inl rfl⟩
  | cons l lits ih =>
    intro b hb
    rw [List.foldl_cons]
    by_cases hl : s.getDecisionLevel l.var > 0
    · rw [if_pos hl]
      obtain ⟨h1, h2, h3⟩ := ih (max b (s.getDecisionLevel l.var)) (le_max_of_le_left hb)
      refine ⟨le_trans (le_max_left _ _) h1, ?_, ?_⟩
      · intro x hx
        rcases List.mem_cons.mp hx with rfl | hx
        · exact le_trans (le_max_right _ _) h1
        · exact h2 x hx
      · rcases h3 with h3 | ⟨x, hx, hxe⟩
        · rcases max_choice b (s.getDecisionLevel l.var) with hm | hm
          · left; rw [h3, hm]
          · right
            exact ⟨l, List.mem_cons_self _ _, by rw [h3, hm]⟩
        · right
          exact ⟨x, List.mem_cons_of_mem _ hx, hxe⟩
    · rw [if_neg hl]
      obtain ⟨h1, h2, h3⟩ := ih b hb
      refine ⟨h1, ?_, ?_⟩
      · intro x hx
        rcases List.mem_cons.mp hx with rfl | hx
        · omega
        · exact h2 x hx
      · rcases h3 with h3 | ⟨x, hx, hxe⟩
        · exact Or.inl h3
        · right
          exact ⟨x, List.mem_cons_of_mem _ hx, hxe⟩

theorem backtrackLevelOf_spec (s : CDCLSolver) (c : Clause) :
    (∀ l ∈ c.literals, s.getDecisionLevel l.var ≤ s.backtrackLevelOf c) ∧
      (s.backtrackLevelOf c = 0 ∨
        ∃ l ∈ c.literals, s.getDecisionLevel l.var = s.backtrackLevelOf c) := by
  obtain ⟨_, h2, h3⟩ := backtrackLevel_foldl s c.literals 0 le_rfl
  exact ⟨h2, h3⟩

/-- The backtrack level computed from a clause does not exceed the decision level. -/
theorem backtrackLevelOf_le (s : CDCLSolver) (h : SoundInv s) (c : Clause) :
    s.backtrackLevelOf c ≤ s.decisionLevel := by
  rcases (backtrackLevelOf_spec s c).2 with h0 | ⟨l, _, hl⟩
  · rw [h0]; exact h.level_nonneg
  · rw [← hl]
    rcases getDecisionLevel_spec s l.var with ⟨h1, _⟩ | ⟨e, he, _, hlev⟩
    · rw [h1]
      have := h.level_nonneg
      omega
    · rw [← hlev]
      exact (h.trail_levels e he).2

/-- Some literal of a non-empty clause is unassigned after `backtrack` to the level
computed from the clause. -/
theorem exists_unassigned_after_backtrack (s : CDCLSolver) (h : SoundInv s) (c : Clause)
    (hne : c.literals ≠ []) :
    ∃ l ∈ c.literals, mapFind (s.backtrack (s.backtrackLevelOf c)).assignment l.var = none := by
  have hβ0 := backtrackLevelOf_nonneg s c
  have hβd := backtrackLevelOf_le s h c
  rw [backtrack_of_nonneg s _ hβ0]
  simp only [mapFind_foldl_mapErase]
  have key : ∀ l ∈ c.literals, s.getDecisionLevel l.var = s.backtrackLevelOf c ∨
      s.getDecisionLevel l.var = -1 →
      (if l.var ∈ s.varsToRemove (s.backtrackLevelOf c) then none
        else mapFind s.assignment l.var) = none := by
    intro l _ hlev
    rcases getDecisionLevel_spec s l.var with ⟨_, hno⟩ | ⟨e, he, hev, hel⟩
    · split
      · rfl
      · cases hm : mapFind s.assignment l.var with
        | none => rfl
        | some b =>
          exfalso
          obtain ⟨e, he, hev⟩ := h.assigned_trail l.var (by rw [hm]; rfl)
          exact hno e he hev
    · have hle := (h.trail_levels e he).1
      rcases hlev with hlev | hlev
      · rw [if_pos]
        rw [mem_varsToRemove]
        refine ⟨e.level, by omega, (h.trail_levels e he).2, ?_⟩
        rw [← hev]
        exact h.trail_levelVars e he
      · omega
  obtain ⟨hall, hor⟩ := backtrackLevelOf_spec s c
  rcases hor with h0 | ⟨l, hl, hlev⟩
  · obtain ⟨l, hl⟩ := List.exists_mem_of_ne_nil _ hne
    refine ⟨l, hl, key l hl ?_⟩
    have h1 := hall l hl
    rcases getDecisionLevel_spec s l.var with ⟨h2, _⟩ | ⟨e, he, _, hel⟩
    · exact Or.inr h2
    · left
      have := (h.trail_levels e he).1
      omega
  · exact ⟨l, hl, key l hl (Or.inl hlev)⟩

/-! ## The learned clause on duplicate-free input -/

theorem nodup_foldl_setInsert (ys acc : List Literal) (h : acc.Nodup) :
    (ys.foldl setInsert acc).Nodup := by
  induction ys generalizing acc with
  | nil => exact h
  | cons y ys ih =>
    rw [List.foldl_cons]
    apply ih
    unfold setInsert
    by_cases hy : y ∈ acc
    · rw [if_pos hy]; exact h
    · rw [if_neg hy]
      exact List.Nodup.append h (List.nodup_singleton y) (by
        intro a ha hb
        rw [List.mem_singleton.mp hb] at ha
        exact hy ha)

theorem nodup_resolveOn (o : IterOrder) (ho : o.Valid) (cur R : Clause) (v : Int) :
    (resolveOn o cur R v).literals.Nodup := by
  unfold resolveOn Clause.new
  simp only
  rw [(ho.2 _).nodup_iff]
  exact nodup_foldl_setInsert _ [] List.nodup_nil

/-- An empty resolvent: the reason clause resolved on has no literal on another
variable. -/
theorem resolveOn_nil (o : IterOrder) (ho : o.Valid) (cur R : Clause) (v : Int)
    (h : (resolveOn o cur R v).literals = []) :
    R.literals.filter (fun l => l.var = v) = R.literals := by
  rw [List.filter_eq_self]
  intro l hl
  by_contra hcon
  have hmem : l ∈ litSetOf (cur.literals.filter (fun lit => lit.var ≠ v) ++
      R.literals.filter (fun lit => lit.var ≠ v)) := by
    rw [mem_litSetOf, List.mem_append]
    right
    rw [List.mem_filter]
    exact ⟨hl, by simpa using hcon⟩
  have hmem2 : l ∈ (resolveOn o cur R v).literals := (ho.2 _).mem_iff.mpr hmem
  rw [h] at hmem2
  simp at hmem2

theorem lastLevelVar_mem (lv : List Int) (c : Clause) (h : lastLevelVar lv c ≠ 0) :
    lastLevelVar lv c ∈ lv := by
  unfold lastLevelVar at h ⊢
  cases hf : c.literals.find? (fun lit => lit.var ∈ lv) with
  | none => rw [hf] at h; exact absurd rfl h
  | some l =>
    have := List.find?_some hf
    simpa using this

/-- Invariant of the resolution loop on duplicate-free input. -/
theorem analyzeBody_learned (o : IterOrder) (ho : o.Valid) (lv : List Int) (s : CDCLSolver)
    (hS : SoundInv s) (st : CDCLSolver × Clause) (hF : FrameEq s st.1)
    (hnd : st.2.literals.Nodup) (hne : st.2.literals ≠ [])
    (h0 : ∀ l ∈ st.2.literals, l.var ≠ 0) :
    match analyzeBody o lv st with
    | Step.done r =>
      FrameEq s r.1 ∧ r.2.literals.Nodup ∧ (∀ l ∈ r.2.literals, l.var ≠ 0) ∧
        (r.2.literals = [] → ∃ R ∈ s.clauses, ∃ l, R.literals = [l] ∧ l.var ∈ lv)
    | Step.next st1 =>
      FrameEq s st1.1 ∧ st1.2.literals.Nodup ∧ st1.2.literals ≠ [] ∧
        ∀ l ∈ st1.2.literals, l.var ≠ 0 := by
  have hres : ∀ R, mapFind st.1.reason (lastLevelVar lv st.2) = some (some R) →
      R ∈ s.clauses ∧ (R.literals.filter (fun l => l.var = lastLevelVar lv st.2)).length = 1 ∧
        ∀ l ∈ (resolveOn o st.2 R (lastLevelVar lv st.2)).literals, l.var ≠ 0 := by
    intro R hR
    obtain ⟨hR1, hR2⟩ := hS.reasons _ R (hF.reason _ R hR)
    refine ⟨hR1, hR2, ?_⟩
    intro l hl
    rcases mem_resolveOn o ho _ _ _ l hl with h1 | h1
    · exact h0 l h1
    · exact hS.keys_nonzero _ (hS.clause_keys R hR1 l h1)
  rcases analyzeBody_cases o lv st with ⟨_, hb⟩ | ⟨_, _, hb⟩ | ⟨R, hlast, hR, _, hb⟩ |
    ⟨R, _, hR, hcnt, hb⟩
  · rw [hb]
    exact ⟨hF, hnd, h0, fun h => absurd h hne⟩
  · rw [hb]
    exact ⟨frameEq_touchReason hF _, hnd, h0, fun h => absurd h hne⟩
  · rw [hb]
    obtain ⟨hR1, hR2, hR3⟩ := hres R hR
    refine ⟨frameEq_touchReason hF _, nodup_resolveOn o ho _ _ _, hR3, ?_⟩
    intro hnil
    have hall := resolveOn_nil o ho _ _ _ hnil
    rw [hall] at hR2
    obtain ⟨l, hl⟩ := List.length_eq_one.mp hR2
    refine ⟨R, hR1, l, hl, ?_⟩
    have hlm : l ∈ R.literals.filter (fun l => l.var = lastLevelVar lv st.2) := by
      rw [hall, hl]; simp
    rw [List.mem_filter] at hlm
    have hlv : l.var = lastLevelVar lv st.2 := by simpa using hlm.2
    rw [hlv]
    exact lastLevelVar_mem lv st.2 hlast
  · rw [hb]
    obtain ⟨_, _, hR3⟩ := hres R hR
    refine ⟨frameEq_touchReason hF _, nodup_resolveOn o ho _ _ _, ?_, hR3⟩
    intro hnil
    apply hcnt
    unfold CDCLSolver.currentLvlCount
    rw [hnil]
    simp

/-- What `analyzeConflict` returns on duplicate-free input. -/
theorem analyzeConflict_learned (o : IterOrder) (ho : o.Valid) (fuel : Nat)
    (s s1 : CDCLSolver) (conflict learnedClause : Clause) (backtrackLevel : Int)
    (hS : SoundInv s) (hne : NoEmptyClause s.clauses) (hc : conflict ∈ s.clauses)
    (h0 : s.decisionLevel ≠ 0)
    (h : s.analyzeConflict o fuel conflict = some (s1, learnedClause, backtrackLevel)) :
    FrameEq s s1 ∧ LearnedOk s1 learnedClause backtrackLevel := by
  obtain ⟨hF, hβ⟩ := analyzeConflict_frame o fuel s s1 conflict learnedClause backtrackLevel h0 h
  refine ⟨hF, ?_⟩
  unfold CDCLSolver.analyzeConflict at h
  simp only [h0, if_false, Option.map_eq_some'] at h
  obtain ⟨r, hr, hx⟩ := h
  simp only [Prod.mk.injEq] at hx
  obtain ⟨rfl, rfl, _⟩ := hx
  unfold analyzeLoop at hr
  have hpost := whileTrue_invariant _
    (fun st => FrameEq s st.1 ∧ st.2.literals.Nodup ∧ st.2.literals ≠ [] ∧
      ∀ l ∈ st.2.literals, l.var ≠ 0)
    (fun r => FrameEq s r.1 ∧ r.2.literals.Nodup ∧ (∀ l ∈ r.2.literals, l.var ≠ 0) ∧
      (r.2.literals = [] →
        ∃ R ∈ s.clauses, ∃ l, R.literals = [l] ∧ l.var ∈ s.currentLevelVars))
    ?_ ?_ fuel _ r
    ⟨frameEq_touchLevelVars s, hS.nodup conflict hc, hne conflict hc,
      fun l hl => hS.keys_nonzero _ (hS.clause_keys conflict hc l hl)⟩ hr
  · obtain ⟨_, h1, h2, h3⟩ := hpost
    refine ⟨h1, h2, hβ, ?_, ?_⟩
    · have := hS.level_nonneg
      rw [hF.decisionLevel]
      omega
    · intro hnil
      obtain ⟨R, hR, l, hl, hlv⟩ := h3 hnil
      refine ⟨R, by rw [hF.clauses]; exact hR, l, hl, ?_⟩
      unfold CDCLSolver.currentLevelVars at hlv ⊢
      rw [hF.levelVars, hF.decisionLevel]
      exact hlv
  · intro st r1 hst hb
    have := analyzeBody_learned o ho s.currentLevelVars s hS st hst.1 hst.2.1 hst.2.2.1 hst.2.2.2
    rw [Option.some.inj hb] at this
    exact this
  · intro st st1 hst hb
    have := analyzeBody_learned o ho s.currentLevelVars s hS st hst.1 hst.2.1 hst.2.2.1 hst.2.2.2
    rw [Option.some.inj hb] at this
    exact this

/-! ## Soundness on duplicate-free input (C20) -/

/-- From a doomed state the next pass of `unitPropagation` returns a conflict at decision
level 0. -/
theorem doomed_unitPropagationBody (s : CDCLSolver) (h : Doomed s) :
    ∃ s1 cf, s.unitPropagationBody = Step.done (s1, some cf) ∧ s1.decisionLevel = 0 := by
  obtain ⟨hd, ⟨u, hu, huu⟩, ⟨e, he, hee⟩⟩ := h
  rcases unitPropagationBody_cases s with ⟨hnone, _⟩ | ⟨u2, _, ⟨cf, _, hb⟩ | ⟨hcf, _⟩⟩
  · exfalso
    have := List.find?_eq_none.mp hnone u hu
    rw [huu] at this
    simp at this
  · exact ⟨_, cf, hb, by simpa using hd⟩
  · exfalso
    unfold CDCLSolver.checkConflict at hcf
    have := List.find?_eq_none.mp hcf e (by simpa using he)
    have hfe : e.isFalse (s.assign (u2.getUnitLiteral s.assignment) s.decisionLevel
        (some u2)).assignment = true := by
      rw [isFalse_iff, hee]
      simp
    rw [hfe] at this
    simp at this

/-- The state after `backtrack` of a conflict handled on duplicate-free input is doomed
or has no falsified clause. -/
theorem backjump_sound (s : CDCLSolver) (old : List Clause) (learnedClause : Clause)
    (backtrackLevel : Int)
    (hcl : s.clauses = old ++ [⟨learnedClause.literals, true, 0⟩]) (hS : SoundInv s)
    (hne : NoEmptyClause old) (hB : NoFalsifiedBelow s old)
    (hL : LearnedOk s learnedClause backtrackLevel) :
    Doomed (s.backtrack backtrackLevel) ∨
      (SoundInv (s.backtrack backtrackLevel) ∧ NoEmptyClause (s.backtrack backtrackLevel).clauses ∧
        NoFalsified (s.backtrack backtrackLevel)) := by
  obtain ⟨_, _, hβ, hd1, hnil⟩ := hL
  have hβ0 : 0 ≤ backtrackLevel := by rw [hβ]; exact backtrackLevelOf_nonneg _ _
  have hβd : backtrackLevel ≤ s.decisionLevel := by rw [hβ]; exact backtrackLevelOf_le s hS _
  have hcl2 : (s.backtrack backtrackLevel).clauses = s.clauses := by
    rw [backtrack_of_nonneg s _ hβ0]
  have herased : ∀ v ∈ s.currentLevelVars,
      mapFind (s.backtrack backtrackLevel).assignment v = none := by
    intro v hv
    exact (backtrack_erases_level_range s backtrackLevel s.decisionLevel v hβ0 hβd le_rfl hv).1
  by_cases hC : learnedClause.literals = []
  · left
    obtain ⟨R, hR, l, hRl, hlv⟩ := hnil hC
    have hβz : backtrackLevel = 0 := by
      rw [hβ]
      unfold CDCLSolver.backtrackLevelOf
      rw [hC]
      rfl
    refine ⟨by rw [backtrack_of_nonneg s _ hβ0]; exact hβz, ⟨R, by rw [hcl2]; exact hR, ?_⟩,
      ⟨⟨learnedClause.literals, true, 0⟩, by rw [hcl2, hcl]; simp, hC⟩⟩
    rw [isUnit_iff]
    have hun := herased l.var hlv
    constructor
    · cases ht : R.isTrue (s.backtrack backtrackLevel).assignment with
      | false => rfl
      | true =>
        exfalso
        rw [isTrue_iff, hRl] at ht
        obtain ⟨x, hx, b, hb, _⟩ := ht
        rw [List.mem_singleton.mp hx, hun] at hb
        simp at hb
    · rw [hRl]
      simp [hun]
  · right
    refine ⟨soundInv_backtrack hS _ hβ0, ?_, ?_⟩
    · intro c hc
      rw [hcl2, hcl, List.mem_append, List.mem_singleton] at hc
      rcases hc with hc | rfl
      · exact hne c hc
      · exact hC
    · intro c hc
      rw [hcl2, hcl, List.mem_append, List.mem_singleton] at hc
      cases hf : c.isFalse (s.backtrack backtrackLevel).assignment with
      | false => rfl
      | true =>
        exfalso
        rcases hc with hc | rfl
        · have := isFalse_of_sub c _ (s.currentLevelVars.foldl mapErase s.assignment) ?_ hf
          · rw [hB c hc] at this
            simp at this
          · intro v b hvb
            rw [mapFind_foldl_mapErase]
            by_cases hv : v ∈ s.currentLevelVars
            · rw [herased v hv] at hvb
              simp at hvb
            · rw [if_neg hv]
              rw [backtrack_of_nonneg s _ hβ0] at hvb
              simp only [mapFind_foldl_mapErase] at hvb
              split at hvb
              · simp at hvb
              · exact hvb
        · obtain ⟨l, hl, hun⟩ := exists_unassigned_after_backtrack s hS learnedClause hC
          rw [← hβ] at hun
          rw [isFalse_iff] at hf
          obtain ⟨b, hb, _⟩ := hf l hl
          rw [hun] at hb
          simp at hb

/-- The invariant holds at every control point `solve` reaches, under every valid
iteration order, when it holds at the start. -/
theorem reach_soundAt (o : IterOrder) (ho : o.Valid) (s0 : CDCLSolver)
    (hstart : SoundAt SolvePoint.propagating { s0 with decisionLevel := 0 })
    (pc : SolvePoint) (s : CDCLSolver) (h : SolveReach o s0 pc s) : SoundAt pc s := by
  induction h with
  | start => exact hstart
  | unitNext s s1 _ hb ih =>
    rcases ih with hD | ⟨hS, hne, hF⟩
    · obtain ⟨s2, cf, hb2, _⟩ := doomed_unitPropagationBody _ hD
      rw [hb2] at hb
      simp at hb
    · rcases unitPropagationBody_cases s with ⟨_, hb2⟩ | ⟨u, hu, ⟨cf, _, hb2⟩ | ⟨hcf, hb2⟩⟩
      · rw [hb2] at hb; simp at hb
      · rw [hb2] at hb; simp at hb
      · rw [hb2] at hb
        simp only [Step.next.injEq] at hb
        subst hb
        have hum : u ∈ s.clauses := List.mem_of_find?_eq_some hu
        have huu : u.isUnit s.assignment = true := by simpa using List.find?_some hu
        obtain ⟨hg1, _, hg3⟩ := getUnitLiteral_spec u s.assignment huu
        right
        refine ⟨soundInv_assign hS _ _ (hS.keys_nonzero _ (hS.clause_keys u hum _ hg1)) ?_, ?_, ?_⟩
        · intro R hR
          rw [← Option.some.inj hR]
          exact ⟨hum, hg3⟩
        · simpa using hne
        · intro c hc
          unfold CDCLSolver.checkConflict at hcf
          have := List.find?_eq_none.mp hcf c hc
          simpa using this
  | unitConflict s s1 cf _ hb ih =>
    rcases ih with hD | ⟨hS, hne, hF⟩
    · obtain ⟨s2, cf2, hb2, hd2⟩ := doomed_unitPropagationBody _ hD
      rw [hb2] at hb
      simp only [Step.done.injEq, Prod.mk.injEq] at hb
      obtain ⟨rfl, _⟩ := hb
      exact Or.inl hd2
    · rcases unitPropagationBody_cases s with ⟨_, hb2⟩ | ⟨u, hu, ⟨cf2, hcf, hb2⟩ | ⟨_, hb2⟩⟩
      · rw [hb2] at hb; simp at hb
      · rw [hb2] at hb
        simp only [Step.done.injEq, Prod.mk.injEq, Option.some.injEq] at hb
        obtain ⟨rfl, rfl⟩ := hb
        have hum : u ∈ s.clauses := List.mem_of_find?_eq_some hu
        have huu : u.isUnit s.assignment = true := by simpa using List.find?_some hu
        obtain ⟨hg1, _, hg3⟩ := getUnitLiteral_spec u s.assignment huu
        right
        refine ⟨soundInv_assign hS _ _ (hS.keys_nonzero _ (hS.clause_keys u hum _ hg1)) ?_, ?_,
          noFalsified_assign_below s _ _ hF, List.mem_of_find?_eq_some hcf⟩
        · intro R hR
          rw [← Option.some.inj hR]
          exact ⟨hum, hg3⟩
        · simpa using hne
      · rw [hb2] at hb; simp at hb
  | fixpoint s s1 _ hb ih =>
    rcases ih with hD | ⟨hS, hne, hF⟩
    · obtain ⟨s2, cf, hb2, _⟩ := doomed_unitPropagationBody _ hD
      rw [hb2] at hb
      simp at hb
    · rcases unitPropagationBody_cases s with ⟨hnone, hb2⟩ | ⟨u, _, ⟨cf2, _, hb2⟩ | ⟨_, hb2⟩⟩
      · rw [hb2] at hb
        simp only [Step.done.injEq, Prod.mk.injEq, and_true] at hb
        subst hb
        refine ⟨hS, hne, hF, ?_⟩
        intro c hc
        have := List.find?_eq_none.mp hnone c hc
        simpa using this
      · rw [hb2] at hb; simp at hb
      · rw [hb2] at hb; simp at hb
  | decision s _ hd ih =>
    obtain ⟨hS, hne, hF, hU⟩ := ih
    right
    exact ⟨soundInv_assignDecision hS _ hd, by simpa using hne,
      noFalsified_assignDecision o s hS.nodup hF hU hd⟩
  | analysis fuel s s1 cf C β _ hd ha ih =>
    rcases ih with h0 | ⟨hS, hne, hB, hcf⟩
    · exact absurd h0 hd
    · obtain ⟨hFr, hL⟩ := analyzeConflict_learned o ho fuel s s1 cf C β hS hne hcf hd ha
      refine ⟨soundInv_frame hS hFr, by rw [hFr.clauses]; exact hne, ?_, hL⟩
      intro c hc
      rw [hFr.clauses] at hc
      have := hB c hc
      unfold CDCLSolver.currentLevelVars at this ⊢
      rw [hFr.levelVars, hFr.decisionLevel, hFr.assignment]
      exact this
  | learn s C β _ ih =>
    obtain ⟨hS, hne, hB, hL⟩ := ih
    refine ⟨s.clauses, learn_clauses s C.literals, soundInv_learn hS _ hL.1 hL.2.1, hne, hB, ?_⟩
    obtain ⟨h1, h2, h3, h4, h5⟩ := hL
    refine ⟨h1, h2, h3, h4, ?_⟩
    intro hnil
    obtain ⟨R, hR, l, hl, hlv⟩ := h5 hnil
    exact ⟨R, by rw [learn_clauses]; exact List.mem_append_left _ hR, l, hl, hlv⟩
  | backjump s C β _ ih =>
    obtain ⟨old, hcl, hS, hne, hB, hL⟩ := ih
    exact backjump_sound s old C β hcl hS hne hB hL
  | assertion s C β hprev ih =>
    rw [reach_assertLearned_eq o s0 s C β hprev]
    exact ih

theorem rawLiteral_injective (x y : Int) (hy : y ≠ 0)
    (h : rawLiteral x = rawLiteral y) : x = y := by
  unfold rawLiteral at h
  simp only [Literal.mk.injEq, decide_eq_decide] at h
  obtain ⟨h1, h2⟩ := h
  rcases abs_eq_abs.mp (wrapInt32_abs_injective x y h1) with h3 | h3
  · exact h3
  · exfalso
    by_cases hneg : x < 0
    · have := h2.mp hneg
      omega
    · have : ¬ y < 0 := fun hcon => hneg (h2.mpr hcon)
      omega

theorem rawLiterals_nodup (clause : List Int) (h : clause.Nodup) :
    (rawLiterals clause).Nodup := by
  unfold rawLiterals
  apply List.Nodup.map_on _ (h.filter _)
  intro x hx y hy hxy
  rw [List.mem_filter] at hx hy
  exact rawLiteral_injective x y (by simpa using hy.2) hxy

theorem freshInv_addClause {s : CDCLSolver} (h : FreshInv s) (lits : List Literal)
    (hnd : lits.Nodup) (hne : lits ≠ []) (hl : ∀ l ∈ lits, l.var ≠ 0) :
    FreshInv (s.addClause lits) := by
  have hva : (s.addClause lits).varActivity =
      lits.foldl (fun m lit => mapSet m lit.var 0) s.varActivity := rfl
  refine ⟨?_, ?_, h.trail_nil, h.assignment_nil, h.reason_nil, ?_, ?_⟩
  · intro c hc
    rw [addClause_clauses, List.mem_append] at hc
    rcases hc with hc | hc
    · exact h.nodup c hc
    · have : c = ⟨lits, false, 0⟩ := by simpa using hc
      subst this
      exact hnd
  · intro c hc
    rw [addClause_clauses, List.mem_append] at hc
    rcases hc with hc | hc
    · exact h.nonempty c hc
    · have : c = ⟨lits, false, 0⟩ := by simpa using hc
      subst this
      exact hne
  · intro c hc l hlc
    rw [addClause_clauses, List.mem_append] at hc
    rw [hva, mem_keys_foldl_mapSet]
    rcases hc with hc | hc
    · exact Or.inl (h.clause_keys c hc l hlc)
    · have : c = ⟨lits, false, 0⟩ := by simpa using hc
      subst this
      exact Or.inr ⟨l, hlc, rfl⟩
  · intro k hk
    rw [hva, mem_keys_foldl_mapSet] at hk
    rcases hk with hk | ⟨l, hl1, rfl⟩
    · exact h.keys_nonzero k hk
    · exact hl l hl1

theorem freshInv_fold (raw : List (List Int)) (hraw : ∀ c ∈ raw, c.Nodup) (s : CDCLSolver)
    (h : FreshInv s) :
    FreshInv (raw.foldl (fun solver clause =>
        let literals := rawLiterals clause
        if literals ≠ [] then solver.addClause literals else solver) s) := by
  induction raw generalizing s with
  | nil => exact h
  | cons c rest ih =>
    rw [List.foldl_cons]
    apply ih (fun c2 hc2 => hraw c2 (List.mem_cons_of_mem _ hc2))
    simp only
    by_cases hne : rawLiterals c ≠ []
    · rw [if_pos hne]
      exact freshInv_addClause h _ (rawLiterals_nodup c (hraw c (List.mem_cons_self _ _))) hne
        (rawLiterals_var_ne_zero c)
    · rw [if_neg hne]
      exact h

theorem freshInv_CNFSolver (raw : List (List Int)) (hraw : ∀ c ∈ raw, c.Nodup) :
    FreshInv (CNFSolver raw) :=
  freshInv_fold raw hraw CDCLSolver.new
    ⟨by simp [CDCLSolver.new], by simp [CDCLSolver.new], rfl, rfl, rfl,
      by simp [CDCLSolver.new], by simp [CDCLSolver.new]⟩

/-- The invariant holds when `solve` starts on a solver built from duplicate-free
clauses. -/
theorem freshInv_soundAt {s : CDCLSolver} (h : FreshInv s) :
    SoundAt SolvePoint.propagating { s with decisionLevel := 0 } := by
  right
  refine ⟨⟨h.nodup, le_rfl, ?_, ?_, ?_, ?_, h.clause_keys, h.keys_nonzero⟩, h.nonempty, ?_⟩
  · intro e he
    rw [show ({ s with decisionLevel := 0 } : CDCLSolver).trail = s.trail from rfl,
      h.trail_nil] at he
    simp at he
  · intro e he
    rw [show ({ s with decisionLevel := 0 } : CDCLSolver).trail = s.trail from rfl,
      h.trail_nil] at he
    simp at he
  · intro v hv
    rw [show ({ s with decisionLevel := 0 } : CDCLSolver).assignment = s.assignment from rfl,
      h.assignment_nil] at hv
    simp [mapFind] at hv
  · intro v R hR
    rw [show ({ s with decisionLevel := 0 } : CDCLSolver).reason = s.reason from rfl,
      h.reason_nil] at hR
    simp [mapFind] at hR
  · intro c hc
    cases hf : c.isFalse ({ s with decisionLevel := 0 } : CDCLSolver).assignment with
    | false => rfl
    | true =>
      exfalso
      rw [isFalse_iff] at hf
      obtain ⟨l, hl⟩ := List.exists_mem_of_ne_nil _ (h.nonempty c hc)
      obtain ⟨b, hb, _⟩ := hf l hl
      rw [show ({ s with decisionLevel := 0 } : CDCLSolver).assignment = s.assignment from rfl,
        h.assignment_nil] at hb
      simp [mapFind] at hb

/-- On duplicate-free input, whenever `unitPropagation` has returned `nullptr` in
`solve`, no clause of the store is unit and none is falsified. -/
theorem fixpoint_sound_on_duplicate_free (o : IterOrder) (ho : o.Valid)
    (raw : List (List Int)) (hraw : ∀ c ∈ raw, c.Nodup) (s : CDCLSolver)
    (h : SolveReach o (CNFSolver raw) SolvePoint.deciding s) :
    (∀ c ∈ s.clauses, c.isUnit s.assignment = false) ∧
      ∀ c ∈ s.clauses, c.isFalse s.assignment = false := by
  obtain ⟨_, _, hF, hU⟩ := reach_soundAt o ho (CNFSolver raw)
    (freshInv_soundAt (freshInv_CNFSolver raw hraw)) SolvePoint.deciding s h
  exact ⟨hU, hF⟩

